import Mathlib

/-!
Verification development for the `schema_sync` module: a shallow embedding of
its data model and operations over `List Char`, together with theorems about
the behaviour of the embedded pipeline.

Conventions of the embedding:
* Python strings are `List Char` (abbreviated `Str`); `String.data` converts
  literals.
* Python exceptions that escape a function are modelled with `Except Str`;
  the absorbed `ValueError` of the comma loop in `split_table_schema` is
  modelled by the loop's normal termination.
* The regular expressions of the source are hand-translated into explicit
  character scanners with the same matching semantics (case-insensitive
  literals, greedy word runs, leftmost non-overlapping substitution).
* `dict`/`OrderedDict` become association lists with insertion order and
  overwrite-on-duplicate-key semantics (`odInsert`).
-/

abbrev Str := List Char

/-- The apostrophe character (string-quote recognised by the scanners). -/
def aposC : Char := '\x27'

/-- The double-quote character. -/
def quotC : Char := '\x22'

/-- The backtick character used to quote SQL identifiers. -/
def btickC : Char := '\x60'

/-- The whitespace class of the regex `\s`. -/
def isPyWs (c : Char) : Bool :=
  c = ' ' || c = '\t' || c = '\n' || c = '\r' || c = '\x0b' || c = '\x0c'

/-- The module's `WHITESPACES` tuple (used only by `normalize_expr`). -/
def WHITESPACES : List Char := [' ', '\t', '\n', '\r']

/-- The module's `OPERATORS` tuple. -/
def OPERATORS : List Char := [',', '+', '-', '/', '*', '&', '<', '=', '>', '%', '^']

/-- The word-character class of the regex `\w` (ASCII inputs). -/
def isWordChar (c : Char) : Bool :=
  c.isAlpha || c.isDigit || c = '_'

/-- Case-insensitive character comparison, as used by `re.I`. -/
def ciEq (c d : Char) : Bool := c.toLower = d.toLower

/-- Lowercase a whole string, as `str.lower()`. -/
def toLowerL (s : Str) : Str := s.map Char.toLower

/-- Uppercase a whole string, as `str.upper()`. -/
def toUpperL (s : Str) : Str := s.map Char.toUpper

/-- `startsWithL p s` decides whether `p` is an initial segment of `s`. -/
def startsWithL : Str → Str → Bool
  | [], _ => true
  | _ :: _, [] => false
  | p :: ps, c :: cs => p = c && startsWithL ps cs

/-- Consume the literal `lit` case-insensitively at the front of `s`,
returning the consumed original characters and the remainder. -/
def matchCIP : Str → Str → Option (Str × Str)
  | [], s => some ([], s)
  | _ :: _, [] => none
  | l :: ls, c :: cs =>
    if ciEq l c then
      match matchCIP ls cs with
      | some (t, r) => some (c :: t, r)
      | none => none
    else none

/-- Whether `s` starts with `lit` up to case. -/
def startsWithCI (lit s : Str) : Bool := (matchCIP lit s).isSome

/-- Python `str.strip()` on both ends. -/
def stripL (s : Str) : Str :=
  ((s.dropWhile fun c => isPyWs c).reverse.dropWhile fun c => isPyWs c).reverse

/-- Python `sep.join(parts)`. -/
def joinL (sep : Str) : List Str → Str
  | [] => []
  | [p] => p
  | p :: ps => p ++ sep ++ joinL sep ps

/-- Python slice `s[a:b]` for `0 ≤ a ≤ b`. -/
def sliceL (s : Str) (a b : Nat) : Str := (s.drop a).take (b - a)

/-- Python `str.find(c, start)`: index of the first occurrence, or `-1`. -/
def pyFind (s : Str) (c : Char) (start : Nat) : Int :=
  match (s.drop start).findIdx? (· = c) with
  | some i => (start : Int) + i
  | none => -1

/-- Python slice `s[:i]` for a possibly negative `i`. -/
def pySliceTo (s : Str) (i : Int) : Str :=
  if i < 0 then s.take ((s.length : Int) + i).toNat else s.take i.toNat


/-- Generic non-overlapping substitution scanner.  `try1` inspects the
current suffix and returns the text to emit plus the number of characters
consumed (treated as at least one).  The `Nat` argument counts characters
that are still to be skipped from an earlier match. -/
def scanGo (try1 : Str → Option (Str × Nat)) : Str → Nat → Str
  | [], _ => []
  | _ :: rest, n + 1 => scanGo try1 rest n
  | c :: rest, 0 =>
    match try1 (c :: rest) with
    | some (e, k) => e ++ scanGo try1 rest (k - 1)
    | none => c :: scanGo try1 rest 0

/-- Run a substitution scanner over a whole string. -/
def scanSub (try1 : Str → Option (Str × Nat)) (s : Str) : Str := scanGo try1 s 0

/-- Python `str.replace(pat, repl)` for a non-empty `pat` (leftmost,
non-overlapping); an empty `pat` returns the string unchanged. -/
def replaceAllL (pat repl s : Str) : Str :=
  if pat = [] then s
  else scanSub (fun r => if startsWithL pat r then some (repl, pat.length) else none) s

/-- Generic non-overlapping match collector (the semantics of `re.findall`):
`try1` returns a collected value plus the number of characters consumed. -/
def collectGo {α : Type} (try1 : Str → Option (α × Nat)) : Str → Nat → List α
  | [], _ => []
  | _ :: rest, n + 1 => collectGo try1 rest n
  | c :: rest, 0 =>
    match try1 (c :: rest) with
    | some (a, k) => a :: collectGo try1 rest (k - 1)
    | none => collectGo try1 rest 0

/-- Run a match collector over a whole string. -/
def collectAll {α : Type} (try1 : Str → Option (α × Nat)) (s : Str) : List α :=
  collectGo try1 s 0

/-- Indexed match collector (the semantics of `re.finditer`): returns
`(start, value, length)` for each non-overlapping match. -/
def collectIdxGo {α : Type} (try1 : Str → Option (α × Nat)) :
    Str → Nat → Nat → List (Nat × α × Nat)
  | [], _, _ => []
  | _ :: rest, n + 1, i => collectIdxGo try1 rest n (i + 1)
  | c :: rest, 0, i =>
    match try1 (c :: rest) with
    | some (a, k) => (i, a, k) :: collectIdxGo try1 rest (k - 1) (i + 1)
    | none => collectIdxGo try1 rest 0 (i + 1)

/-- Run an indexed match collector over a whole string. -/
def collectIdxAll {α : Type} (try1 : Str → Option (α × Nat)) (s : Str) :
    List (Nat × α × Nat) :=
  collectIdxGo try1 s 0 0

/-! ### `normalize_str` -/

/-- Collapse `\s+` runs to single spaces (the Boolean records whether the
previous character was whitespace). -/
def collapseGo : Str → Bool → Str
  | [], _ => []
  | c :: rest, prevWs =>
    if isPyWs c then
      if prevWs then collapseGo rest true else ' ' :: collapseGo rest true
    else
      c :: collapseGo rest false

/-- `normalize_str`: lowercase, then collapse whitespace runs. -/
def normalize_str (s : Str) : Str := collapseGo (toLowerL s) false

/-! ### `normalize_expr` -/

/-- Whether the previous character is one of `OPERATORS`. -/
def lcOp : Option Char → Bool
  | some l => l ∈ OPERATORS
  | none => false

/-- The loop of `normalize_expr`: state is the open string quote (if any),
the previous scanned character, and the reversed output accumulator.  On
the `continue` paths of the source the previous-character state is left
unchanged. -/
def normalize_expr_go : Str → Option Char → Option Char → Str → Str
  | [], _, _, acc => acc.reverse
  | c :: rest, none, lc, acc =>
    if c = aposC ∨ c = quotC then
      normalize_expr_go rest (some c) (some c) (c.toLower :: acc)
    else if c ∈ WHITESPACES ∧ lc = some ' ' then
      normalize_expr_go rest none lc acc
    else
      -- a remaining whitespace character is replaced by a plain space
      let c' := if c ∈ WHITESPACES then ' ' else c
      if c' = ' ' ∧ lcOp lc then
        normalize_expr_go rest none lc acc
      else if lc = some ' ' ∧ c' ∈ OPERATORS then
        normalize_expr_go rest none (some c') (c'.toLower :: acc.tail)
      else
        normalize_expr_go rest none (some c') (c'.toLower :: acc)
  | c :: rest, some q, _, acc =>
    if c = q then
      normalize_expr_go rest none (some c) (c :: acc)
    else
      normalize_expr_go rest (some q) (some c) (c :: acc)

/-- `normalize_expr`: normalize an SQL expression for comparison. -/
def normalize_expr (s : Str) : Str := normalize_expr_go s none none []

/-! ### `get_delimiter_pos` -/

/-- The `ValueError` message raised when a delimiter is missing; it names
the expected delimiter. -/
def delimErr (delim : Char) : Str :=
  ("Invalid SQL syntax, cannot find delimiter (").data ++
    aposC :: delim :: aposC :: (")!").data

/-- The scanning loop of `get_delimiter_pos`: tracks the open string quote
and the bracket depth (an integer, as in the source). -/
def get_delimiter_pos_go (delim : Char) (skipInBrackets : Bool) :
    Str → Nat → Option Char → Int → Except Str Nat
  | [], _, _, _ => .error (delimErr delim)
  | c :: rest, idx, none, depth =>
    if c = delim ∧ depth = 0 then .ok idx
    else if c = quotC ∨ c = aposC then
      get_delimiter_pos_go delim skipInBrackets rest (idx + 1) (some c) depth
    else if skipInBrackets ∧ c = '(' then
      get_delimiter_pos_go delim skipInBrackets rest (idx + 1) none (depth + 1)
    else if skipInBrackets ∧ c = ')' then
      get_delimiter_pos_go delim skipInBrackets rest (idx + 1) none (depth - 1)
    else
      get_delimiter_pos_go delim skipInBrackets rest (idx + 1) none depth
  | c :: rest, idx, some q, depth =>
    if c = q then
      get_delimiter_pos_go delim skipInBrackets rest (idx + 1) none depth
    else
      get_delimiter_pos_go delim skipInBrackets rest (idx + 1) (some q) depth

/-- `get_delimiter_pos`: find the next delimiter outside strings (and,
optionally, outside brackets); a missing delimiter is a `ValueError`. -/
def get_delimiter_pos (sql : Str) (offset : Nat) (delim : Char)
    (skipInBrackets : Bool) : Except Str Nat :=
  get_delimiter_pos_go delim skipInBrackets (sql.drop offset) offset none 0

/-! ### `filter_comments` -/

/-- Scanner state for `filter_comments`. -/
inductive FCState : Type
  | normal : FCState
  | inStr : Char → FCState
  | com1 : FCState
  | comM : FCState
deriving DecidableEq

open FCState in
/-- The loop of `filter_comments`.  The source indexes one character ahead
when it sees `-`, `/` (in normal state) or `*` (in a block comment); at the
end of the input this raises the terminating `IndexError`, so a final such
character is dropped exactly as in the source. -/
def filter_comments_go : Str → FCState → Str
  | [], _ => []
  | ['-'], normal => []
  | ['/'], normal => []
  | ['*'], comM => []
  | c :: d :: rest, normal =>
    if c = '-' ∧ d = '-' then filter_comments_go rest com1
    else if c = '#' then filter_comments_go (d :: rest) com1
    else if c = '/' ∧ d = '*' then filter_comments_go rest comM
    else if c = quotC ∨ c = aposC then c :: filter_comments_go (d :: rest) (inStr c)
    else c :: filter_comments_go (d :: rest) normal
  | [c], normal =>
    if c = '#' then [] else [c]
  | c :: rest, inStr q =>
    if c = q then c :: filter_comments_go rest normal
    else c :: filter_comments_go rest (inStr q)
  | c :: rest, com1 =>
    if c = '\n' then c :: filter_comments_go rest normal
    else filter_comments_go rest com1
  | c :: d :: rest, comM =>
    if c = '*' ∧ d = '/' then filter_comments_go rest normal
    else filter_comments_go (d :: rest) comM
  | [_], comM => []

/-- `filter_comments`: strip `--`, `#` and block comments outside strings. -/
def filter_comments (sql : Str) : Str := filter_comments_go sql .normal

/-! ### Ordered mappings and the data model -/

/-- Keys of an association list. -/
def odKeys (m : List (Str × Str)) : List Str := m.map Prod.fst

/-- Insert with `dict` semantics: overwrite in place on a duplicate key,
append a fresh key at the end. -/
def odInsert (m : List (Str × Str)) (k v : Str) : List (Str × Str) :=
  if k ∈ odKeys m then m.map (fun p => if p.1 = k then (k, v) else p)
  else m ++ [(k, v)]

/-- Build an ordered mapping from pairs (`OrderedDict(pairs)`): a later
duplicate key overwrites the earlier value, keeping the first position. -/
def odOfList (l : List (Str × Str)) : List (Str × Str) :=
  l.foldl (fun m p => odInsert m p.1 p.2) []

/-- Lookup in an ordered mapping (total: defaults to the empty string). -/
def odGet (m : List (Str × Str)) (k : Str) : Str :=
  ((m.find? fun p => p.1 = k).map Prod.snd).getD []

/-- `OrderedDict.fromkeys`: deduplicate keeping first occurrences. -/
def pyDedupGo : List Str → List Str → List Str
  | [], _ => []
  | x :: xs, seen =>
    if x ∈ seen then pyDedupGo xs seen else x :: pyDedupGo xs (x :: seen)

/-- Deduplicate a list of names keeping first occurrences. -/
def pyDedup (l : List Str) : List Str := pyDedupGo l []

/-- One declaration-level difference (`DiffInfo`); empty strings play the
role of Python's falsy defaults. -/
structure DiffInfo where
  src : Str := []
  dst : Str := []
deriving DecidableEq

/-- Per-table comparison result (`TableInfo`); `dst_orphan` holds the
pretty-printed CREATE statement, the empty string meaning "not set". -/
structure TableInfo where
  src_orphan : Bool := false
  dst_orphan : Str := []
  diffs : List DiffInfo := []
deriving DecidableEq

/-- The possible action names (`ActionTypes`). -/
inductive ActionTypes : Type
  | create
  | drop
  | add
  | remove
  | modify
deriving DecidableEq

/-- The SQL keyword carried by each action tag (`ActionTypes.value`). -/
def ActionTypes.value : ActionTypes → Str
  | .create => ("CREATE").data
  | .drop => ("DROP").data
  | .add => ("ADD").data
  | .remove => ("REMOVE").data
  | .modify => ("MODIFY").data

/-! ### Table locator -/

/-- Drop a leading `\s*` run. -/
def dropWsL (s : Str) : Str := s.dropWhile fun c => isPyWs c

def kwCREATE : Str := ("CREATE").data
def kwTEMPORARY : Str := ("TEMPORARY").data
def kwTABLE : Str := ("TABLE").data
def kwIFNOTEXISTS : Str := ("IF NOT EXISTS").data

/-- Parse `` `?(\w+)`? ``: an identifier in optional backticks; returns the
word (without backticks) and the remainder after the optional closing
backtick. -/
def parseIdent (s : Str) : Option (Str × Str) :=
  let s1 := match s with
    | c :: r => if c = btickC then r else s
    | [] => s
  let w := s1.takeWhile isWordChar
  let r2 := s1.dropWhile isWordChar
  if w = [] then none
  else
    match r2 with
    | c :: r3 => if c = btickC then some (w, r3) else some (w, r2)
    | [] => some (w, [])

/-- Parse `(?:`?(?:\w+)`?\.)?`?(\w+)`?`: an optionally qualified name;
returns the captured table name and the remainder.  If the qualified route
fails the unqualified route is taken, as the regex engine backtracks. -/
def qualNameAny (s : Str) : Option (Str × Str) :=
  match parseIdent s with
  | some (_, '.' :: r2) =>
    match parseIdent r2 with
    | some (w, r3) => some (w, r3)
    | none => parseIdent s
  | _ => parseIdent s

/-- Consume `CREATE(?:\s*TEMPORARY)?\s*TABLE\s*`, returning the remainder. -/
def afterCreateTable (s : Str) : Option Str :=
  match matchCIP kwCREATE s with
  | none => none
  | some (_, r1) =>
    let r2 := match matchCIP kwTEMPORARY (dropWsL r1) with
      | some (_, r) => r
      | none => r1
    match matchCIP kwTABLE (dropWsL r2) with
    | none => none
    | some (_, r3) => some (dropWsL r3)

/-- Try the optional `IF NOT EXISTS\s*` group in front of a tail parser,
backtracking to the ungrouped route when the tail fails. -/
def tryINE {α : Type} (tail : Str → Option α) (r4 : Str) : Option α :=
  match matchCIP kwIFNOTEXISTS r4 with
  | some (_, r5) =>
    match tail (dropWsL r5) with
    | some t => some t
    | none => tail r4
  | none => tail r4

/-- The per-position matcher of `get_table_names`: on success returns the
captured table name and the number of characters consumed. -/
def try_create_name (s : Str) : Option (Str × Nat) :=
  match afterCreateTable s with
  | none => none
  | some r4 =>
    match tryINE qualNameAny r4 with
    | some (w, rest) => some (w, s.length - rest.length)
    | none => none

/-- `get_table_names`: all `CREATE TABLE` names in appearance order
(non-overlapping scan, duplicates kept). -/
def get_table_names (sql : Str) : List Str := collectAll try_create_name sql

/-- Parse `` `?({name})`?(?:\W|$) `` for a fixed table name: the name is
matched literally (case-insensitively); the trailing non-word character,
when present, is part of the match. -/
def nameLitTail (name : Str) (s : Str) : Option (Str × Str) :=
  let s1 := match s with
    | c :: r => if c = btickC then r else s
    | [] => s
  match matchCIP name s1 with
  | none => none
  | some (orig, r1) =>
    match r1 with
    | [] => some (orig, [])
    | c :: r2 =>
      if c = btickC then
        -- greedy closing backtick, backtracking to treat it as the `\W`
        match r2 with
        | [] => some (orig, [])
        | d :: r3 => if isWordChar d then some (orig, r2) else some (orig, r3)
      else if isWordChar c then none
      else some (orig, r2)

/-- One match of the statement-extraction pattern of `extract_table_sql`. -/
structure CreateMatch where
  g1 : Str
  db : Option Str
  nameOrig : Str
  full : Str
deriving DecidableEq

/-- The per-position matcher of `extract_table_sql`'s pattern. -/
def try_create_stmt (name : Str) (s : Str) : Option (CreateMatch × Nat) :=
  let tail : Str → Option (Option Str × Str × Str) := fun r =>
    match parseIdent r with
    | some (dbw, '.' :: r2) =>
      (match nameLitTail name r2 with
       | some (orig, r3) => some (some dbw, orig, r3)
       | none =>
         match nameLitTail name r with
         | some (orig, r3) => some (none, orig, r3)
         | none => none)
    | _ =>
      match nameLitTail name r with
      | some (orig, r3) => some (none, orig, r3)
      | none => none
  match afterCreateTable s with
  | none => none
  | some r4 =>
      let withG1 : Str → Option ((Option Str × Str × Str) × Str) := fun g1end =>
        match tail g1end with
        | some t => some (t, g1end)
        | none => none
      let res : Option ((Option Str × Str × Str) × Str) :=
        match matchCIP kwIFNOTEXISTS r4 with
        | some (_, r5) =>
          (match withG1 (dropWsL r5) with
           | some t => some t
           | none => withG1 r4)
        | none => withG1 r4
      match res with
      | some ((db, orig, rest), g1end) =>
        let consumed := s.length - rest.length
        some ({ g1 := s.take (s.length - g1end.length), db := db,
                nameOrig := orig, full := s.take consumed }, consumed)
      | none => none

/-- The rendering of one table-statement match inside `extract_table_sql`:
slice to the statement terminator (a missing `;` is a `ValueError`),
rewrite away the schema qualifier when configured, and strip. -/
def renderCreateMatch (sql : Str) (remove_database_name_from_sql : Bool)
    (m : Nat × CreateMatch × Nat) : Except Str Str := do
  let endPos ← get_delimiter_pos sql (m.1 + m.2.2) ';' false
  let result := sliceL sql m.1 endPos
  let result :=
    if m.2.1.db.isSome ∧ remove_database_name_from_sql then
      replaceAllL m.2.1.full
        (m.2.1.g1 ++ btickC :: m.2.1.nameOrig ++ [btickC, ' ']) result
    else result
  pure (stripL result)

/-- `extract_table_sql` proper: render every match in scan order, the later
result overwriting the earlier, so the last match wins. -/
def extract_table_sql (name sql : Str)
    (remove_database_name_from_sql : Bool) : Except Str (Option Str) :=
  (collectIdxAll (try_create_stmt name) sql).foldlM
    (fun _acc m =>
      (renderCreateMatch sql remove_database_name_from_sql m).map some)
    none

/-! ### Schema-body splitter -/

def kwINT : Str := ("INT").data
def kwTINYINT : Str := ("TINYINT").data
def kwSMALLINT : Str := ("SMALLINT").data
def kwBIGINT : Str := ("BIGINT").data
def kwVARCHAR : Str := ("VARCHAR").data
def kwDATETIME : Str := ("DATETIME").data
def kwBOOL : Str := ("BOOL").data
def kwAUTOINCEQ : Str := ("AUTO_INCREMENT=").data
def kwPRIMARY : Str := ("PRIMARY").data
def kwUNIQUE : Str := ("UNIQUE").data
def kwFULLTEXT : Str := ("FULLTEXT").data
def kwKEY : Str := ("KEY").data
def kwPRIMARYKEY : Str := ("PRIMARY KEY").data
def kwSPKEY : Str := (" KEY").data
def kwCONSTRAINT : Str := ("CONSTRAINT").data
def kwFOREIGN : Str := ("FOREIGN").data
def kwREFERENCES : Str := ("REFERENCES").data

/-- Matcher for `(\sKW)\s(?=\w)` with replacement `\1(size) `: the
whitespace and keyword are kept (original case), the second whitespace
becomes a space before `(size)`, the looked-ahead word char stays. -/
def trySized (kw size : Str) (s : Str) : Option (Str × Nat) :=
  match s with
  | [] => none
  | c :: rest =>
    if isPyWs c then
      match matchCIP kw rest with
      | some (orig, w :: r2) =>
        if isPyWs w then
          match r2 with
          | x :: _ =>
            if isWordChar x then
              some (c :: orig ++ '(' :: size ++ (") ").data, kw.length + 2)
            else none
          | [] => none
        else none
      | _ => none
    else none

/-- Matcher for `\sBOOL\s(?=\w)` with the fixed replacement
`" TINYINT(1) "`. -/
def tryBool (s : Str) : Option (Str × Nat) :=
  match s with
  | [] => none
  | c :: rest =>
    if isPyWs c then
      match matchCIP kwBOOL rest with
      | some (_, w :: r2) =>
        if isPyWs w then
          match r2 with
          | x :: _ =>
            if isWordChar x then some ((" TINYINT(1) ").data, kwBOOL.length + 2)
            else none
          | [] => none
        else none
      | _ => none
    else none

/-- Matcher for `\s+AUTO_INCREMENT=[0-9]+` (or with `\s*` when
`requirePlus` is false), deleted on match. -/
def tryAutoInc (requirePlus : Bool) (s : Str) : Option (Str × Nat) :=
  let ws := s.takeWhile isPyWs
  let r1 := s.dropWhile isPyWs
  if requirePlus ∧ ws = [] then none
  else
    match matchCIP kwAUTOINCEQ r1 with
    | some (_, r2) =>
      let ds := r2.takeWhile Char.isDigit
      if ds = [] then none
      else some ([], ws.length + kwAUTOINCEQ.length + ds.length)
    | none => none

/-- Lookahead test for `KW\s`: the keyword (case-insensitively) followed by
one whitespace character. -/
def laKwWs (kw s : Str) : Bool :=
  match matchCIP kw s with
  | some (_, c :: _) => isPyWs c
  | _ => false

/-- Lookahead test for `FOREIGN\s*KEY\s`. -/
def laForeignKeyWs (s : Str) : Bool :=
  match matchCIP kwFOREIGN s with
  | some (_, r) =>
    (match matchCIP kwKEY (dropWsL r) with
     | some (_, c :: _) => isPyWs c
     | _ => false)
  | none => false

/-- Earliest occurrence of `PRIMARY` or `UNIQUE` (case-insensitively)
reachable through `.*?` (which cannot cross a newline); returns the matched
original text. -/
def findPU : Str → Option Str
  | [] => none
  | c :: rest =>
    match matchCIP kwPRIMARY (c :: rest) with
    | some (orig, _) => some orig
    | none =>
      match matchCIP kwUNIQUE (c :: rest) with
      | some (orig, _) => some orig
      | none => if c = '\n' then none else findPU rest

/-- Earliest occurrence of `REFERENCES` reachable through `.*?`; returns
the capture `(REFERENCES.*)` (original text up to the end of the line). -/
def findREF : Str → Option Str
  | [] => none
  | c :: rest =>
    match matchCIP kwREFERENCES (c :: rest) with
    | some (orig, r) => some (orig ++ r.takeWhile (· ≠ '\n'))
    | none => if c = '\n' then none else findREF rest

/-- The suffixes left by each way the greedy group `` `?\w+`? `` can match
at the front of `s`, in the regex engine's preference order (longest word
run first, closing backtick preferred). -/
def ident1Cands (s : Str) : List Str :=
  let s1 := match s with
    | c :: r => if c = btickC then r else s
    | [] => s
  let run := s1.takeWhile isWordChar
  let rest := s1.dropWhile isWordChar
  if run = [] then []
  else
    (match rest with
     | c :: r => if c = btickC then [r] else []
     | [] => []) ++
    (List.range run.length).map fun i => run.drop (run.length - i) ++ rest

/-- Match of `^(?!PRIMARY\s|UNIQUE\s|KEY\s)\s*(`?\w+`?).*?(PRIMARY|UNIQUE)`
on a declaration line: returns the captured identifier (group 1, with
backticks as matched) and the matched keyword (original case). -/
def matchPU (line : Str) : Option (Str × Str) :=
  if laKwWs kwPRIMARY line ∨ laKwWs kwUNIQUE line ∨ laKwWs kwKEY line then none
  else
    let s0 := dropWsL line
    (ident1Cands s0).findSome? fun cand =>
      (findPU cand).map fun kw => (s0.take (s0.length - cand.length), kw)

/-- Deletion matcher for `\s*(?:PRIMARY KEY|UNIQUE)(?: KEY)?`. -/
def tryPUDel (s : Str) : Option (Str × Nat) :=
  let ws := s.takeWhile isPyWs
  let r1 := s.dropWhile isPyWs
  let optKey : Str → Nat := fun r =>
    match matchCIP kwSPKEY r with
    | some _ => kwSPKEY.length
    | none => 0
  match matchCIP kwPRIMARYKEY r1 with
  | some (_, r2) => some ([], ws.length + kwPRIMARYKEY.length + optKey r2)
  | none =>
    match matchCIP kwUNIQUE r1 with
    | some (_, r2) => some ([], ws.length + kwUNIQUE.length + optKey r2)
    | none => none

/-- Match of
`^(?!CONSTRAINT\s|FOREIGN\s*KEY\s)\s*`?(\w+)`?.*?(REFERENCES.*)`:
returns the captured column word and the `REFERENCES…` capture. -/
def matchREF (line : Str) : Option (Str × Str) :=
  if laKwWs kwCONSTRAINT line ∨ laForeignKeyWs line then none
  else
    let s0 := dropWsL line
    let s1 := match s0 with
      | c :: r => if c = btickC then r else s0
      | [] => s0
    let run := s1.takeWhile isWordChar
    let rest := s1.dropWhile isWordChar
    if run = [] then none
    else
      let cands : List (Str × Str) :=
        (match rest with
         | c :: r => if c = btickC then [(run, r)] else []
         | [] => []) ++
        (List.range run.length).map fun i =>
          let k := run.length - i
          (run.take k, run.drop k ++ rest)
      cands.findSome? fun cand =>
        (findREF cand.2).map fun g2 => (cand.1, g2)

/-- Deletion matcher for `\s*(?:REFERENCES).*$` (the `$` of the source's
pattern matches at the end or just before a final newline). -/
def tryRefDel (s : Str) : Option (Str × Nat) :=
  let ws := s.takeWhile isPyWs
  let r1 := s.dropWhile isPyWs
  match matchCIP kwREFERENCES r1 with
  | some (_, r2) =>
    let t := r2.takeWhile (· ≠ '\n')
    let rem := r2.dropWhile (· ≠ '\n')
    if rem = [] ∨ rem = ['\n'] then
      some ([], ws.length + kwREFERENCES.length + t.length)
    else none
  | none => none

/-- Match of `^FOREIGN\s*KEY\s*\(`?(\w+)`?.*?REFERENCES.*`: returns the
captured column word. -/
def matchFK (line : Str) : Option Str :=
  match matchCIP kwFOREIGN line with
  | none => none
  | some (_, r1) =>
    match matchCIP kwKEY (dropWsL r1) with
    | none => none
    | some (_, r2) =>
      match dropWsL r2 with
      | '(' :: r3 =>
        let s1 := match r3 with
          | c :: r => if c = btickC then r else r3
          | [] => r3
        let run := s1.takeWhile isWordChar
        let rest := s1.dropWhile isWordChar
        if run = [] then none
        else
          let cands : List (Str × Str) :=
            (match rest with
             | c :: r => if c = btickC then [(run, r)] else []
             | [] => []) ++
            (List.range run.length).map fun i =>
              let k := run.length - i
              (run.take k, run.drop k ++ rest)
          cands.findSome? fun cand =>
            if (findREF cand.2).isSome then some cand.1 else none
      | _ => none

/-- The synthesized foreign-key name `fk_<table>_<column>`. -/
def fkName (t w : Str) : Str := ("fk_").data ++ t ++ '_' :: w

/-- The synthesized `KEY` declaration for a foreign key. -/
def mkRefKey (t w : Str) : Str :=
  ("KEY ").data ++ btickC :: fkName t w ++ btickC :: (" (").data ++
    btickC :: w ++ [btickC, ')']

/-- The synthesized `CONSTRAINT … FOREIGN KEY … REFERENCES …`
declaration. -/
def mkRefConstraint (t w refs : Str) : Str :=
  ("CONSTRAINT ").data ++ btickC :: fkName t w ++
    btickC :: (" FOREIGN KEY (").data ++ btickC :: w ++ btickC :: (") ").data ++ refs

/-- The synthesized trailing key for an inline `PRIMARY KEY`/`UNIQUE`. -/
def mkPUBottom (g1 kw : Str) : Str :=
  kw ++ (" KEY ").data ++
    (if toUpperL kw = kwUNIQUE then g1 ++ [' '] else []) ++ '(' :: g1 ++ [')']

/-- `process_line` of `split_table_schema`: returns the lines for the main
list and the lines for the trailing `bottom` buffer. -/
def process_line (table_name : Str) (ignore_increment : Bool) (line0 : Str) :
    List Str × List Str :=
  let l1 := scanSub (trySized kwINT (("11").data)) line0
  let l2 := scanSub (trySized kwTINYINT (("3").data)) l1
  let l3 := scanSub (trySized kwSMALLINT (("6").data)) l2
  let l4 := scanSub (trySized kwBIGINT (("20").data)) l3
  let l5 := scanSub (trySized kwVARCHAR (("255").data)) l4
  let l6 := scanSub (trySized kwDATETIME (("6").data)) l5
  let l7 := scanSub tryBool l6
  let line := if ignore_increment then scanSub (tryAutoInc true) l7 else l7
  match matchPU line with
  | some (g1, kw) => ([scanSub tryPUDel line], [mkPUBottom g1 kw])
  | none =>
    match matchREF line with
    | some (w, refs) =>
      ([scanSub tryRefDel line],
       [mkRefKey table_name w, mkRefConstraint table_name w refs])
    | none =>
      match matchFK line with
      | some w =>
        ([mkRefKey table_name w,
          ("CONSTRAINT ").data ++ btickC :: fkName table_name w ++
            btickC :: ' ' :: line], [])
      | none => ([line], [])

/-- Split a table body at top-level commas, outside strings and brackets
(the scanning states coincide with restarting `get_delimiter_pos` after
each comma); returns the complete segments and the remaining tail, whose
missing comma was the absorbed `ValueError`. -/
def split_commas_go : Str → Option Char → Int → Str → List Str × Str
  | [], _, _, acc => ([], acc.reverse)
  | c :: rest, none, depth, acc =>
    if c = ',' ∧ depth = 0 then
      let (segs, rem) := split_commas_go rest none 0 []
      (acc.reverse :: segs, rem)
    else if c = quotC ∨ c = aposC then
      split_commas_go rest (some c) depth (c :: acc)
    else if c = '(' then split_commas_go rest none (depth + 1) (c :: acc)
    else if c = ')' then split_commas_go rest none (depth - 1) (c :: acc)
    else split_commas_go rest none depth (c :: acc)
  | c :: rest, some q, depth, acc =>
    if c = q then split_commas_go rest none depth (c :: acc)
    else split_commas_go rest (some q) depth (c :: acc)

/-- Split a table body at top-level commas. -/
def split_commas (body : Str) : List Str × Str := split_commas_go body none 0 []

/-- `split_table_schema`: split one `CREATE TABLE` statement into prefix,
processed declaration lines, synthesized bottom lines and suffix. -/
def split_table_schema (table_name sql : Str) (ignore_increment : Bool) :
    Except Str (List Str) := do
  let obp ← get_delimiter_pos sql 0 '(' false
  let pfx := sql.take (obp + 1)
  let body := sql.drop (obp + 1)
  let (segs, rem) := split_commas body
  let cbp ← get_delimiter_pos rem 0 ')' true
  let pieces := segs ++ [rem.take cbp]
  let processed := pieces.map fun p => process_line table_name ignore_increment (stripL p)
  let res := pfx :: (processed.map Prod.fst).flatten
  let bottom := (processed.map Prod.snd).flatten
  let suffix := stripL (rem.drop cbp)
  pure (res ++ bottom ++ if suffix = [] then [] else [suffix])

/-! ### Key classifier -/

/-- Match of `((UNIQUE\s+)|(FULLTEXT\s+))?KEY\s+`?\w+`?` (with the optional
prefix handled by backtracking); returns the matched text. -/
def keyPatCore (line : Str) : Option Str :=
  match matchCIP kwKEY line with
  | some (o, r1) =>
    let ws := r1.takeWhile isPyWs
    if ws = [] then none
    else
      let r2 := r1.dropWhile isPyWs
      let (tick1, r3) := match r2 with
        | c :: rr => if c = btickC then ([c], rr) else (([] : Str), r2)
        | [] => (([] : Str), r2)
      let w := r3.takeWhile isWordChar
      if w = [] then none
      else
        let r4 := r3.dropWhile isWordChar
        let tick2 : Str := match r4 with
          | c :: _ => if c = btickC then [c] else []
          | [] => []
        some (o ++ ws ++ tick1 ++ w ++ tick2)
  | none => none

/-- The `PRIMARY\s+KEY` alternative of the key-classification pattern. -/
def keyAltA (line : Str) : Option Str :=
  match matchCIP kwPRIMARY line with
  | some (o1, r1) =>
    let ws := r1.takeWhile isPyWs
    if ws = [] then none
    else
      (match matchCIP kwKEY (r1.dropWhile isPyWs) with
       | some (o2, _) => some (o1 ++ ws ++ o2)
       | none => none)
  | none => none

/-- The `UNIQUE\s+`/`FULLTEXT\s+` prefixed route of the
key-classification pattern. -/
def keyWithPfx (kw line : Str) : Option Str :=
  match matchCIP kw line with
  | some (o, r) =>
    let ws := r.takeWhile isPyWs
    if ws = [] then none
    else
      (keyPatCore (r.dropWhile isPyWs)).map fun t => o ++ ws ++ t
  | none => none

/-- Match of the key-classification pattern
`^(PRIMARY\s+KEY)|(((UNIQUE\s+)|(FULLTEXT\s+))?KEY\s+`?\w+`?)`. -/
def keyPatMatch (line : Str) : Option Str :=
  match keyAltA line with
  | some t => some t
  | none =>
    match keyWithPfx kwUNIQUE line with
    | some t => some t
    | none =>
      match keyWithPfx kwFULLTEXT line with
      | some t => some t
      | none => keyPatCore line

/-- Match of `^(CONSTRAINT\s+`?\w+`?)`. -/
def consPatMatch (line : Str) : Option Str :=
  match matchCIP kwCONSTRAINT line with
  | some (o, r) =>
    let ws := r.takeWhile isPyWs
    if ws = [] then none
    else
      let r2 := r.dropWhile isPyWs
      let (tick1, r3) := match r2 with
        | c :: rr => if c = btickC then ([c], rr) else (([] : Str), r2)
        | [] => (([] : Str), r2)
      let w := r3.takeWhile isWordChar
      if w = [] then none
      else
        let r4 := r3.dropWhile isWordChar
        let tick2 : Str := match r4 with
          | c :: _ => if c = btickC then [c] else []
          | [] => []
        some (o ++ ws ++ tick1 ++ w ++ tick2)
  | none => none

/-- Match of `^`?\w+`?` (the column fallback of the classifier). -/
def colPatMatch (line : Str) : Option Str :=
  let (tick1, r1) := match line with
    | c :: rr => if c = btickC then ([c], rr) else (([] : Str), line)
    | [] => (([] : Str), line)
  let w := r1.takeWhile isWordChar
  if w = [] then none
  else
    let r2 := r1.dropWhile isWordChar
    let tick2 : Str := match r2 with
      | c :: _ => if c = btickC then [c] else []
      | [] => []
    some (tick1 ++ w ++ tick2)

/-- `extract_and_normalize_keys`: the sort key and the line.  Plain keys
keep their matched prefix; constraints are prefixed `!!`, columns `!`,
and the whole key is normalized. -/
def extract_and_normalize_keys (line : Str) : Str × Str :=
  let k : Str :=
    match keyPatMatch line with
    | some m => m
    | none =>
      match consPatMatch line with
      | some m => '!' :: '!' :: m
      | none =>
        match colPatMatch line with
        | some m => '!' :: m
        | none => []
  (normalize_str k, line)

/-- `sanitize_sql`: re-render a table statement one declaration per line. -/
def sanitize_sql (table_name sql : Str) : Except Str Str := do
  let parts ← split_table_schema table_name sql true
  pure (parts.headD [] ++ ("\n    ").data ++
    joinL ((",\n    ").data) ((parts.drop 1).dropLast) ++
    '\n' :: parts.getLastD [])

/-! ### Diff engine -/

/-- Lexicographic string order by code point (Python string comparison). -/
def strLe : Str → Str → Bool
  | [], _ => true
  | _ :: _, [] => false
  | a :: xs, b :: ys => if a = b then strLe xs ys else decide (a < b)

/-- Insert into a sorted list (stable). -/
def insertSorted (x : Str) : List Str → List Str
  | [] => [x]
  | y :: ys => if strLe x y then x :: y :: ys else y :: insertSorted x ys

/-- Insertion sort by `strLe`. -/
def sortStrs : List Str → List Str
  | [] => []
  | x :: xs => insertSorted x (sortStrs xs)

/-- `sorted(set(l))`: deduplicate, then sort lexicographically. -/
def sortedKeys (l : List Str) : List Str := sortStrs (pyDedup l)

/-- The rewrite
`re.sub(r'^CONSTRAINT\s+(`?\w+`?)\s+FOREIGN KEY\s+(\([^)]+\)).*$', r'KEY \1 \2', p)`
used to synthesize an index from a foreign-key constraint; a line that does
not match is returned unchanged. -/
def fkIndexText (p : Str) : Str :=
  match matchCIP kwCONSTRAINT p with
  | none => p
  | some (_, r1) =>
    let ws1 := r1.takeWhile isPyWs
    if ws1 = [] then p
    else
      let r2 := r1.dropWhile isPyWs
      let (tick1, r3) := match r2 with
        | c :: rr => if c = btickC then ([c], rr) else (([] : Str), r2)
        | [] => (([] : Str), r2)
      let w := r3.takeWhile isWordChar
      if w = [] then p
      else
        let r4 := r3.dropWhile isWordChar
        let (tick2, r5) := match r4 with
          | c :: rr => if c = btickC then ([c], rr) else (([] : Str), r4)
          | [] => (([] : Str), r4)
        let g1 := tick1 ++ w ++ tick2
        let ws2 := r5.takeWhile isPyWs
        if ws2 = [] then p
        else
          match matchCIP (("FOREIGN KEY").data) (r5.dropWhile isPyWs) with
          | none => p
          | some (_, r6) =>
            let ws3 := r6.takeWhile isPyWs
            if ws3 = [] then p
            else
              match r6.dropWhile isPyWs with
              | '(' :: r7 =>
                let inner := r7.takeWhile (· ≠ ')')
                if inner = [] then p
                else
                  (match r7.dropWhile (· ≠ ')') with
                   | ')' :: r8 =>
                     let rem := r8.dropWhile (· ≠ '\n')
                     if rem = [] ∨ rem = ['\n'] then
                       ("KEY ").data ++ g1 ++ ' ' :: '(' :: inner ++ ')' :: rem
                     else p
                   | _ => p)
              | _ => p

/-- The destination-side foreign-key index synthesis of `compare_table_sql`
(lines 377–383 of the source): for every constraint entry whose sort key,
rewritten into the plain-key namespace, has no entry among the existing
plain keys, insert a synthesized index declaration under the rewritten
key.  The snapshot of existing plain keys is taken before the loop. -/
def ensureFkIndexes (d : List (Str × Str)) : List (Str × Str) :=
  let idxKeys := odKeys (d.filter fun p => startsWithL (("key").data) p.1)
  d.foldl
    (fun acc p =>
      if startsWithL (("!!").data) p.1 then
        let k := replaceAllL (("!!constraint").data) (("key").data) p.1
        if k ∈ idxKeys then acc else odInsert acc k (fkIndexText p.2)
      else acc)
    d

/-- The diff loop of `compare_table_sql`: iterate the sorted union of the
sort keys, emitting removal, addition and modification records. -/
def diffOfDicts (srcD dstD : List (Str × Str)) : List DiffInfo :=
  let src_keys := odKeys srcD
  let dst_keys := odKeys dstD
  let all_keys := sortedKeys (src_keys ++ dst_keys)
  all_keys.filterMap fun key =>
    let in_src := key ∈ src_keys
    let in_dst := key ∈ dst_keys
    if in_src ∧ ¬in_dst then some { src := odGet srcD key }
    else if in_dst ∧ ¬in_src then some { dst := odGet dstD key }
    else if in_src ∧ in_dst ∧
        normalize_expr (odGet srcD key) ≠ normalize_expr (odGet dstD key) then
      some { src := odGet srcD key, dst := odGet dstD key }
    else none

/-- The keyed mapping built from the interior parts of a split table. -/
def partsDict (parts : List Str) : List (Str × Str) :=
  odOfList (((parts.drop 1).dropLast).map extract_and_normalize_keys)

/-- `compare_table_sql`: differences between two table schemas. -/
def compare_table_sql (table_name src_sql dst_sql : Str)
    (ignore_increment : Bool) : Except Str (List DiffInfo) := do
  let src_parts ← split_table_schema table_name src_sql ignore_increment
  let dst_parts ← split_table_schema table_name dst_sql ignore_increment
  pure (diffOfDicts (partsDict src_parts) (ensureFkIndexes (partsDict dst_parts)))

/-! ### Table-level comparator -/

/-- Deletion matcher for `IF NOT EXISTS\s*`. -/
def tryINEDel (s : Str) : Option (Str × Nat) :=
  match matchCIP kwIFNOTEXISTS s with
  | some (_, r) => some ([], kwIFNOTEXISTS.length + (r.takeWhile isPyWs).length)
  | none => none

/-- Matcher for
`(CREATE(?:\s*TEMPORARY)?\s*TABLE\s*)(?:IF\sNOT\sEXISTS\s*)?(`?\w+`?)` with
replacement `\1IF NOT EXISTS \2` (the `force_if_not_exists` rewrite). -/
def tryForceINE (s : Str) : Option (Str × Nat) :=
  match afterCreateTable s with
  | none => none
  | some r4 =>
    let g1 := s.take (s.length - r4.length)
    let ineP : Option Str :=
      match matchCIP (("IF").data) r4 with
      | some (_, c1 :: rr1) =>
        if isPyWs c1 then
          match matchCIP (("NOT").data) rr1 with
          | some (_, c2 :: rr2) =>
            if isPyWs c2 then
              match matchCIP (("EXISTS").data) rr2 with
              | some (_, rr3) => some (dropWsL rr3)
              | none => none
            else none
          | _ => none
        else none
      | _ => none
    let cont : Str → Option (Str × Nat) := fun r =>
      match colPatMatch r with
      | some g2 =>
        some (g1 ++ kwIFNOTEXISTS ++ ' ' :: g2,
          (s.length - r.length) + g2.length)
      | none => none
    match ineP with
    | some r5 =>
      (match cont r5 with
       | some out => some out
       | none => cont r4)
    | none => cont r4

/-- The destination-orphan rewrites of `compare_tables` (lines 459–465):
optional `AUTO_INCREMENT=n` removal, optional `IF NOT EXISTS` removal,
optional forced `IF NOT EXISTS`. -/
def applyOrphanRewrites (ignore_increment ignore_if_not_exists force_if_not_exists : Bool)
    (dst_sql : Str) : Str :=
  let s1 := if ignore_increment then scanSub (tryAutoInc false) dst_sql else dst_sql
  let s2 := if ignore_if_not_exists then scanSub tryINEDel s1 else s1
  if force_if_not_exists then scanSub tryForceINE s2 else s2

/-- The per-table body of `compare_tables`: classify one table name as a
source orphan, a destination orphan, or a common table with diffs. -/
def classifyTable (src dst : Str) (remove_database_name_from_sql : Bool)
    (ignore_increment : Bool) (ignore_if_not_exists : Bool)
    (force_if_not_exists : Bool) (src_orphans dst_orphans : List Str)
    (table_name : Str) : Except Str (Str × TableInfo) := do
  if table_name ∈ src_orphans then
    pure (table_name, { src_orphan := true : TableInfo })
  else if table_name ∈ dst_orphans then
    match ← extract_table_sql table_name dst remove_database_name_from_sql with
    | none => Except.error (("TypeError: NoneType").data)
    | some dsql =>
      let dsql := applyOrphanRewrites ignore_increment ignore_if_not_exists
        force_if_not_exists dsql
      let so ← sanitize_sql table_name dsql
      pure (table_name, { dst_orphan := so : TableInfo })
  else do
    let ssql? ← extract_table_sql table_name src remove_database_name_from_sql
    let dsql? ← extract_table_sql table_name dst remove_database_name_from_sql
    match ssql?, dsql? with
    | some ssql, some dsql =>
      let diffs ← compare_table_sql table_name ssql dsql ignore_increment
      pure (table_name, { diffs := diffs : TableInfo })
    | _, _ => Except.error (("TypeError: NoneType").data)

/-- `compare_tables`: classify every table of both schemas and collect the
per-table comparison results in insertion order. -/
def compare_tables (src dst : Str) (remove_database_name_from_sql : Bool)
    (ignore_increment : Bool) (ignore_if_not_exists : Bool)
    (force_if_not_exists : Bool) : Except Str (List (Str × TableInfo)) := do
  let src_table_names := get_table_names src
  let dst_table_names := get_table_names dst
  let common := src_table_names.filter fun v => v ∈ dst_table_names
  let src_orphans := src_table_names.filter fun v => v ∉ common
  let dst_orphans := dst_table_names.filter fun v => v ∉ common
  let all_tables := pyDedup (src_table_names ++ dst_table_names)
  all_tables.foldlM
    (fun res table_name => do
      let e ← classifyTable src dst remove_database_name_from_sql
        ignore_increment ignore_if_not_exists force_if_not_exists
        src_orphans dst_orphans table_name
      pure (res ++ [e]))
    []

/-! ### Action filter -/

/-- The per-diff keep test of `filter_diffs`: removals need `remove`,
additions need `add`, anything else needs `modify`. -/
def keepDiff (allowed_actions : List ActionTypes) (f : DiffInfo) : Bool :=
  if f.src ≠ [] ∧ f.dst = [] then ActionTypes.remove ∈ allowed_actions
  else if f.dst ≠ [] ∧ f.src = [] then ActionTypes.add ∈ allowed_actions
  else ActionTypes.modify ∈ allowed_actions

/-- `filter_diffs`: restrict the comparison results to the allowed
actions. -/
def filter_diffs (compare_info : List (Str × TableInfo))
    (allowed_actions : List ActionTypes) : List (Str × TableInfo) :=
  compare_info.foldl
    (fun res p =>
      let (table, info) := p
      if info.src_orphan ∧ ActionTypes.drop ∈ allowed_actions then
        res ++ [(table, info)]
      else if info.dst_orphan ≠ [] ∧ ActionTypes.create ∈ allowed_actions then
        res ++ [(table, info)]
      else if info.diffs ≠ [] then
        let ds := info.diffs.filter (keepDiff allowed_actions)
        if ds ≠ [] then res ++ [(table, { diffs := ds : TableInfo })] else res
      else res)
    []

/-! ### Statement compiler -/

/-- Classification of a compiled statement, recording which branch of
`get_action_sql` produced it (instrumentation; not part of the source's
return value). -/
inductive SqlKind : Type
  | keyDrop
  | keyAdd
  | keyMod
  | consDrop
  | fallDrop
  | consAddMod
  | deadMod
  | plainAddMod
  | other
  | tableDrop
  | tableCreate
deriving DecidableEq

/-- `"ALTER TABLE `{table}` "`. -/
def alterTablePfx (table : Str) : Str :=
  ("ALTER TABLE ").data ++ btickC :: table ++ [btickC, ' ']

/-- One step of the key-field-list parser: `` `?\w`? ``(?:\(\d+\))?(?:,\s?)? ``;
returns the remainder. -/
def parseKFItem (s : Str) : Option Str :=
  let r1 := match s with
    | c :: r => if c = btickC then r else s
    | [] => s
  match r1 with
  | c :: r2 =>
    if isWordChar c then
      let r3 := match r2 with
        | d :: r => if d = btickC then r else r2
        | [] => r2
      let r4 := match r3 with
        | '(' :: rr =>
          let ds := rr.takeWhile Char.isDigit
          if ds = [] then r3
          else
            (match rr.dropWhile Char.isDigit with
             | ')' :: r5 => r5
             | _ => r3)
        | _ => r3
      let r6 := match r4 with
        | ',' :: rr =>
          (match rr with
           | w :: r7 => if isPyWs w then r7 else rr
           | [] => rr)
        | _ => r4
      some r6
    else none
  | [] => none

/-- Greedy `(?:item)+` repetition of the key-field-list parser (the fuel is
the string length, which bounds the number of items). -/
def parseKFListGo : Nat → Str → Option Str
  | 0, _ => none
  | n + 1, s =>
    match parseKFItem s with
    | some rest =>
      (match parseKFListGo n rest with
       | some rest2 => some rest2
       | none => some rest)
    | none => none

/-- Match of the key pattern of `get_action_sql`:
`^((?:PRIMARY )|(?:UNIQUE )|(?:FULLTEXT ))?KEY `?(\w+)?`?\s(\(fields\))`.
Returns group 1 (original text, empty when absent), the optional group 2
and group 3 (with its parentheses). -/
def keyMatch (sql : Str) : Option (Str × Option Str × Str) :=
  let afterType : Str → Str → Option (Str × Option Str × Str) := fun g1raw r =>
    match matchCIP (("KEY ").data) r with
    | none => none
    | some (_, r1) =>
      let r2 := match r1 with
        | c :: rr => if c = btickC then rr else r1
        | [] => r1
      let w := r2.takeWhile isWordChar
      let g2 : Option Str := if w = [] then none else some w
      let r3 := r2.dropWhile isWordChar
      let r4 := match r3 with
        | c :: rr => if c = btickC then rr else r3
        | [] => r3
      match r4 with
      | c :: r5 =>
        if isPyWs c then
          match r5 with
          | '(' :: r6 =>
            (match parseKFListGo (r6.length + 1) r6 with
             | some rest =>
               (match rest with
                | ')' :: r7 =>
                  some (g1raw, g2, r5.take (r5.length - r7.length))
                | _ => none)
             | none => none)
          | _ => none
        else none
      | [] => none
  match matchCIP (("PRIMARY ").data) sql with
  | some (o, r) =>
    (match afterType o r with
     | some m => some m
     | none => afterType [] sql)
  | none =>
    match matchCIP (("UNIQUE ").data) sql with
    | some (o, r) =>
      (match afterType o r with
       | some m => some m
       | none => afterType [] sql)
    | none =>
      match matchCIP (("FULLTEXT ").data) sql with
      | some (o, r) =>
        (match afterType o r with
         | some m => some m
         | none => afterType [] sql)
      | none => afterType [] sql

/-- Match of the dead rewrite pattern
`TABLE\s+`?([^` ]+)`?\s+MODIFY\s+CONSTRAINT `?([^` ]+)` (anchored);
returns the whole matched text and the two groups. -/
def matchTMC (s : Str) : Option (Str × Str × Str) :=
  match matchCIP kwTABLE s with
  | none => none
  | some (_, r1) =>
    let ws1 := r1.takeWhile isPyWs
    if ws1 = [] then none
    else
      let r2 := r1.dropWhile isPyWs
      let r3 := match r2 with
        | c :: rr => if c = btickC then rr else r2
        | [] => r2
      let g1 := r3.takeWhile fun c => ¬(c = btickC ∨ c = ' ')
      if g1 = [] then none
      else
        let r4 := r3.dropWhile fun c => ¬(c = btickC ∨ c = ' ')
        let r5 := match r4 with
          | c :: rr => if c = btickC then rr else r4
          | [] => r4
        let ws2 := r5.takeWhile isPyWs
        if ws2 = [] then none
        else
          match matchCIP (("MODIFY").data) (r5.dropWhile isPyWs) with
          | none => none
          | some (_, r6) =>
            let ws3 := r6.takeWhile isPyWs
            if ws3 = [] then none
            else
              match matchCIP (("CONSTRAINT ").data) (r6.dropWhile isPyWs) with
              | none => none
              | some (_, r7) =>
                let r8 := match r7 with
                  | c :: rr => if c = btickC then rr else r7
                  | [] => r7
                let g2 := r8.takeWhile fun c => ¬(c = btickC ∨ c = ' ')
                if g2 = [] then none
                else
                  let rest := r8.dropWhile fun c => ¬(c = btickC ∨ c = ' ')
                  some (s.take (s.length - rest.length), g1, g2)

/-- Case-insensitive `re.sub('MODIFY', 'ADD', …)`. -/
def replMODIFY (s : Str) : Str :=
  scanSub (fun r => (matchCIP (("MODIFY").data) r).map
    fun _ => (("ADD").data, (("MODIFY").data).length)) s

/-- `get_action_sql`, instrumented with the branch classification: compile
one declaration diff into statement text and an ordering direction. -/
def get_action_sqlK (table sql : Str) (action : ActionTypes) :
    Except Str (Str × Int × SqlKind) :=
  let res0 := alterTablePfx table
  match keyMatch sql with
  | some (g1raw, g2, g3) =>
    let key_type := toUpperL (stripL g1raw)
    match g2 with
    | none => Except.error (("AttributeError: NoneType has no attribute strip").data)
    | some kn =>
      let key_name := stripL kn
      let fields := stripL g3
      match action with
      | .drop =>
        .ok (res0 ++ (if key_type = kwPRIMARY then ("DROP PRIMARY KEY").data
          else ("DROP INDEX ").data ++ btickC :: key_name ++ [btickC]), -1, .keyDrop)
      | .add =>
        if key_type = kwPRIMARY then
          .ok (res0 ++ ("ADD PRIMARY KEY ").data ++ fields, 1, .keyAdd)
        else if key_type = [] then
          .ok (res0 ++ ("ADD INDEX ").data ++ btickC :: key_name ++ btickC :: ' ' :: fields,
            1, .keyAdd)
        else
          .ok (res0 ++ ("ADD ").data ++ key_type ++ ' ' :: btickC :: key_name ++
            btickC :: ' ' :: fields, 1, .keyAdd)
      | .modify =>
        if key_type = kwPRIMARY then
          .ok (res0 ++ ("DROP PRIMARY KEY, ADD PRIMARY KEY ").data ++ fields, -1, .keyMod)
        else if key_type = [] then
          .ok (res0 ++ ("DROP INDEX ").data ++ btickC :: key_name ++
            btickC :: (", ADD INDEX ").data ++ btickC :: ' ' :: key_name ++
            btickC :: ' ' :: fields, -1, .keyMod)
        else
          .ok (res0 ++ ("DROP INDEX ").data ++ btickC :: key_name ++
            btickC :: (", ADD ").data ++ key_type ++ btickC :: ' ' :: key_name ++
            btickC :: ' ' :: fields, -1, .keyMod)
      | _ => .ok (res0, 0, .other)
  | none =>
    if startsWithL (("CONSTRAINT ").data) sql ∧ action = ActionTypes.drop then
      let space_pos := pyFind sql ' ' 11
      .ok (res0 ++ ("DROP ").data ++ pySliceTo sql space_pos, -1, .consDrop)
    else
      let res1 := res0 ++ action.value
      match action with
      | .drop =>
        let space_pos := pyFind sql ' ' 0
        .ok (res1 ++ ' ' :: pySliceTo sql space_pos, 1, .fallDrop)
      | _ =>
        let res2 := res1 ++ ' ' :: sql
        match matchTMC res2 with
        | some (full, g1, _) =>
          let res3 := replMODIFY res2
          .ok (("ALTER TABLE ").data ++ btickC :: full ++
            btickC :: (" DROP FOREIGN key ").data ++ btickC :: g1 ++
            btickC :: (";").data ++ ' ' :: res3, 0, .deadMod)
        | none =>
          if startsWithL (("CONSTRAINT ").data) sql then .ok (res2, 1, .consAddMod)
          else .ok (res2, 0, .plainAddMod)

/-- `get_action_sql` as in the source: statement text and direction. -/
def get_action_sql (table sql : Str) (action : ActionTypes) :
    Except Str (Str × Int) :=
  (get_action_sqlK table sql action).map fun r => (r.1, r.2.1)

/-! ### SQL generation -/

/-- Provenance tag attached to each generated statement. -/
structure SqlTag where
  table : Str
  action : ActionTypes
  kind : SqlKind
deriving DecidableEq

/-- The per-diff dispatch of `get_diff_sql`: removals compile the source
text with `drop`, additions the destination text with `add`, anything else
the destination text with `modify`. -/
def diff_action (f : DiffInfo) : Str × ActionTypes :=
  if f.src ≠ [] ∧ f.dst = [] then (f.src, .drop)
  else if f.dst ≠ [] ∧ f.src = [] then (f.dst, .add)
  else (f.dst, .modify)

/-- The statement of a dropped orphan table. -/
def dropTableStmt (table : Str) : Str :=
  ("DROP TABLE ").data ++ btickC :: table ++ [btickC]

/-- The three ordering buckets of tagged statements. -/
abbrev Buckets := List (SqlTag × Str) × List (SqlTag × Str) × List (SqlTag × Str)

/-- The statement compiled for one diff record (the per-diff step of
`get_diff_sql`). -/
def diffStmt (table : Str) (f : DiffInfo) : Except Str (Str × Int × SqlKind) :=
  get_action_sqlK table (diff_action f).1 (diff_action f).2

/-- One step of the per-diff loop of `get_diff_sql`: compile the diff and
route the statement into a bucket by its direction. -/
def diffStep (table : Str) (acc : Buckets) (f : DiffInfo) : Except Str Buckets := do
  let (res, dir, kind) ← diffStmt table f
  if dir = 0 then
    pure (acc.1, acc.2.1 ++ [(⟨table, (diff_action f).2, kind⟩, res)], acc.2.2)
  else if dir = -1 then
    pure (acc.1 ++ [(⟨table, (diff_action f).2, kind⟩, res)], acc.2.1, acc.2.2)
  else
    pure (acc.1, acc.2.1, acc.2.2 ++ [(⟨table, (diff_action f).2, kind⟩, res)])

/-- One step of the per-table loop of `get_diff_sql`. -/
def tableStep (acc : Buckets) (p : Str × TableInfo) : Except Str Buckets :=
  if p.2.src_orphan then
    pure (acc.1, acc.2.1 ++ [(⟨p.1, .drop, .tableDrop⟩, dropTableStmt p.1)], acc.2.2)
  else if p.2.dst_orphan ≠ [] then
    pure (acc.1, acc.2.1 ++ [(⟨p.1, .create, .tableCreate⟩, p.2.dst_orphan)], acc.2.2)
  else
    p.2.diffs.foldlM (diffStep p.1) acc

/-- `get_diff_sql`, instrumented: the three ordering buckets with each
statement tagged by its provenance. -/
def get_diff_sqlT (compare_info : List (Str × TableInfo)) : Except Str Buckets :=
  compare_info.foldlM tableStep ([], [], [])

/-- `get_diff_sql`: concatenate the top, middle and bottom buckets. -/
def get_diff_sql (compare_info : List (Str × TableInfo)) : Except Str (List Str) :=
  (get_diff_sqlT compare_info).map fun b => (b.1 ++ b.2.1 ++ b.2.2).map Prod.snd

/-! ### Orchestrator -/

/-- The full allowed-action set (the default of `sync`). -/
def ALL_ACTIONS : List ActionTypes :=
  [.create, .drop, .add, .remove, .modify]

/-- `sync` with list output (`as_str` false): strip comments, compare,
filter, generate. -/
def sync (src dst : Str) (remove_database_name_from_sql : Bool)
    (ignore_increment : Bool) (ignore_if_not_exists : Bool)
    (force_if_not_exists : Bool) (allowed_actions : List ActionTypes) :
    Except Str (List Str) := do
  let src := filter_comments src
  let dst := filter_comments dst
  let compare_info ← compare_tables src dst remove_database_name_from_sql
    ignore_increment ignore_if_not_exists force_if_not_exists
  if compare_info ≠ [] then
    let compare_info := filter_diffs compare_info allowed_actions
    if compare_info ≠ [] then get_diff_sql compare_info
    else pure []
  else pure []

/-- `sync` with joined-string output (`as_str` true, the default). -/
def sync_str (src dst : Str) (remove_database_name_from_sql : Bool)
    (ignore_increment : Bool) (ignore_if_not_exists : Bool)
    (force_if_not_exists : Bool) (allowed_actions : List ActionTypes) :
    Except Str Str :=
  (sync src dst remove_database_name_from_sql ignore_increment
    ignore_if_not_exists force_if_not_exists allowed_actions).map
    fun res => if res ≠ [] then joinL ((";\n").data) res ++ [';'] else []

/-! ### Derived notions used by the specification statements -/

/-- Strict lexicographic string order by code point. -/
def strLt : Str → Str → Bool
  | [], [] => false
  | [], _ :: _ => true
  | _ :: _, [] => false
  | a :: xs, b :: ys => if a = b then strLt xs ys else decide (a < b)

/-- Whether a tag denotes an index / primary-key / constraint drop. -/
def SqlTag.isKCDrop (t : SqlTag) : Bool :=
  t.kind = SqlKind.keyDrop ∨ t.kind = SqlKind.consDrop

/-- Whether a tag denotes an `ADD INDEX`-family or `ADD CONSTRAINT`
statement. -/
def SqlTag.isKCAdd (t : SqlTag) : Bool :=
  t.kind = SqlKind.keyAdd ∨
    (t.kind = SqlKind.consAddMod ∧ t.action = ActionTypes.add)

/-- Whether a tag denotes a column-drop statement (the fallback `DROP`
branch of the compiler). -/
def SqlTag.isColDrop (t : SqlTag) : Bool :=
  t.kind = SqlKind.fallDrop

/-- The statements of one table within a tagged output. -/
def stmtsFor (t : Str) (l : List (SqlTag × Str)) : List Str :=
  (l.filter fun p => p.1.table = t).map Prod.snd

/-- Whether a diff record is a removal (source side only). -/
def removalDiff (f : DiffInfo) : Bool :=
  f.src ≠ [] ∧ f.dst = []

/-- Every constraint entry of a keyed mapping already has its supporting
plain-key entry (the condition under which the foreign-key index synthesis
inserts nothing). -/
def fkIndexesPresent (d : List (Str × Str)) : Bool :=
  d.all fun p =>
    !startsWithL (("!!").data) p.1 ||
      decide ((replaceAllL (("!!constraint").data) (("key").data) p.1) ∈
        odKeys (d.filter fun q => startsWithL (("key").data) q.1))

/-- The ordering direction that `get_action_sql` assigns to each branch
classification. -/
def kindDir : SqlKind → Int
  | .keyDrop => -1
  | .keyAdd => 1
  | .keyMod => -1
  | .consDrop => -1
  | .fallDrop => 1
  | .consAddMod => 1
  | .deadMod => 0
  | .plainAddMod => 0
  | .other => 0
  | .tableDrop => 0
  | .tableCreate => 0

/-- The per-entry decision of `filter_diffs`, as a partial map: kept
entries are returned (diff tables with their surviving diffs), dropped
entries give `none`. -/
def entryFilter (allowed_actions : List ActionTypes) (p : Str × TableInfo) :
    Option (Str × TableInfo) :=
  if p.2.src_orphan ∧ ActionTypes.drop ∈ allowed_actions then some p
  else if p.2.dst_orphan ≠ [] ∧ ActionTypes.create ∈ allowed_actions then
    some p
  else if p.2.diffs ≠ [] then
    let ds := p.2.diffs.filter (keepDiff allowed_actions)
    if ds ≠ [] then some (p.1, { diffs := ds : TableInfo }) else none
  else none

/-- Componentwise concatenation of bucket triples. -/
def bcat (x y : Buckets) : Buckets :=
  (x.1 ++ y.1, x.2.1 ++ y.2.1, x.2.2 ++ y.2.2)

/-- The substitution chain of `process_line` (size defaults, `BOOL`, and
the auto-increment filter), applied to a declaration tail. -/
def process_tail (ignore_increment : Bool) (t : Str) : Str :=
  let l1 := scanSub (trySized kwINT (("11").data)) t
  let l2 := scanSub (trySized kwTINYINT (("3").data)) l1
  let l3 := scanSub (trySized kwSMALLINT (("6").data)) l2
  let l4 := scanSub (trySized kwBIGINT (("20").data)) l3
  let l5 := scanSub (trySized kwVARCHAR (("255").data)) l4
  let l6 := scanSub (trySized kwDATETIME (("6").data)) l5
  let l7 := scanSub tryBool l6
  if ignore_increment then scanSub (tryAutoInc true) l7 else l7

/-- A one-column `CREATE TABLE` statement for table `t`: the column name
in backticks followed by the declaration tail. -/
def mkDecl (name tail : Str) : Str :=
  ("CREATE TABLE `t` (").data ++ '`' :: name ++ '`' :: (tail ++ [')'])

/-- The bare / sized declaration-tail pairs of the default-size
rewrites. -/
def sizePairs : List (Str × Str) :=
  [((" INT NOT NULL").data, (" INT(11) NOT NULL").data),
   ((" TINYINT NOT NULL").data, (" TINYINT(3) NOT NULL").data),
   ((" SMALLINT NOT NULL").data, (" SMALLINT(6) NOT NULL").data),
   ((" BIGINT NOT NULL").data, (" BIGINT(20) NOT NULL").data),
   ((" VARCHAR NOT NULL").data, (" VARCHAR(255) NOT NULL").data),
   ((" DATETIME NOT NULL").data, (" DATETIME(6) NOT NULL").data),
   ((" BOOL NOT NULL").data, (" TINYINT(1) NOT NULL").data)]

/-- Prepend a pending accumulator to the result of a comma-split scan:
the reversed accumulator extends the first segment (or the remainder when
no comma was found). -/
def accAdjust (acc : Str) (p : List Str × Str) : List Str × Str :=
  match p.1 with
  | [] => ([], acc.reverse ++ p.2)
  | s :: ss => ((acc.reverse ++ s) :: ss, p.2)

/-- Each bucket of a tagged output holds only statements of its own
direction. -/
def bucketsOK (b : Buckets) : Prop :=
  (∀ p ∈ b.1, kindDir (SqlTag.kind p.1) = -1) ∧
    (∀ p ∈ b.2.1, kindDir (SqlTag.kind p.1) = 0) ∧
    (∀ p ∈ b.2.2, kindDir (SqlTag.kind p.1) = 1)

/-! ## Auxiliary data for the verification statements -/

instance {E A : Type} [DecidableEq E] [DecidableEq A] : DecidableEq (Except E A) :=
  fun x y =>
  match x, y with
  | .error a, .error b =>
    if h : a = b then .isTrue (by subst h; rfl)
    else .isFalse (fun hh => by cases hh; exact h rfl)
  | .ok a, .ok b =>
    if h : a = b then .isTrue (by subst h; rfl)
    else .isFalse (fun hh => by cases hh; exact h rfl)
  | .error _, .ok _ => .isFalse (fun hh => by cases hh)
  | .ok _, .error _ => .isFalse (fun hh => by cases hh)

def noSemiSql : Str := ("CREATE TABLE t (a INT)").data

def fkDemoDict : List (Str × Str) :=
  [((("!`a`").data), (("`a` INT").data)),
   ((("!!constraint `c`").data),
    (("CONSTRAINT `c` FOREIGN KEY (`a`) REFERENCES `u` (`b`)").data))]

def lastMatchDemo : Nat × CreateMatch × Nat :=
  (24, CreateMatch.mk (("CREATE TABLE ").data) none (("t").data) (("CREATE TABLE t ").data), 15)

def dupTableSql : Str := ("CREATE TABLE t (a INT); CREATE TABLE t (b INT);").data

def firstMatchDemo : Nat × CreateMatch × Nat :=
  (0, CreateMatch.mk (("CREATE TABLE ").data) none (("t").data) (("CREATE TABLE t ").data), 15)

def orderDemoCI : List (Str × TableInfo) :=
  [((("t").data : Str),
    TableInfo.mk false []
      [DiffInfo.mk (("KEY `i` (`a`)").data) [],
       DiffInfo.mk (("`b` INT(11) NOT NULL").data) [],
       DiffInfo.mk [] (("KEY `j` (`c`)").data)])]

def orderTop : List (SqlTag × Str) :=
  [(SqlTag.mk (("t").data) ActionTypes.drop SqlKind.keyDrop,
    ("ALTER TABLE `t` DROP INDEX `i`").data)]

def orderMid : List (SqlTag × Str) := []

def orderBot : List (SqlTag × Str) :=
  [(SqlTag.mk (("t").data) ActionTypes.drop SqlKind.fallDrop,
    ("ALTER TABLE `t` DROP `b`").data),
   (SqlTag.mk (("t").data) ActionTypes.add SqlKind.keyAdd,
    ("ALTER TABLE `t` ADD INDEX `j` (`c`)").data)]

def orphSrcW : Str := ("CREATE TABLE `a` (`x` INT(11) NOT NULL);").data

def orphDstW : Str := ("CREATE TABLE `b` (`y` INT(11) NOT NULL);").data

def orphCreateB : Str :=
  ("CREATE TABLE `b` (\n    `y` INT(11) NOT NULL\n)").data

def orphCI : List (Str × TableInfo) :=
  [((("a").data : Str), TableInfo.mk true [] []),
   ((("b").data : Str), TableInfo.mk false orphCreateB [])]

def orphMid : List (SqlTag × Str) :=
  [(SqlTag.mk (("a").data) ActionTypes.drop SqlKind.tableDrop,
    ("DROP TABLE `a`").data),
   (SqlTag.mk (("b").data) ActionTypes.create SqlKind.tableCreate, orphCreateB)]

def remDemoDiff : DiffInfo := DiffInfo.mk (("`b` INT(11) NOT NULL").data) []

def addDemoDiff : DiffInfo := DiffInfo.mk [] (("`c` INT(11) NOT NULL").data)

def afDropStmt : Str := ("ALTER TABLE `t` DROP `b`").data

def afMid : List (SqlTag × Str) :=
  [(SqlTag.mk (("t").data) ActionTypes.add SqlKind.plainAddMod,
    ("ALTER TABLE `t` ADD `c` INT(11) NOT NULL").data)]

def afBot : List (SqlTag × Str) :=
  [(SqlTag.mk (("t").data) ActionTypes.drop SqlKind.fallDrop, afDropStmt)]

def fkDemoSchema : Str :=
  ("CREATE TABLE `t` (`a` INT, CONSTRAINT `c` FOREIGN KEY (`a`) REFERENCES `u` (`b`));").data

def plainDemoSchema : Str := ("CREATE TABLE `t` (`a` INT(11) NOT NULL);").data

/-! ## Theorems -/

/-! C3 lemmas -/
theorem get_delimiter_pos_go_error {delim : Char} {skip : Bool} :
    ∀ (s : Str) (idx : Nat) (st : Option Char) (depth : Int) (e : Str),
      get_delimiter_pos_go delim skip s idx st depth = .error e → e = delimErr delim := by
  intro s
  induction s with
  | nil =>
    intro idx st depth e h
    cases st <;> simp [get_delimiter_pos_go] at h <;> exact h.symm
  | cons c rest ih =>
    intro idx st depth e h
    cases st with
    | none =>
      simp only [get_delimiter_pos_go] at h
      split_ifs at h <;>
        first
          | exact Except.noConfusion h
          | exact ih _ _ _ _ h
    | some q =>
      simp only [get_delimiter_pos_go] at h
      split_ifs at h
      all_goals exact ih _ _ _ _ h

theorem get_delimiter_pos_error {s : Str} {off : Nat} {delim : Char} {skip : Bool} {e : Str}
    (h : get_delimiter_pos s off delim skip = .error e) : e = delimErr delim :=
  get_delimiter_pos_go_error _ _ _ _ _ h

theorem split_table_schema_error {tn sql : Str} {ig : Bool} {e : Str}
    (h : split_table_schema tn sql ig = .error e) :
    e = delimErr '(' ∨ e = delimErr ')' := by
  unfold split_table_schema at h
  cases h1 : get_delimiter_pos sql 0 '(' false with
  | error e1 =>
    rw [h1] at h
    simp only [bind, Except.bind] at h
    cases h
    exact Or.inl (get_delimiter_pos_error h1)
  | ok obp =>
    rw [h1] at h
    simp only [bind, Except.bind] at h
    cases h2 : get_delimiter_pos (split_commas (sql.drop (obp + 1))).2 0 ')' true with
    | error e2 =>
      rw [h2] at h
      simp only [bind, Except.bind] at h
      cases h
      exact Or.inr (get_delimiter_pos_error h2)
    | ok cbp =>
      rw [h2] at h
      simp only [bind, Except.bind, pure, Except.pure] at h
      cases h

theorem renderCreateMatch_error {sql : Str} {rm : Bool}
    {m : Nat × CreateMatch × Nat} {e : Str}
    (h : renderCreateMatch sql rm m = .error e) : e = delimErr ';' := by
  unfold renderCreateMatch at h
  cases h1 : get_delimiter_pos sql (m.1 + m.2.2) ';' false with
  | error e1 =>
    rw [h1] at h
    simp only [bind, Except.bind] at h
    cases h
    exact get_delimiter_pos_error h1
  | ok p =>
    rw [h1] at h
    simp only [bind, Except.bind, pure, Except.pure] at h
    cases h

theorem extract_fold_error {sql : Str} {rm : Bool} :
    ∀ (ms : List (Nat × CreateMatch × Nat)) (acc : Option Str) (e : Str),
      (ms.foldlM (fun _acc m => (renderCreateMatch sql rm m).map some) acc) =
        Except.error e → e = delimErr ';' := by
  intro ms
  induction ms with
  | nil =>
    intro acc e h
    simp only [List.foldlM_nil, pure, Except.pure] at h
    cases h
  | cons m ms ih =>
    intro acc e h
    simp only [List.foldlM_cons] at h
    cases h1 : renderCreateMatch sql rm m with
    | error e1 =>
      rw [h1] at h
      simp only [Except.map, bind, Except.bind] at h
      cases h
      exact renderCreateMatch_error h1
    | ok r =>
      rw [h1] at h
      simp only [Except.map, bind, Except.bind] at h
      exact ih _ _ h

theorem extract_table_sql_error {name sql : Str} {rm : Bool} {e : Str}
    (h : extract_table_sql name sql rm = .error e) : e = delimErr ';' := by
  unfold extract_table_sql at h
  exact extract_fold_error _ _ _ h

theorem sync_propagates_error {src dst : Str} {a b c d : Bool}
    {acts : List ActionTypes} {e : Str}
    (h : compare_tables (filter_comments src) (filter_comments dst) a b c d = .error e) :
    sync src dst a b c d acts = .error e := by
  unfold sync
  simp only [h, bind, Except.bind]

theorem delim_mem_delimErr (delim : Char) : delim ∈ delimErr delim := by
  unfold delimErr
  exact List.mem_append_right _ (List.mem_cons_of_mem _ (List.mem_cons_self _ _))

/-- C3: a missing delimiter is a `ValueError` whose message names the
expected delimiter; `split_table_schema` can fail only over the missing
`(` or `)` (comma exhaustion is absorbed as the end of the comma loop);
`extract_table_sql` can fail only over the missing `;`; and a failure of
the comparison phase propagates uncaught out of `sync`, which therefore
produces no output. -/
theorem claim_missing_delimiter :
    (∀ (s : Str) (off : Nat) (delim : Char) (skip : Bool) (e : Str),
       get_delimiter_pos s off delim skip = .error e →
         e = delimErr delim ∧ delim ∈ e) ∧
    (∀ (tn sql : Str) (ig : Bool) (e : Str),
       split_table_schema tn sql ig = .error e →
         e = delimErr '(' ∨ e = delimErr ')') ∧
    (∀ (name sql : Str) (rm : Bool) (e : Str),
       extract_table_sql name sql rm = .error e → e = delimErr ';') ∧
    (∀ (src dst : Str) (a b c d : Bool) (acts : List ActionTypes) (e : Str),
       compare_tables (filter_comments src) (filter_comments dst) a b c d = .error e →
         sync src dst a b c d acts = .error e) := by
  refine ⟨?_, ?_, ?_, ?_⟩
  · intro s off delim skip e h
    have he := get_delimiter_pos_error h
    exact ⟨he, he ▸ delim_mem_delimErr delim⟩
  · intro tn sql ig e h
    exact split_table_schema_error h
  · intro name sql rm e h
    exact extract_table_sql_error h
  · intro src dst a b c d acts e h
    exact sync_propagates_error h

theorem claim_missing_delimiter_witness :
    (delimErr ';' = delimErr ';' ∧ ';' ∈ delimErr ';') ∧
    sync noSemiSql noSemiSql true true true true ALL_ACTIONS = .error (delimErr ';') :=
  ⟨claim_missing_delimiter.1 (("x").data) 0 ';' false (delimErr ';') (by decide),
   claim_missing_delimiter.2.2.2 noSemiSql noSemiSql true true true true ALL_ACTIONS
     (delimErr ';') (by decide)⟩

/-! C8 lemmas -/
theorem ule_toNat {a b : UInt32} (h : a ≤ b) : a.toNat ≤ b.toNat := by
  rw [UInt32.le_def, BitVec.le_def] at h
  exact h

theorem toNat_ult {a b : UInt32} (h : a.toNat < b.toNat) : a < b := by
  rw [UInt32.lt_def, BitVec.lt_def]
  exact h

theorem toNat_ofNat_valid {n : Nat} (h : n.isValidChar) : (Char.ofNat n).toNat = n := by
  rw [Char.ofNat, dif_pos h]
  rfl

theorem wordChar_ge48 {c : Char} (h : isWordChar c = true) : 48 ≤ c.toNat := by
  simp only [isWordChar, Bool.or_eq_true, Char.isAlpha, Char.isUpper, Char.isLower,
    Char.isDigit, Bool.and_eq_true, decide_eq_true_eq, ge_iff_le] at h
  rcases h with ((⟨h1, _⟩ | ⟨h1, _⟩) | ⟨h1, _⟩) | h
  · have := ule_toNat h1
    have h65 : (65 : UInt32).toNat = 65 := by decide
    simp only [Char.toNat]
    omega
  · have := ule_toNat h1
    have h97 : (97 : UInt32).toNat = 97 := by decide
    simp only [Char.toNat]
    omega
  · have := ule_toNat h1
    have h48 : (48 : UInt32).toNat = 48 := by decide
    simp only [Char.toNat]
    omega
  · subst h
    decide

theorem bang_lt_toLower {c : Char} (h : 48 ≤ c.toNat) : '!' < c.toLower := by
  unfold Char.toLower
  dsimp only
  split
  · rename_i h2
    obtain ⟨h65, h90⟩ := h2
    rw [Char.lt_def]
    apply toNat_ult
    have hval : (Char.ofNat (c.toNat + 32)).toNat = c.toNat + 32 :=
      toNat_ofNat_valid (Or.inl (by omega))
    have hbang : ('!').toNat = 33 := by decide
    simp only [Char.toNat] at hval hbang h ⊢
    omega
  · rw [Char.lt_def]
    apply toNat_ult
    have hbang : ('!').toNat = 33 := by decide
    rename_i hno
    simp only [Char.toNat] at hbang h hno ⊢
    omega

theorem toLower_ge48 {c : Char} (h : 48 ≤ c.toNat) : 48 ≤ c.toLower.toNat := by
  unfold Char.toLower
  dsimp only
  split
  · rename_i h2
    have hval : (Char.ofNat (c.toNat + 32)).toNat = c.toNat + 32 :=
      toNat_ofNat_valid (Or.inl (by omega))
    omega
  · exact h

theorem isPyWs_false_of_ge48 {c : Char} (h : 48 ≤ c.toNat) : isPyWs c = false := by
  simp only [isPyWs, Bool.or_eq_false_iff, decide_eq_false_iff_not]
  refine ⟨⟨⟨⟨⟨?_, ?_⟩, ?_⟩, ?_⟩, ?_⟩, ?_⟩ <;>
    (intro hc; subst hc; revert h; decide)

theorem takeWhile_head {p : Char → Bool} :
    ∀ {l : Str} {x : Char} {xs : Str}, l.takeWhile p = x :: xs → p x = true := by
  intro l x xs h
  cases l with
  | nil => cases h
  | cons c cs =>
    rw [List.takeWhile_cons] at h
    by_cases hp : p c
    · rw [if_pos hp] at h
      cases h
      exact hp
    · rw [if_neg hp] at h
      cases h

theorem matchCIP_head {l : Char} {ls s t r : Str}
    (h : matchCIP (l :: ls) s = some (t, r)) :
    ∃ c t', t = c :: t' ∧ c.toLower = l.toLower := by
  cases s with
  | nil => cases h
  | cons c cs =>
    unfold matchCIP at h
    by_cases hc : ciEq l c
    · rw [if_pos hc] at h
      have hlc : c.toLower = l.toLower := by
        have := hc
        simp only [ciEq, decide_eq_true_eq] at this
        exact this.symm
      cases hm : matchCIP ls cs with
      | none => rw [hm] at h; cases h
      | some p =>
        rw [hm] at h
        cases h
        exact ⟨c, p.1, rfl, hlc⟩
    · rw [if_neg hc] at h
      cases h

theorem normalize_str_cons {c : Char} (t : Str) (h : isPyWs c.toLower = false) :
    normalize_str (c :: t) = c.toLower :: collapseGo (toLowerL t) false := by
  simp [normalize_str, toLowerL, collapseGo, h]

theorem colPatMatch_head {l m : Str} (h : colPatMatch l = some m) :
    ∃ c t, m = c :: t ∧ (c = btickC ∨ isWordChar c = true) := by
  unfold colPatMatch at h
  cases l with
  | nil =>
    simp only [List.takeWhile_nil, if_pos rfl] at h
    cases h
  | cons c cs =>
    by_cases hc : c = btickC
    · simp only [hc, if_pos rfl, reduceIte] at h
      by_cases hw : List.takeWhile isWordChar cs = []
      · rw [if_pos hw] at h
        cases h
      · rw [if_neg hw] at h
        cases hwc : List.takeWhile isWordChar cs with
        | nil => exact absurd hwc hw
        | cons x xs =>
          rw [hwc] at h
          simp only [Option.some.injEq] at h
          subst h
          simp only [List.cons_append, List.nil_append, List.append_assoc]
          exact ⟨btickC, _, rfl, Or.inl rfl⟩
    · simp only [if_neg hc, reduceIte] at h
      by_cases hw : List.takeWhile isWordChar (c :: cs) = []
      · rw [if_pos hw] at h
        cases h
      · rw [if_neg hw] at h
        cases hwc : List.takeWhile isWordChar (c :: cs) with
        | nil => exact absurd hwc hw
        | cons x xs =>
          rw [hwc] at h
          simp only [Option.some.injEq] at h
          subst h
          simp only [List.cons_append, List.nil_append, List.append_assoc]
          exact ⟨x, _, rfl, Or.inr (takeWhile_head hwc)⟩

theorem headAppend {o rest m : Str} {c : Char} {t' : Str}
    (ho : o = c :: t') (hm : m = o ++ rest) : ∃ t, m = c :: t :=
  ⟨t' ++ rest, by rw [hm, ho]; simp⟩

theorem keyPatCore_head {l m : Str} (h : keyPatCore l = some m) :
    ∃ c t, m = c :: t ∧ c.toLower = 'k' := by
  unfold keyPatCore at h
  cases hm : matchCIP kwKEY l with
  | none => rw [hm] at h; cases h
  | some p =>
    obtain ⟨o, r1⟩ := p
    rw [hm] at h
    rw [show kwKEY = 'K' :: ("EY").data from rfl] at hm
    obtain ⟨c, t', ho, hc⟩ := matchCIP_head hm
    have hk : c.toLower = 'k' := by rw [hc]; decide
    dsimp only at h
    repeat' split at h
    all_goals first
      | exact Option.noConfusion h
      | (simp only [Option.some.injEq, List.append_assoc] at h
         obtain ⟨t, ht⟩ := headAppend ho h.symm
         exact ⟨c, t, ht, hk⟩)

theorem keyAltA_head {l m : Str} (h : keyAltA l = some m) :
    ∃ c t, m = c :: t ∧ c.toLower = 'p' := by
  unfold keyAltA at h
  cases hm : matchCIP kwPRIMARY l with
  | none => rw [hm] at h; cases h
  | some p =>
    obtain ⟨o, r1⟩ := p
    rw [hm] at h
    rw [show kwPRIMARY = 'P' :: ("RIMARY").data from rfl] at hm
    obtain ⟨c, t', ho, hc⟩ := matchCIP_head hm
    have hk : c.toLower = 'p' := by rw [hc]; decide
    dsimp only at h
    repeat' split at h
    all_goals first
      | exact Option.noConfusion h
      | (simp only [Option.some.injEq, List.append_assoc] at h
         obtain ⟨t, ht⟩ := headAppend ho h.symm
         exact ⟨c, t, ht, hk⟩)

theorem keyWithPfx_head {kw l m : Str} {k0 : Char} {kr : Str} (hkw : kw = k0 :: kr)
    (h : keyWithPfx kw l = some m) :
    ∃ c t, m = c :: t ∧ c.toLower = k0.toLower := by
  unfold keyWithPfx at h
  cases hm : matchCIP kw l with
  | none => rw [hm] at h; cases h
  | some p =>
    obtain ⟨o, r1⟩ := p
    rw [hm] at h
    rw [hkw] at hm
    obtain ⟨c, t', ho, hc⟩ := matchCIP_head hm
    dsimp only at h
    split at h
    · exact Option.noConfusion h
    · cases hcore : keyPatCore (r1.dropWhile isPyWs) with
      | none => rw [hcore] at h; cases h
      | some t0 =>
        rw [hcore] at h
        simp only [Option.map_some'] at h
        simp only [Option.some.injEq, List.append_assoc] at h
        obtain ⟨t, ht⟩ := headAppend ho h.symm
        exact ⟨c, t, ht, hc⟩

theorem keyPatMatch_head {l m : Str} (h : keyPatMatch l = some m) :
    ∃ c t, m = c :: t ∧
      (c.toLower = 'p' ∨ c.toLower = 'u' ∨ c.toLower = 'f' ∨ c.toLower = 'k') := by
  unfold keyPatMatch at h
  cases hA : keyAltA l with
  | some t =>
    rw [hA] at h
    cases h
    obtain ⟨c, t, ht, hc⟩ := keyAltA_head hA
    exact ⟨c, t, ht, Or.inl hc⟩
  | none =>
    rw [hA] at h
    cases hU : keyWithPfx kwUNIQUE l with
    | some t =>
      rw [hU] at h
      cases h
      obtain ⟨c, t, ht, hc⟩ := keyWithPfx_head (show kwUNIQUE = 'U' :: ("NIQUE").data from rfl) hU
      refine ⟨c, t, ht, Or.inr (Or.inl ?_)⟩
      rw [hc]; decide
    | none =>
      rw [hU] at h
      cases hF : keyWithPfx kwFULLTEXT l with
      | some t =>
        rw [hF] at h
        cases h
        obtain ⟨c, t, ht, hc⟩ := keyWithPfx_head (show kwFULLTEXT = 'F' :: ("ULLTEXT").data from rfl) hF
        refine ⟨c, t, ht, Or.inr (Or.inr (Or.inl ?_))⟩
        rw [hc]; decide
      | none =>
        rw [hF] at h
        obtain ⟨c, t, ht, hc⟩ := keyPatCore_head h
        exact ⟨c, t, ht, Or.inr (Or.inr (Or.inr hc))⟩

theorem collapseGo_cons {c : Char} {t : Str} {b : Bool} (h : isPyWs c = false) :
    collapseGo (c :: t) b = c :: collapseGo t false := by
  simp [collapseGo, h]

theorem normalize_bangbang (mC : Str) :
    normalize_str ('!' :: '!' :: mC) = '!' :: '!' :: collapseGo (toLowerL mC) false := by
  have h1 : ('!').toLower = '!' := by decide
  have h2 : isPyWs '!' = false := by decide
  simp [normalize_str, toLowerL, h1, collapseGo_cons h2]

theorem normalize_bang (mF : Str) :
    normalize_str ('!' :: mF) = '!' :: collapseGo (toLowerL mF) false := by
  have h1 : ('!').toLower = '!' := by decide
  have h2 : isPyWs '!' = false := by decide
  simp [normalize_str, toLowerL, h1, collapseGo_cons h2]

theorem char_lt_or_gt {c d : Char} (h : ¬c = d) : c < d ∨ d < c := by
  have hne : c.toNat ≠ d.toNat := by
    intro he
    apply h
    apply Char.ext
    have : c.val.toBitVec = d.val.toBitVec := by
      apply BitVec.eq_of_toNat_eq
      exact he
    exact UInt32.eq_of_toBitVec_eq this
  rcases Nat.lt_or_ge c.toNat d.toNat with hlt | hge
  · exact Or.inl (toNat_ult hlt)
  · rcases Nat.lt_or_ge d.toNat c.toNat with hlt2 | hge2
    · exact Or.inr (toNat_ult hlt2)
    · omega

theorem strLe_total (a : Str) : ∀ b, strLe a b = true ∨ strLe b a = true := by
  induction a with
  | nil => intro b; left; cases b <;> simp [strLe]
  | cons c cs ih =>
    intro b
    cases b with
    | nil => right; simp [strLe]
    | cons d ds =>
      by_cases hcd : c = d
      · subst hcd
        simp only [strLe, if_pos rfl]
        exact ih ds
      · rcases char_lt_or_gt hcd with hlt | hgt
        · left
          simp [strLe, hcd, hlt]
        · right
          have hdc : ¬d = c := fun he => hcd he.symm
          simp [strLe, hdc, hgt]

theorem strLe_trans {a b c : Str} (h1 : strLe a b = true) (h2 : strLe b c = true) :
    strLe a c = true := by
  induction a generalizing b c with
  | nil => cases c <;> simp [strLe]
  | cons x xs ih =>
    cases b with
    | nil => simp [strLe] at h1
    | cons y ys =>
      cases c with
      | nil => simp [strLe] at h2
      | cons z zs =>
        by_cases hxy : x = y
        · subst hxy
          rw [strLe, if_pos rfl] at h1
          by_cases hyz : x = z
          · subst hyz
            rw [strLe, if_pos rfl] at h2 ⊢
            exact ih h1 h2
          · rw [strLe, if_neg hyz] at h2 ⊢
            exact h2
        · rw [strLe, if_neg hxy] at h1
          by_cases hyz : y = z
          · subst hyz
            rw [strLe, if_neg hxy]
            exact h1
          · rw [strLe, if_neg hyz] at h2
            have hxz : x < z :=
              Char.lt_trans (of_decide_eq_true h1) (of_decide_eq_true h2)
            have hxzne : ¬x = z := Char.ne_of_lt hxz
            rw [strLe, if_neg hxzne]
            exact decide_eq_true hxz

theorem mem_insertSorted {x z : Str} : ∀ {l : List Str},
    z ∈ insertSorted x l ↔ z = x ∨ z ∈ l := by
  intro l
  induction l with
  | nil => simp [insertSorted]
  | cons y ys ih =>
    unfold insertSorted
    split
    · simp only [List.mem_cons]
    · simp only [List.mem_cons, ih]
      tauto

theorem insertSorted_pairwise {x : Str} : ∀ {l : List Str},
    l.Pairwise (fun a b => strLe a b = true) →
    (insertSorted x l).Pairwise (fun a b => strLe a b = true) := by
  intro l
  induction l with
  | nil => intro _; simp [insertSorted]
  | cons y ys ih =>
    intro h
    rw [List.pairwise_cons] at h
    obtain ⟨hy, hys⟩ := h
    unfold insertSorted
    split
    · rename_i hxy
      rw [List.pairwise_cons]
      constructor
      · intro z hz
        rcases List.mem_cons.mp hz with rfl | hz2
        · exact hxy
        · exact strLe_trans hxy (hy z hz2)
      · rw [List.pairwise_cons]
        exact ⟨hy, hys⟩
    · rename_i hxy
      have hyx : strLe y x = true := by
        rcases strLe_total y x with hh | hh
        · exact hh
        · exact absurd hh hxy
      rw [List.pairwise_cons]
      constructor
      · intro z hz
        rcases mem_insertSorted.mp hz with rfl | hz2
        · exact hyx
        · exact hy z hz2
      · exact ih hys

theorem sortStrs_pairwise : ∀ (l : List Str),
    (sortStrs l).Pairwise (fun a b => strLe a b = true) := by
  intro l
  induction l with
  | nil => simp [sortStrs]
  | cons x xs ih => exact insertSorted_pairwise ih

theorem sortedKeys_pairwise (l : List Str) :
    (sortedKeys l).Pairwise (fun a b => strLe a b = true) :=
  sortStrs_pairwise (pyDedup l)

theorem sort_key_lt_core {lC lF lK mC mF mK : Str}
    (hCk : keyPatMatch lC = none) (hCc : consPatMatch lC = some mC)
    (hFk : keyPatMatch lF = none) (hFc : consPatMatch lF = none)
    (hFcol : colPatMatch lF = some mF)
    (hKk : keyPatMatch lK = some mK) :
    strLt (extract_and_normalize_keys lC).1 (extract_and_normalize_keys lF).1 = true ∧
    strLt (extract_and_normalize_keys lF).1 (extract_and_normalize_keys lK).1 = true := by
  have hKC : (extract_and_normalize_keys lC).1 = normalize_str ('!' :: '!' :: mC) := by
    simp [extract_and_normalize_keys, hCk, hCc]
  have hKF : (extract_and_normalize_keys lF).1 = normalize_str ('!' :: mF) := by
    simp [extract_and_normalize_keys, hFk, hFc, hFcol]
  have hKK : (extract_and_normalize_keys lK).1 = normalize_str mK := by
    simp [extract_and_normalize_keys, hKk]
  obtain ⟨hd, tF, rfl, hdP⟩ := colPatMatch_head hFcol
  obtain ⟨c0, tK, rfl, hc0⟩ := keyPatMatch_head hKk
  have hd48 : 48 ≤ hd.toNat := by
    rcases hdP with rfl | hw
    · decide
    · exact wordChar_ge48 hw
  have hdlt : '!' < hd.toLower := bang_lt_toLower hd48
  have hdne : ¬('!' = hd.toLower) := Char.ne_of_lt hdlt
  have hdws : isPyWs hd.toLower = false := isPyWs_false_of_ge48 (toLower_ge48 hd48)
  have hcolF : normalize_str ('!' :: hd :: tF) =
      '!' :: hd.toLower :: collapseGo (toLowerL tF) false := by
    rw [normalize_bang]
    simp only [toLowerL, List.map_cons]
    rw [collapseGo_cons hdws]
  constructor
  · rw [hKC, hKF, normalize_bangbang, hcolF]
    simp only [strLt, if_pos rfl, if_neg hdne]
    exact decide_eq_true hdlt
  · rw [hKF, hKK, hcolF]
    have hc0ws : isPyWs c0.toLower = false := by
      rcases hc0 with h | h | h | h <;> rw [h] <;> decide
    rw [normalize_str_cons _ hc0ws]
    have hbne : ¬('!' = c0.toLower) := by
      rcases hc0 with h | h | h | h <;> rw [h] <;> decide
    have hblt : '!' < c0.toLower := by
      rcases hc0 with h | h | h | h <;> rw [h] <;> decide
    simp only [strLt, if_neg hbne]
    exact decide_eq_true hblt

/-- C8: the sort keys assigned by `extract_and_normalize_keys` order
constraint lines before column lines before plain key lines under strict
lexicographic order, and the iteration order of the diff loop
(`sortedKeys`) is ascending, so constraints are visited first, then
columns, then plain keys. -/
theorem claim_sort_key_ordering :
    (∀ (lC lF lK mC mF mK : Str),
       keyPatMatch lC = none → consPatMatch lC = some mC →
       keyPatMatch lF = none → consPatMatch lF = none →
       colPatMatch lF = some mF →
       keyPatMatch lK = some mK →
       strLt (extract_and_normalize_keys lC).1 (extract_and_normalize_keys lF).1 = true ∧
       strLt (extract_and_normalize_keys lF).1 (extract_and_normalize_keys lK).1 = true) ∧
    (∀ l : List Str, (sortedKeys l).Pairwise fun a b => strLe a b = true) := by
  constructor
  · intro lC lF lK mC mF mK h1 h2 h3 h4 h5 h6
    exact sort_key_lt_core h1 h2 h3 h4 h5 h6
  · exact sortedKeys_pairwise

theorem claim_sort_key_ordering_witness :
    strLt (extract_and_normalize_keys
        (("CONSTRAINT `c` FOREIGN KEY (`a`) REFERENCES `u` (`b`)").data)).1
      (extract_and_normalize_keys (("`a` INT(11) NOT NULL").data)).1 = true ∧
    strLt (extract_and_normalize_keys (("`a` INT(11) NOT NULL").data)).1
      (extract_and_normalize_keys (("KEY `k` (`a`)").data)).1 = true :=
  claim_sort_key_ordering.1
    (("CONSTRAINT `c` FOREIGN KEY (`a`) REFERENCES `u` (`b`)").data)
    (("`a` INT(11) NOT NULL").data)
    (("KEY `k` (`a`)").data)
    (("CONSTRAINT `c`").data) (("`a`").data) (("KEY `k`").data)
    (by decide) (by decide) (by decide) (by decide) (by decide) (by decide)

theorem matchTMC_alter (t rest : Str) : matchTMC (alterTablePfx t ++ rest) = none := by
  have hm : matchCIP kwTABLE (alterTablePfx t ++ rest) = none := by
    rw [alterTablePfx]
    rw [show ("ALTER TABLE ").data = 'A' :: ("LTER TABLE ").data from rfl]
    simp only [List.cons_append, List.append_assoc]
    rw [show kwTABLE = 'T' :: ("ABLE").data from rfl]
    unfold matchCIP
    rw [if_neg (by decide)]
  unfold matchTMC
  rw [hm]

theorem diff_action_modify {f : DiffInfo} (hs : f.src ≠ []) (hd : f.dst ≠ []) :
    diff_action f = (f.dst, ActionTypes.modify) := by
  unfold diff_action
  rw [if_neg (by tauto), if_neg (by tauto)]

theorem get_action_modify_plain {t d : Str} (hk : keyMatch d = none)
    (hc : startsWithL (("CONSTRAINT ").data) d = false) :
    get_action_sqlK t d ActionTypes.modify =
      .ok (alterTablePfx t ++ ("MODIFY ").data ++ d, 0, SqlKind.plainAddMod) := by
  simp only [get_action_sqlK, hk, hc, ActionTypes.value, matchTMC_alter,
    Bool.false_eq_true, false_and, if_false, List.append_assoc]
  rfl

/-- C10: a modification diff on a plain column declaration compiles to
`ALTER TABLE `t` MODIFY <destination text>` placed in the middle bucket;
the compiled statement is a function of the destination text alone, so the
source-side declaration text never reaches the output. -/
theorem claim_modify_uses_destination :
    ∀ (t : Str) (f : DiffInfo),
      f.src ≠ [] → f.dst ≠ [] →
      keyMatch f.dst = none →
      startsWithL (("CONSTRAINT ").data) f.dst = false →
      diff_action f = (f.dst, ActionTypes.modify) ∧
      diffStmt t f =
        .ok (alterTablePfx t ++ ("MODIFY ").data ++ f.dst, 0, SqlKind.plainAddMod) ∧
      (∀ s1 s2 : Str, s1 ≠ [] → s2 ≠ [] →
        diffStmt t { src := s1, dst := f.dst } = diffStmt t { src := s2, dst := f.dst }) := by
  intro t f hs hd hk hc
  have hda := diff_action_modify hs hd
  refine ⟨hda, ?_, ?_⟩
  · unfold diffStmt
    rw [hda]
    exact get_action_modify_plain hk hc
  · intro s1 s2 h1 h2
    unfold diffStmt
    rw [diff_action_modify (f := { src := s1, dst := f.dst }) h1 hd,
      diff_action_modify (f := { src := s2, dst := f.dst }) h2 hd]

theorem claim_modify_uses_destination_witness :
    diffStmt (("user").data)
        { src := (("`a` INT(11)").data), dst := (("`a` INT(11) NOT NULL").data) } =
      .ok ((("ALTER TABLE `user` MODIFY `a` INT(11) NOT NULL").data), 0,
        SqlKind.plainAddMod) := by
  have h := claim_modify_uses_destination (("user").data)
    { src := (("`a` INT(11)").data), dst := (("`a` INT(11) NOT NULL").data) }
    (by decide) (by decide) (by decide) (by decide)
  rw [h.2.1]
  rfl

/-! C6 lemmas -/
theorem odInsert_mem_of_ne {m : List (Str × Str)} {k v k2 v2 : Str}
    (h : (k, v) ∈ m) (hne : k ≠ k2) : (k, v) ∈ odInsert m k2 v2 := by
  unfold odInsert
  split
  · refine List.mem_map.mpr ⟨(k, v), h, ?_⟩
    rw [if_neg hne]
  · exact List.mem_append_left _ h

theorem odInsert_mem_self {m : List (Str × Str)} (k2 v2 : Str) :
    (k2, v2) ∈ odInsert m k2 v2 := by
  unfold odInsert
  split
  · rename_i hk
    obtain ⟨p, hp, hfst⟩ := List.mem_map.mp hk
    refine List.mem_map.mpr ⟨p, hp, ?_⟩
    rw [if_pos hfst]
  · exact List.mem_append_right _ (List.mem_singleton.mpr rfl)

theorem odKeys_odInsert_mono {m : List (Str × Str)} {k : Str} (k2 v2 : Str)
    (h : k ∈ odKeys m) : k ∈ odKeys (odInsert m k2 v2) := by
  unfold odInsert
  split
  · obtain ⟨p, hp, hfst⟩ := List.mem_map.mp h
    by_cases he : p.1 = k2
    · refine List.mem_map.mpr ⟨(k2, v2), List.mem_map.mpr ⟨p, hp, by rw [if_pos he]⟩, ?_⟩
      rw [← hfst, he]
    · exact List.mem_map.mpr ⟨(p.1, p.2), List.mem_map.mpr ⟨p, hp, by rw [if_neg he]⟩, hfst⟩
  · unfold odKeys
    rw [List.map_append]
    exact List.mem_append_left _ h

theorem startsWithL_append_self (p x : Str) : startsWithL p (p ++ x) = true := by
  induction p with
  | nil => rfl
  | cons c cs ih => simp [startsWithL, ih]

theorem scanGo_skip (try1 : Str → Option (Str × Nat)) :
    ∀ (s : Str) (n : Nat), scanGo try1 s n = scanGo try1 (s.drop n) 0 := by
  intro s
  induction s with
  | nil =>
    intro n
    rw [List.drop_nil]
    cases n <;> rfl
  | cons c rest ih =>
    intro n
    cases n with
    | zero => rw [List.drop_zero]
    | succ m =>
      rw [List.drop_succ_cons]
      show scanGo try1 rest m = _
      exact ih m

theorem replaceAll_of_startsWith {pat repl s : Str} (hp : pat ≠ [])
    (h : startsWithL pat s = true) :
    replaceAllL pat repl s = repl ++ replaceAllL pat repl (s.drop pat.length) := by
  cases s with
  | nil =>
    cases pat with
    | nil => exact absurd rfl hp
    | cons c cs => cases h
  | cons c rest =>
    unfold replaceAllL
    rw [if_neg hp, if_neg hp]
    unfold scanSub
    show (match (if startsWithL pat (c :: rest) then some (repl, pat.length) else none) with
      | some (e, k) => e ++ scanGo _ rest (k - 1)
      | none => c :: scanGo _ rest 0) = _
    rw [if_pos h]
    dsimp only
    have hdrop : rest.drop (pat.length - 1) = (c :: rest).drop pat.length := by
      cases hpat : pat with
      | nil => exact absurd hpat hp
      | cons a l => simp
    rw [scanGo_skip, hdrop]

theorem rew_startsWith_key {k : Str}
    (h : startsWithL (("!!constraint").data) k = true) :
    startsWithL (("key").data)
      (replaceAllL (("!!constraint").data) (("key").data) k) = true := by
  rw [replaceAll_of_startsWith (by decide) h]
  exact startsWithL_append_self _ _

theorem mem_idxKeys {d : List (Str × Str)} {k : Str} (hk : k ∈ odKeys d)
    (hs : startsWithL (("key").data) k = true) :
    k ∈ odKeys (d.filter fun q => startsWithL (("key").data) q.1) := by
  obtain ⟨p, hp, hfst⟩ := List.mem_map.mp hk
  exact List.mem_map.mpr ⟨p, List.mem_filter.mpr ⟨hp, by rw [hfst]; exact hs⟩, hfst⟩

theorem efk_fold_noop (idx : List Str) :
    ∀ (l acc : List (Str × Str)),
      (∀ p ∈ l, startsWithL (("!!").data) p.1 = true →
        (replaceAllL (("!!constraint").data) (("key").data) p.1) ∈ idx) →
      l.foldl
        (fun acc p =>
          if startsWithL (("!!").data) p.1 then
            let k := replaceAllL (("!!constraint").data) (("key").data) p.1
            if k ∈ idx then acc else odInsert acc k (fkIndexText p.2)
          else acc) acc = acc := by
  intro l
  induction l with
  | nil => intro acc _; rfl
  | cons p ps ih =>
    intro acc h
    rw [List.foldl_cons]
    have hstep : (if startsWithL (("!!").data) p.1 then
        (let k := replaceAllL (("!!constraint").data) (("key").data) p.1
         if k ∈ idx then acc else odInsert acc k (fkIndexText p.2))
      else acc) = acc := by
      by_cases hb : startsWithL (("!!").data) p.1 = true
      · rw [if_pos hb]
        dsimp only
        rw [if_pos (h p (List.mem_cons_self p ps) hb)]
      · rw [if_neg hb]
    rw [hstep]
    exact ih acc fun q hq hsw => h q (List.mem_cons_of_mem _ hq) hsw

theorem efk_fold_preserve_ne {k v : Str} (idx : List Str) :
    ∀ (l acc : List (Str × Str)),
      (k, v) ∈ acc →
      (∀ p ∈ l, startsWithL (("!!").data) p.1 = true →
        (replaceAllL (("!!constraint").data) (("key").data) p.1) ≠ k) →
      (k, v) ∈ l.foldl
        (fun acc p =>
          if startsWithL (("!!").data) p.1 then
            let k := replaceAllL (("!!constraint").data) (("key").data) p.1
            if k ∈ idx then acc else odInsert acc k (fkIndexText p.2)
          else acc) acc := by
  intro l
  induction l with
  | nil => intro acc hm _; exact hm
  | cons p ps ih =>
    intro acc hm h
    rw [List.foldl_cons]
    refine ih _ ?_ fun q hq hsw => h q (List.mem_cons_of_mem _ hq) hsw
    by_cases hb : startsWithL (("!!").data) p.1 = true
    · rw [if_pos hb]
      dsimp only
      split
      · exact hm
      · exact odInsert_mem_of_ne hm
          fun he => h p (List.mem_cons_self p ps) hb (he ▸ rfl)
    · rw [if_neg hb]
      exact hm

theorem efk_fold_preserve {k v : Str} (idx : List Str) (origKeys : List Str)
    (hidx : ∀ k0 ∈ origKeys, startsWithL (("key").data) k0 = true → k0 ∈ idx)
    (hk : k ∈ origKeys) :
    ∀ (l acc : List (Str × Str)),
      (k, v) ∈ acc →
      (∀ p ∈ l, startsWithL (("!!").data) p.1 = true →
        startsWithL (("!!constraint").data) p.1 = true) →
      (k, v) ∈ l.foldl
        (fun acc p =>
          if startsWithL (("!!").data) p.1 then
            let k := replaceAllL (("!!constraint").data) (("key").data) p.1
            if k ∈ idx then acc else odInsert acc k (fkIndexText p.2)
          else acc) acc := by
  intro l
  induction l with
  | nil => intro acc hm _; exact hm
  | cons p ps ih =>
    intro acc hm h
    rw [List.foldl_cons]
    refine ih _ ?_ fun q hq hsw => h q (List.mem_cons_of_mem _ hq) hsw
    by_cases hb : startsWithL (("!!").data) p.1 = true
    · rw [if_pos hb]
      dsimp only
      split
      · exact hm
      · rename_i hnotidx
        refine odInsert_mem_of_ne hm fun he => ?_
        have hkey := rew_startsWith_key (h p (List.mem_cons_self p ps) hb)
        rw [← he] at hkey
        exact hnotidx (he ▸ hidx k hk hkey)
    · rw [if_neg hb]
      exact hm

theorem efk_fold_insert {k0 v0 : Str} (idx : List Str)
    (hb0 : startsWithL (("!!").data) k0 = true)
    (hnot : (replaceAllL (("!!constraint").data) (("key").data) k0) ∉ idx) :
    ∀ (l acc : List (Str × Str)),
      (k0, v0) ∈ l →
      (∀ p ∈ l, startsWithL (("!!").data) p.1 = true →
        replaceAllL (("!!constraint").data) (("key").data) p.1 =
          replaceAllL (("!!constraint").data) (("key").data) k0 → p = (k0, v0)) →
      (replaceAllL (("!!constraint").data) (("key").data) k0, fkIndexText v0) ∈
        l.foldl
          (fun acc p =>
            if startsWithL (("!!").data) p.1 then
              let k := replaceAllL (("!!constraint").data) (("key").data) p.1
              if k ∈ idx then acc else odInsert acc k (fkIndexText p.2)
            else acc) acc := by
  intro l
  induction l with
  | nil => intro acc hm _; cases hm
  | cons p ps ih =>
    intro acc hm huniq
    rw [List.foldl_cons]
    by_cases hpk : p = (k0, v0)
    · subst hpk
      by_cases hps : (k0, v0) ∈ ps
      · exact ih _ hps fun q hq hsw heq => huniq q (List.mem_cons_of_mem _ hq) hsw heq
      · apply efk_fold_preserve_ne idx ps
        · rw [if_pos hb0]
          dsimp only
          rw [if_neg hnot]
          exact odInsert_mem_self _ _
        · intro q hq hsw heq
          have hqe := huniq q (List.mem_cons_of_mem _ hq) hsw heq
          rw [hqe] at hq
          exact hps hq
    · have hmem : (k0, v0) ∈ ps := by
        rcases List.mem_cons.mp hm with h1 | h2
        · exact absurd h1.symm hpk
        · exact h2
      exact ih _ hmem fun q hq hsw heq => huniq q (List.mem_cons_of_mem _ hq) hsw heq

theorem ensureFkIndexes_noop {d : List (Str × Str)}
    (h : fkIndexesPresent d = true) : ensureFkIndexes d = d := by
  unfold ensureFkIndexes
  apply efk_fold_noop
  intro p hp hsw
  have := (List.all_eq_true.mp h) p hp
  rw [hsw] at this
  simp only [Bool.not_true, Bool.false_or, decide_eq_true_eq] at this
  exact this

theorem ensureFkIndexes_preserve {d : List (Str × Str)} {k v : Str}
    (hm : (k, v) ∈ d)
    (hcons : ∀ p ∈ d, startsWithL (("!!").data) p.1 = true →
      startsWithL (("!!constraint").data) p.1 = true) :
    (k, v) ∈ ensureFkIndexes d := by
  unfold ensureFkIndexes
  apply efk_fold_preserve _ (odKeys d)
  · intro k0 hk0 hsw
    exact mem_idxKeys hk0 hsw
  · exact List.mem_map.mpr ⟨(k, v), hm, rfl⟩
  · exact hm
  · exact hcons

theorem ensureFkIndexes_insert {d : List (Str × Str)} {k0 v0 : Str}
    (hm : (k0, v0) ∈ d)
    (hb0 : startsWithL (("!!").data) k0 = true)
    (hnot : (replaceAllL (("!!constraint").data) (("key").data) k0) ∉
      odKeys (d.filter fun q => startsWithL (("key").data) q.1))
    (huniq : ∀ p ∈ d, startsWithL (("!!").data) p.1 = true →
      replaceAllL (("!!constraint").data) (("key").data) p.1 =
        replaceAllL (("!!constraint").data) (("key").data) k0 → p = (k0, v0)) :
    (replaceAllL (("!!constraint").data) (("key").data) k0, fkIndexText v0) ∈
      ensureFkIndexes d := by
  unfold ensureFkIndexes
  exact efk_fold_insert _ hb0 hnot d d hm huniq

theorem compare_table_sql_factors {tn s d : Str} {ig : Bool} {sp dp : List Str}
    (hs : split_table_schema tn s ig = .ok sp)
    (hd : split_table_schema tn d ig = .ok dp) :
    compare_table_sql tn s d ig =
      .ok (diffOfDicts (partsDict sp) (ensureFkIndexes (partsDict dp))) := by
  unfold compare_table_sql
  rw [hs, hd]
  rfl

/-- C6: the foreign-key index synthesis is applied to the destination
mapping only: when every constraint key already has its plain-key entry
nothing is inserted (so the source mapping, which is never transformed,
stays as built); existing destination entries are preserved; a constraint
entry whose rewritten key is absent gets a synthesized `KEY` declaration
inserted under the rewritten key; and `compare_table_sql` applies
`ensureFkIndexes` to the destination dictionary only. -/
theorem claim_fk_synthesis_destination_only :
    (∀ d : List (Str × Str), fkIndexesPresent d = true → ensureFkIndexes d = d) ∧
    (∀ (d : List (Str × Str)) (k v : Str), (k, v) ∈ d →
      (∀ p ∈ d, startsWithL (("!!").data) p.1 = true →
        startsWithL (("!!constraint").data) p.1 = true) →
      (k, v) ∈ ensureFkIndexes d) ∧
    (∀ (d : List (Str × Str)) (k0 v0 : Str), (k0, v0) ∈ d →
      startsWithL (("!!").data) k0 = true →
      (replaceAllL (("!!constraint").data) (("key").data) k0) ∉
        odKeys (d.filter fun q => startsWithL (("key").data) q.1) →
      (∀ p ∈ d, startsWithL (("!!").data) p.1 = true →
        replaceAllL (("!!constraint").data) (("key").data) p.1 =
          replaceAllL (("!!constraint").data) (("key").data) k0 → p = (k0, v0)) →
      (replaceAllL (("!!constraint").data) (("key").data) k0, fkIndexText v0) ∈
        ensureFkIndexes d) ∧
    (∀ (tn s d : Str) (ig : Bool) (sp dp : List Str),
      split_table_schema tn s ig = .ok sp →
      split_table_schema tn d ig = .ok dp →
      compare_table_sql tn s d ig =
        .ok (diffOfDicts (partsDict sp) (ensureFkIndexes (partsDict dp)))) :=
  ⟨fun _ h => ensureFkIndexes_noop h,
   fun _ _ _ hm hcons => ensureFkIndexes_preserve hm hcons,
   fun _ _ _ hm hb hnot huniq => ensureFkIndexes_insert hm hb hnot huniq,
   fun _ _ _ _ _ _ hs hd => compare_table_sql_factors hs hd⟩

theorem claim_fk_synthesis_destination_only_witness :
    ((("key `c`").data), (("KEY `c` (`a`)").data)) ∈ ensureFkIndexes fkDemoDict := by
  have h := claim_fk_synthesis_destination_only.2.2.1 fkDemoDict
    ((("!!constraint `c`").data))
    ((("CONSTRAINT `c` FOREIGN KEY (`a`) REFERENCES `u` (`b`)").data))
    (by decide) (by decide) (by decide) (by decide)
  have he : replaceAllL (("!!constraint").data) (("key").data)
      ((("!!constraint `c`").data)) = (("key `c`").data) := by decide
  have hf : fkIndexText ((("CONSTRAINT `c` FOREIGN KEY (`a`) REFERENCES `u` (`b`)").data)) =
      (("KEY `c` (`a`)").data) := by decide
  rw [he, hf] at h
  exact h

/-! C9 lemmas -/
theorem extract_fold_last {sql : Str} {rm : Bool} :
    ∀ (ms : List (Nat × CreateMatch × Nat)) (acc : Option Str),
      (∀ m' ∈ ms, ∃ r, renderCreateMatch sql rm m' = .ok r) →
      (ms.foldlM (fun _acc m => (renderCreateMatch sql rm m).map some) acc) =
        (match ms.getLast? with
         | none => .ok acc
         | some m => (renderCreateMatch sql rm m).map some) := by
  intro ms
  induction ms with
  | nil => intro acc _; rfl
  | cons m ms ih =>
    intro acc h
    rw [List.foldlM_cons]
    obtain ⟨r, hr⟩ := h m (List.mem_cons_self m ms)
    rw [hr]
    rw [show (Except.map some (Except.ok r) : Except Str (Option Str)) =
      Except.ok (some r) from rfl]
    rw [show ∀ (g : Option Str → Except Str (Option Str)),
      ((Except.ok (some r) : Except Str (Option Str)) >>= g) = g (some r) from fun _ => rfl]
    cases ms with
    | nil =>
      rw [List.foldlM_nil]
      rw [show ((m :: []).getLast? : Option (Nat × CreateMatch × Nat)) = some m from rfl]
      dsimp only
      rw [hr]
      rfl
    | cons m2 ms2 =>
      rw [ih _ fun q hq => h q (List.mem_cons_of_mem _ hq)]
      rw [List.getLast?_cons_cons]
      cases hgl : (m2 :: ms2).getLast? with
      | none => exact absurd (List.getLast?_eq_none_iff.mp hgl) (List.cons_ne_nil _ _)
      | some mm => rfl

/-- C9: `extract_table_sql` is last-match-wins and partial: with no match
it returns nothing; otherwise, provided every matched statement renders
(its `;` terminator exists), the result is exactly the rendering — sliced
to the terminator, qualifier rewritten when configured, stripped — of the
last match of the scan. -/
theorem claim_extract_last_match :
    (∀ (name sql : Str) (rm : Bool),
       collectIdxAll (try_create_stmt name) sql = [] →
       extract_table_sql name sql rm = .ok none) ∧
    (∀ (name sql : Str) (rm : Bool) (m : Nat × CreateMatch × Nat),
       (collectIdxAll (try_create_stmt name) sql).getLast? = some m →
       (∀ m' ∈ collectIdxAll (try_create_stmt name) sql,
         ∃ r, renderCreateMatch sql rm m' = .ok r) →
       ∃ r, renderCreateMatch sql rm m = .ok r ∧
         extract_table_sql name sql rm = .ok (some r)) := by
  constructor
  · intro name sql rm h
    unfold extract_table_sql
    rw [h]
    rfl
  · intro name sql rm m hlast hall
    have hmem : m ∈ collectIdxAll (try_create_stmt name) sql :=
      List.mem_of_getLast?_eq_some hlast
    obtain ⟨r, hr⟩ := hall m hmem
    refine ⟨r, hr, ?_⟩
    unfold extract_table_sql
    rw [extract_fold_last _ _ hall, hlast]
    dsimp only
    rw [hr]
    rfl

theorem claim_extract_last_match_witness :
    ∃ r, renderCreateMatch dupTableSql true lastMatchDemo = .ok r ∧
      extract_table_sql (("t").data) dupTableSql true = .ok (some r) :=
  claim_extract_last_match.2 (("t").data) dupTableSql true lastMatchDemo
    (by decide)
    (by
      intro m' hm'
      rw [show collectIdxAll (try_create_stmt (("t").data)) dupTableSql =
        [firstMatchDemo, lastMatchDemo] from by decide] at hm'
      simp only [List.mem_cons, List.not_mem_nil, or_false] at hm'
      rcases hm' with rfl | rfl
      · exact ⟨(("CREATE TABLE t (a INT)").data), by decide⟩
      · exact ⟨(("CREATE TABLE t (b INT)").data), by decide⟩)

/-! C2 lemmas -/
theorem get_action_dir {t s : Str} {a : ActionTypes} {res : Str} {dir : Int}
    {kind : SqlKind} (h : get_action_sqlK t s a = .ok (res, dir, kind)) :
    dir = kindDir kind := by
  unfold get_action_sqlK at h
  dsimp only at h
  repeat' split at h
  all_goals first
    | exact Except.noConfusion h
    | (simp only [Except.ok.injEq, Prod.mk.injEq] at h
       obtain ⟨_, hdir, hkind⟩ := h
       rw [← hdir, ← hkind])
  all_goals rfl

theorem diffStmt_dir {table : Str} {f : DiffInfo} {res : Str} {dir : Int}
    {kind : SqlKind} (h : diffStmt table f = .ok (res, dir, kind)) :
    dir = kindDir kind := by
  unfold diffStmt at h
  exact get_action_dir h

theorem kindDir_cases (k : SqlKind) :
    kindDir k = -1 ∨ kindDir k = 0 ∨ kindDir k = 1 := by
  cases k <;> simp [kindDir]

theorem diffStep_buckets {table : Str} {acc b : Buckets} {f : DiffInfo}
    (hacc : bucketsOK acc) (h : diffStep table acc f = .ok b) : bucketsOK b := by
  unfold diffStep at h
  cases hd : diffStmt table f with
  | error e =>
    rw [hd] at h
    exact Except.noConfusion h
  | ok t =>
    obtain ⟨res, dir, kind⟩ := t
    rw [hd] at h
    have hdk := diffStmt_dir hd
    dsimp only [Bind.bind, Except.bind, pure, Except.pure] at h
    obtain ⟨h1, h2, h3⟩ := hacc
    split at h
    · rename_i hdir0
      simp only [Except.ok.injEq] at h
      subst h
      refine ⟨h1, ?_, h3⟩
      intro p hp
      rcases List.mem_append.mp hp with hp | hp
      · exact h2 p hp
      · simp only [List.mem_singleton] at hp
        subst hp
        dsimp only
        rw [← hdk]
        exact hdir0
    · split at h
      · rename_i hdirm
        simp only [Except.ok.injEq] at h
        subst h
        refine ⟨?_, h2, h3⟩
        intro p hp
        rcases List.mem_append.mp hp with hp | hp
        · exact h1 p hp
        · simp only [List.mem_singleton] at hp
          subst hp
          dsimp only
          rw [← hdk]
          exact hdirm
      · rename_i hdir0 hdirm
        simp only [Except.ok.injEq] at h
        subst h
        refine ⟨h1, h2, ?_⟩
        intro p hp
        rcases List.mem_append.mp hp with hp | hp
        · exact h3 p hp
        · simp only [List.mem_singleton] at hp
          subst hp
          dsimp only
          rw [← hdk]
          have := kindDir_cases kind
          omega

theorem diffFold_buckets {table : Str} :
    ∀ (l : List DiffInfo) (acc b : Buckets), bucketsOK acc →
      l.foldlM (diffStep table) acc = .ok b → bucketsOK b := by
  intro l
  induction l with
  | nil =>
    intro acc b hacc h
    simp only [List.foldlM_nil, pure, Except.pure, Except.ok.injEq] at h
    subst h
    exact hacc
  | cons x xs ih =>
    intro acc b hacc h
    rw [List.foldlM_cons] at h
    cases hx : diffStep table acc x with
    | error e =>
      rw [hx] at h
      exact Except.noConfusion h
    | ok a =>
      rw [hx] at h
      dsimp only [Bind.bind, Except.bind] at h
      exact ih a b (diffStep_buckets hacc hx) h

theorem tableStep_buckets {acc b : Buckets} {p : Str × TableInfo}
    (hacc : bucketsOK acc) (h : tableStep acc p = .ok b) : bucketsOK b := by
  unfold tableStep at h
  obtain ⟨h1, h2, h3⟩ := hacc
  split at h
  · dsimp only [pure, Except.pure] at h
    simp only [Except.ok.injEq] at h
    subst h
    refine ⟨h1, ?_, h3⟩
    intro q hq
    rcases List.mem_append.mp hq with hq | hq
    · exact h2 q hq
    · simp only [List.mem_singleton] at hq
      subst hq
      rfl
  · split at h
    · dsimp only [pure, Except.pure] at h
      simp only [Except.ok.injEq] at h
      subst h
      refine ⟨h1, ?_, h3⟩
      intro q hq
      rcases List.mem_append.mp hq with hq | hq
      · exact h2 q hq
      · simp only [List.mem_singleton] at hq
        subst hq
        rfl
    · exact diffFold_buckets p.2.diffs acc b ⟨h1, h2, h3⟩ h

theorem tableFold_buckets :
    ∀ (l : List (Str × TableInfo)) (acc b : Buckets), bucketsOK acc →
      l.foldlM tableStep acc = .ok b → bucketsOK b := by
  intro l
  induction l with
  | nil =>
    intro acc b hacc h
    simp only [List.foldlM_nil, pure, Except.pure, Except.ok.injEq] at h
    subst h
    exact hacc
  | cons x xs ih =>
    intro acc b hacc h
    rw [List.foldlM_cons] at h
    cases hx : tableStep acc x with
    | error e =>
      rw [hx] at h
      exact Except.noConfusion h
    | ok a =>
      rw [hx] at h
      dsimp only [Bind.bind, Except.bind] at h
      exact ih a b (tableStep_buckets hacc hx) h

theorem get_diff_sqlT_buckets {ci : List (Str × TableInfo)} {b : Buckets}
    (h : get_diff_sqlT ci = .ok b) : bucketsOK b := by
  unfold get_diff_sqlT at h
  exact tableFold_buckets ci ([], [], []) b
    ⟨fun p hp => absurd hp (List.not_mem_nil p),
     fun p hp => absurd hp (List.not_mem_nil p),
     fun p hp => absurd hp (List.not_mem_nil p)⟩ h

theorem ordP_of_dir_nonpos {a b : SqlTag × Str}
    (ha : kindDir (SqlTag.kind a.1) = -1 ∨ kindDir (SqlTag.kind a.1) = 0) :
    SqlTag.table a.1 = SqlTag.table b.1 → SqlTag.isKCDrop b.1 = true →
      SqlTag.isKCAdd a.1 = false ∧ SqlTag.isColDrop a.1 = false := by
  intro _ _
  obtain ⟨t, s⟩ := a
  obtain ⟨tab, act, k⟩ := t
  cases k <;> simp_all [kindDir, SqlTag.isKCAdd, SqlTag.isColDrop]

theorem kcDrop_false_of_dir {b : SqlTag × Str}
    (hb : kindDir (SqlTag.kind b.1) = 0 ∨ kindDir (SqlTag.kind b.1) = 1) :
    SqlTag.isKCDrop b.1 = false := by
  obtain ⟨t, s⟩ := b
  obtain ⟨tab, act, k⟩ := t
  cases k <;> simp_all [kindDir, SqlTag.isKCDrop]

theorem pairwise_of_mem_left {α : Type} {P : α → α → Prop} {l : List α}
    (h : ∀ a ∈ l, ∀ b, P a b) : l.Pairwise P := by
  induction l with
  | nil => exact List.Pairwise.nil
  | cons x xs ih =>
    exact List.Pairwise.cons (fun b _ => h x (by simp) b)
      (ih fun a ha b => h a (by simp [ha]) b)

theorem pairwise_of_mem_right {α : Type} {P : α → α → Prop} {l : List α}
    (h : ∀ b ∈ l, ∀ a, P a b) : l.Pairwise P := by
  induction l with
  | nil => exact List.Pairwise.nil
  | cons x xs ih =>
    exact List.Pairwise.cons (fun b hb => h b (by simp [hb]) x)
      (ih fun b hb a => h b (by simp [hb]) a)

/-- C2: the statements of a diff run are ordered by direction: every
`DROP INDEX` / `DROP PRIMARY KEY` / `DROP FOREIGN KEY` statement of a
table precedes every `ADD INDEX` / `ADD CONSTRAINT` statement of that
table, and no column-drop statement of a table precedes an index- or
constraint-drop statement of the same table; the output list is exactly
the concatenation of the three tagged buckets. -/
theorem claim_statement_ordering (ci : List (Str × TableInfo))
    (top mid bot : List (SqlTag × Str))
    (h : get_diff_sqlT ci = .ok (top, mid, bot)) :
    get_diff_sql ci = .ok ((top ++ mid ++ bot).map Prod.snd) ∧
    List.Pairwise
      (fun a b => SqlTag.table a.1 = SqlTag.table b.1 →
        SqlTag.isKCDrop b.1 = true →
        SqlTag.isKCAdd a.1 = false ∧ SqlTag.isColDrop a.1 = false)
      (top ++ mid ++ bot) := by
  have hb := get_diff_sqlT_buckets h
  unfold bucketsOK at hb
  dsimp only at hb
  obtain ⟨h1, h2, h3⟩ := hb
  have hmem : ∀ a ∈ top ++ mid,
      kindDir (SqlTag.kind a.1) = -1 ∨ kindDir (SqlTag.kind a.1) = 0 := by
    intro a ha
    rcases List.mem_append.mp ha with hm | hm
    · exact Or.inl (h1 a hm)
    · exact Or.inr (h2 a hm)
  constructor
  · unfold get_diff_sql
    rw [h]
    rfl
  · rw [List.pairwise_append]
    refine ⟨?_, ?_, ?_⟩
    · exact pairwise_of_mem_left fun a ha b => ordP_of_dir_nonpos (hmem a ha)
    · refine pairwise_of_mem_right fun b hbm a => ?_
      intro _ hkc
      have hf : SqlTag.isKCDrop b.1 = false :=
        kcDrop_false_of_dir (Or.inr (h3 b hbm))
      rw [hf] at hkc
      exact Bool.noConfusion hkc
    · intro a ha b hbm
      exact ordP_of_dir_nonpos (hmem a ha)

theorem claim_statement_ordering_witness :
    get_diff_sql orderDemoCI =
      .ok ((orderTop ++ orderMid ++ orderBot).map Prod.snd) ∧
    List.Pairwise
      (fun a b => SqlTag.table a.1 = SqlTag.table b.1 →
        SqlTag.isKCDrop b.1 = true →
        SqlTag.isKCAdd a.1 = false ∧ SqlTag.isColDrop a.1 = false)
      (orderTop ++ orderMid ++ orderBot) :=
  claim_statement_ordering orderDemoCI orderTop orderMid orderBot (by decide)

/-! C4 lemmas -/
theorem pyDedupGo_mem (x : Str) :
    ∀ (l seen : List Str), x ∈ pyDedupGo l seen ↔ x ∈ l ∧ x ∉ seen := by
  intro l
  induction l with
  | nil => intro seen; simp [pyDedupGo]
  | cons y ys ih =>
    intro seen
    unfold pyDedupGo
    by_cases hy : y ∈ seen
    · rw [if_pos hy, ih]
      constructor
      · rintro ⟨hx, hs⟩
        exact ⟨List.mem_cons_of_mem y hx, hs⟩
      · rintro ⟨hx, hs⟩
        rcases List.mem_cons.mp hx with rfl | hx
        · exact absurd hy hs
        · exact ⟨hx, hs⟩
    · rw [if_neg hy]
      constructor
      · intro hx
        rcases List.mem_cons.mp hx with rfl | hx
        · exact ⟨List.mem_cons_self x ys, hy⟩
        · have h2 := (ih (y :: seen)).mp hx
          exact ⟨List.mem_cons_of_mem y h2.1,
            fun hs => h2.2 (List.mem_cons_of_mem y hs)⟩
      · rintro ⟨hx, hs⟩
        rcases List.mem_cons.mp hx with rfl | hx
        · exact List.mem_cons_self x _
        · by_cases hxy : x = y
          · subst hxy
            exact List.mem_cons_self x _
          · refine List.mem_cons_of_mem y ((ih (y :: seen)).mpr ⟨hx, ?_⟩)
            intro hmem
            rcases List.mem_cons.mp hmem with h | h
            · exact hxy h
            · exact hs h

theorem pyDedup_mem (x : Str) (l : List Str) : x ∈ pyDedup l ↔ x ∈ l := by
  unfold pyDedup
  rw [pyDedupGo_mem]
  simp

theorem pyDedupGo_nodup :
    ∀ (l seen : List Str), (pyDedupGo l seen).Nodup := by
  intro l
  induction l with
  | nil => intro seen; exact List.nodup_nil
  | cons y ys ih =>
    intro seen
    unfold pyDedupGo
    by_cases hy : y ∈ seen
    · rw [if_pos hy]
      exact ih seen
    · rw [if_neg hy]
      refine List.nodup_cons.mpr ⟨?_, ih (y :: seen)⟩
      intro hmem
      exact ((pyDedupGo_mem y ys (y :: seen)).mp hmem).2 (List.mem_cons_self y seen)

theorem pyDedup_nodup (l : List Str) : (pyDedup l).Nodup :=
  pyDedupGo_nodup l []

theorem cmpFold {f : Str → Except Str (Str × TableInfo)} :
    ∀ (l : List Str) (acc ci : List (Str × TableInfo)),
      l.foldlM (fun res n => do
          let e ← f n
          pure (res ++ [e])) acc = .ok ci →
      ∃ ys, ci = acc ++ ys ∧ List.Forall₂ (fun n e => f n = .ok e) l ys := by
  intro l
  induction l with
  | nil =>
    intro acc ci h
    simp only [List.foldlM_nil, pure, Except.pure, Except.ok.injEq] at h
    exact ⟨[], by simp [h], List.Forall₂.nil⟩
  | cons n ns ih =>
    intro acc ci h
    rw [List.foldlM_cons] at h
    cases hf : f n with
    | error e =>
      rw [hf] at h
      dsimp only [Bind.bind, Except.bind] at h
      exact Except.noConfusion h
    | ok e =>
      rw [hf] at h
      dsimp only [Bind.bind, Except.bind, pure, Except.pure] at h
      obtain ⟨ys, hci, hall⟩ := ih (acc ++ [e]) ci h
      refine ⟨e :: ys, ?_, List.Forall₂.cons hf hall⟩
      rw [hci, List.append_assoc]
      rfl

theorem forall2_mem {R : Str → (Str × TableInfo) → Prop} :
    ∀ {l : List Str} {ys : List (Str × TableInfo)}, List.Forall₂ R l ys →
      ∀ e ∈ ys, ∃ n ∈ l, R n e := by
  intro l ys h
  induction h with
  | nil => intro e he; exact absurd he (List.not_mem_nil e)
  | cons hr _ ih =>
    intro e he
    rcases List.mem_cons.mp he with rfl | he
    · exact ⟨_, List.mem_cons_self _ _, hr⟩
    · obtain ⟨n, hn, hrn⟩ := ih e he
      exact ⟨n, List.mem_cons_of_mem _ hn, hrn⟩

theorem classifyTable_fst {src dst : Str} {rm ii ine fine : Bool}
    {so dso : List Str} {n : Str} {e : Str × TableInfo}
    (h : classifyTable src dst rm ii ine fine so dso n = .ok e) : e.1 = n := by
  unfold classifyTable at h
  dsimp only [Bind.bind, Except.bind, pure, Except.pure] at h
  repeat' split at h
  all_goals first
    | exact Except.noConfusion h
    | (simp only [Except.ok.injEq] at h
       rw [← h])

theorem forall2_classify_fst {src dst : Str} {rm ii ine fine : Bool}
    {so dso : List Str} :
    ∀ {l : List Str} {ys : List (Str × TableInfo)},
      List.Forall₂
        (fun n e => classifyTable src dst rm ii ine fine so dso n = .ok e)
        l ys →
      ys.map Prod.fst = l := by
  intro l ys h
  induction h with
  | nil => rfl
  | cons hr _ ih =>
    simp only [List.map_cons, ih, classifyTable_fst hr]

theorem classifyTable_src_orphan {src dst : Str} {rm ii ine fine : Bool}
    {so dso : List Str} {n : Str} (hm : n ∈ so) :
    classifyTable src dst rm ii ine fine so dso n =
      .ok (n, TableInfo.mk true [] []) := by
  unfold classifyTable
  rw [if_pos hm]
  rfl

theorem classifyTable_dst_orphan {src dst : Str} {rm ii ine fine : Bool}
    {so dso : List Str} {n : Str} {e : Str × TableInfo}
    (hns : n ∉ so) (hd : n ∈ dso)
    (h : classifyTable src dst rm ii ine fine so dso n = .ok e) :
    ∃ d sout, extract_table_sql n dst rm = .ok (some d) ∧
      sanitize_sql n (applyOrphanRewrites ii ine fine d) = .ok sout ∧
      e = (n, TableInfo.mk false sout []) := by
  unfold classifyTable at h
  rw [if_neg hns, if_pos hd] at h
  dsimp only [Bind.bind, Except.bind, pure, Except.pure] at h
  cases hx : extract_table_sql n dst rm with
  | error ex =>
    rw [hx] at h
    exact Except.noConfusion h
  | ok o =>
    rw [hx] at h
    cases o with
    | none => exact Except.noConfusion h
    | some d =>
      dsimp only at h
      cases hs : sanitize_sql n (applyOrphanRewrites ii ine fine d) with
      | error ex =>
        rw [hs] at h
        exact Except.noConfusion h
      | ok sout =>
        rw [hs] at h
        simp only [Except.ok.injEq] at h
        exact ⟨d, sout, rfl, hs, h.symm⟩

theorem sanitize_sql_ne_nil {n d sout : Str}
    (h : sanitize_sql n d = .ok sout) : sout ≠ [] := by
  unfold sanitize_sql at h
  dsimp only [Bind.bind, Except.bind, pure, Except.pure] at h
  cases hp : split_table_schema n d true with
  | error ex =>
    rw [hp] at h
    exact Except.noConfusion h
  | ok parts =>
    rw [hp] at h
    simp only [Except.ok.injEq] at h
    intro hnil
    rw [← h] at hnil
    simp [List.append_eq_nil] at hnil

theorem diffStep_tags {table : Str} {acc b : Buckets} {f : DiffInfo}
    (h : diffStep table acc f = .ok b) :
    ∃ e1 e2 e3, b.1 = acc.1 ++ e1 ∧ b.2.1 = acc.2.1 ++ e2 ∧
      b.2.2 = acc.2.2 ++ e3 ∧
      (∀ p ∈ e1, SqlTag.table p.1 = table) ∧
      (∀ p ∈ e2, SqlTag.table p.1 = table) ∧
      (∀ p ∈ e3, SqlTag.table p.1 = table) := by
  unfold diffStep at h
  cases hd : diffStmt table f with
  | error e =>
    rw [hd] at h
    exact Except.noConfusion h
  | ok t =>
    obtain ⟨res, dir, kind⟩ := t
    rw [hd] at h
    dsimp only [Bind.bind, Except.bind, pure, Except.pure] at h
    split at h
    · simp only [Except.ok.injEq] at h
      subst h
      refine ⟨[], [(⟨table, (diff_action f).2, kind⟩, res)], [], by simp, rfl,
        by simp, ?_, ?_, ?_⟩
      · intro p hp
        exact absurd hp (List.not_mem_nil p)
      · intro p hp
        simp only [List.mem_singleton] at hp
        subst hp
        rfl
      · intro p hp
        exact absurd hp (List.not_mem_nil p)
    · split at h
      · simp only [Except.ok.injEq] at h
        subst h
        refine ⟨[(⟨table, (diff_action f).2, kind⟩, res)], [], [], rfl, by simp,
          by simp, ?_, ?_, ?_⟩
        · intro p hp
          simp only [List.mem_singleton] at hp
          subst hp
          rfl
        · intro p hp
          exact absurd hp (List.not_mem_nil p)
        · intro p hp
          exact absurd hp (List.not_mem_nil p)
      · simp only [Except.ok.injEq] at h
        subst h
        refine ⟨[], [], [(⟨table, (diff_action f).2, kind⟩, res)], by simp,
          by simp, rfl, ?_, ?_, ?_⟩
        · intro p hp
          exact absurd hp (List.not_mem_nil p)
        · intro p hp
          exact absurd hp (List.not_mem_nil p)
        · intro p hp
          simp only [List.mem_singleton] at hp
          subst hp
          rfl

theorem diffFold_tags {table : Str} :
    ∀ (l : List DiffInfo) (acc b : Buckets),
      l.foldlM (diffStep table) acc = .ok b →
      ∃ e1 e2 e3, b.1 = acc.1 ++ e1 ∧ b.2.1 = acc.2.1 ++ e2 ∧
        b.2.2 = acc.2.2 ++ e3 ∧
        (∀ p ∈ e1, SqlTag.table p.1 = table) ∧
        (∀ p ∈ e2, SqlTag.table p.1 = table) ∧
        (∀ p ∈ e3, SqlTag.table p.1 = table) := by
  intro l
  induction l with
  | nil =>
    intro acc b h
    simp only [List.foldlM_nil, pure, Except.pure, Except.ok.injEq] at h
    subst h
    exact ⟨[], [], [], by simp, by simp, by simp,
      fun p hp => absurd hp (List.not_mem_nil p),
      fun p hp => absurd hp (List.not_mem_nil p),
      fun p hp => absurd hp (List.not_mem_nil p)⟩
  | cons x xs ih =>
    intro acc b h
    rw [List.foldlM_cons] at h
    cases hx : diffStep table acc x with
    | error e =>
      rw [hx] at h
      exact Except.noConfusion h
    | ok a =>
      rw [hx] at h
      dsimp only [Bind.bind, Except.bind] at h
      obtain ⟨a1, a2, a3, ha1, ha2, ha3, ta1, ta2, ta3⟩ := diffStep_tags hx
      obtain ⟨b1, b2, b3, hb1, hb2, hb3, tb1, tb2, tb3⟩ := ih a b h
      refine ⟨a1 ++ b1, a2 ++ b2, a3 ++ b3,
        by rw [hb1, ha1, List.append_assoc],
        by rw [hb2, ha2, List.append_assoc],
        by rw [hb3, ha3, List.append_assoc], ?_, ?_, ?_⟩
      · intro p hp
        rcases List.mem_append.mp hp with hp | hp
        · exact ta1 p hp
        · exact tb1 p hp
      · intro p hp
        rcases List.mem_append.mp hp with hp | hp
        · exact ta2 p hp
        · exact tb2 p hp
      · intro p hp
        rcases List.mem_append.mp hp with hp | hp
        · exact ta3 p hp
        · exact tb3 p hp

theorem tableStep_tags {acc b : Buckets} {u : Str} {info : TableInfo}
    (h : tableStep acc (u, info) = .ok b) :
    ∃ e1 e2 e3, b.1 = acc.1 ++ e1 ∧ b.2.1 = acc.2.1 ++ e2 ∧
      b.2.2 = acc.2.2 ++ e3 ∧
      (∀ p ∈ e1, SqlTag.table p.1 = u) ∧
      (∀ p ∈ e2, SqlTag.table p.1 = u) ∧
      (∀ p ∈ e3, SqlTag.table p.1 = u) ∧
      (info.src_orphan = true →
        e1 = [] ∧ e2 = [(⟨u, .drop, .tableDrop⟩, dropTableStmt u)] ∧ e3 = []) ∧
      (info.src_orphan = false → info.dst_orphan ≠ [] →
        e1 = [] ∧ e2 = [(⟨u, .create, .tableCreate⟩, info.dst_orphan)] ∧
          e3 = []) := by
  unfold tableStep at h
  dsimp only at h
  split at h
  · rename_i hso
    dsimp only [pure, Except.pure] at h
    simp only [Except.ok.injEq] at h
    subst h
    refine ⟨[], [(⟨u, .drop, .tableDrop⟩, dropTableStmt u)], [], by simp, rfl,
      by simp, fun p hp => absurd hp (List.not_mem_nil p), ?_,
      fun p hp => absurd hp (List.not_mem_nil p),
      fun _ => ⟨rfl, rfl, rfl⟩, fun hf => absurd hso (by simp [hf])⟩
    intro p hp
    simp only [List.mem_singleton] at hp
    subst hp
    rfl
  · split at h
    · rename_i hso hdo
      dsimp only [pure, Except.pure] at h
      simp only [Except.ok.injEq] at h
      subst h
      refine ⟨[], [(⟨u, .create, .tableCreate⟩, info.dst_orphan)], [], by simp,
        rfl, by simp, fun p hp => absurd hp (List.not_mem_nil p), ?_,
        fun p hp => absurd hp (List.not_mem_nil p),
        fun ht => absurd ht (by simpa using hso),
        fun _ _ => ⟨rfl, rfl, rfl⟩⟩
      intro p hp
      simp only [List.mem_singleton] at hp
      subst hp
      rfl
    · rename_i hso hdo
      obtain ⟨e1, e2, e3, h1, h2, h3, t1, t2, t3⟩ := diffFold_tags info.diffs acc b h
      exact ⟨e1, e2, e3, h1, h2, h3, t1, t2, t3,
        fun ht => absurd ht (by simpa using hso),
        fun _ hdn => absurd (by simpa using hdo) hdn⟩

theorem tableFold_tags :
    ∀ (l : List (Str × TableInfo)) (acc b : Buckets),
      l.foldlM tableStep acc = .ok b →
      ∃ e1 e2 e3, b.1 = acc.1 ++ e1 ∧ b.2.1 = acc.2.1 ++ e2 ∧
        b.2.2 = acc.2.2 ++ e3 ∧
        (∀ p ∈ e1, ∃ q ∈ l, SqlTag.table p.1 = q.1) ∧
        (∀ p ∈ e2, ∃ q ∈ l, SqlTag.table p.1 = q.1) ∧
        (∀ p ∈ e3, ∃ q ∈ l, SqlTag.table p.1 = q.1) := by
  intro l
  induction l with
  | nil =>
    intro acc b h
    simp only [List.foldlM_nil, pure, Except.pure, Except.ok.injEq] at h
    subst h
    exact ⟨[], [], [], by simp, by simp, by simp,
      fun p hp => absurd hp (List.not_mem_nil p),
      fun p hp => absurd hp (List.not_mem_nil p),
      fun p hp => absurd hp (List.not_mem_nil p)⟩
  | cons x xs ih =>
    intro acc b h
    rw [List.foldlM_cons] at h
    cases hx : tableStep acc x with
    | error e =>
      rw [hx] at h
      exact Except.noConfusion h
    | ok a =>
      rw [hx] at h
      dsimp only [Bind.bind, Except.bind] at h
      obtain ⟨u, info⟩ := x
      obtain ⟨a1, a2, a3, ha1, ha2, ha3, ta1, ta2, ta3, _, _⟩ := tableStep_tags hx
      obtain ⟨b1, b2, b3, hb1, hb2, hb3, tb1, tb2, tb3⟩ := ih a b h
      refine ⟨a1 ++ b1, a2 ++ b2, a3 ++ b3,
        by rw [hb1, ha1, List.append_assoc],
        by rw [hb2, ha2, List.append_assoc],
        by rw [hb3, ha3, List.append_assoc], ?_, ?_, ?_⟩
      · intro p hp
        rcases List.mem_append.mp hp with hp | hp
        · exact ⟨(u, info), List.mem_cons_self _ _, ta1 p hp⟩
        · obtain ⟨q, hq, hqt⟩ := tb1 p hp
          exact ⟨q, List.mem_cons_of_mem _ hq, hqt⟩
      · intro p hp
        rcases List.mem_append.mp hp with hp | hp
        · exact ⟨(u, info), List.mem_cons_self _ _, ta2 p hp⟩
        · obtain ⟨q, hq, hqt⟩ := tb2 p hp
          exact ⟨q, List.mem_cons_of_mem _ hq, hqt⟩
      · intro p hp
        rcases List.mem_append.mp hp with hp | hp
        · exact ⟨(u, info), List.mem_cons_self _ _, ta3 p hp⟩
        · obtain ⟨q, hq, hqt⟩ := tb3 p hp
          exact ⟨q, List.mem_cons_of_mem _ hq, hqt⟩

theorem stmtsFor_append (t : Str) (l1 l2 : List (SqlTag × Str)) :
    stmtsFor t (l1 ++ l2) = stmtsFor t l1 ++ stmtsFor t l2 := by
  unfold stmtsFor
  rw [List.filter_append, List.map_append]

theorem stmtsFor_nil_of_ne {t : Str} {l : List (SqlTag × Str)}
    (h : ∀ p ∈ l, SqlTag.table p.1 ≠ t) : stmtsFor t l = [] := by
  unfold stmtsFor
  have : l.filter (fun p => SqlTag.table p.1 = t) = [] := by
    rw [List.filter_eq_nil_iff]
    intro p hp
    simpa using h p hp
  rw [this]
  rfl

theorem foldlM_tableStep_append (l1 l2 : List (Str × TableInfo)) (acc : Buckets) :
    (l1 ++ l2).foldlM tableStep acc =
      l1.foldlM tableStep acc >>= fun a => l2.foldlM tableStep a := by
  induction l1 generalizing acc with
  | nil =>
    rw [List.nil_append, List.foldlM_nil]
    dsimp only [Bind.bind, Except.bind, pure, Except.pure]
  | cons x xs ih =>
    rw [List.cons_append, List.foldlM_cons, List.foldlM_cons]
    cases hx : tableStep acc x with
    | error e => dsimp only [Bind.bind, Except.bind]
    | ok a =>
      dsimp only [Bind.bind, Except.bind]
      exact ih a

theorem orphanCore {A B : List (Str × TableInfo)} {t : Str} {info : TableInfo}
    {top mid bot : List (SqlTag × Str)} {tag : SqlTag} {stmt : Str}
    (hA : ∀ p ∈ A, p.1 ≠ t) (hB : ∀ p ∈ B, p.1 ≠ t)
    (hd : get_diff_sqlT (A ++ (t, info) :: B) = .ok (top, mid, bot))
    (hstep : ∀ acc : Buckets,
      tableStep acc (t, info) = .ok (acc.1, acc.2.1 ++ [(tag, stmt)], acc.2.2))
    (htag : SqlTag.table tag = t) :
    stmtsFor t (top ++ mid ++ bot) = [stmt] := by
  unfold get_diff_sqlT at hd
  rw [foldlM_tableStep_append] at hd
  cases hAf : A.foldlM tableStep (([], [], []) : Buckets) with
  | error e =>
    rw [hAf] at hd
    exact Except.noConfusion hd
  | ok acc1 =>
    rw [hAf] at hd
    dsimp only [Bind.bind, Except.bind] at hd
    rw [List.foldlM_cons, hstep acc1] at hd
    dsimp only [Bind.bind, Except.bind] at hd
    obtain ⟨a1, a2, a3, ha1, ha2, ha3, ta1, ta2, ta3⟩ := tableFold_tags A _ _ hAf
    obtain ⟨b1, b2, b3, hb1, hb2, hb3, tb1, tb2, tb3⟩ := tableFold_tags B _ _ hd
    rw [List.nil_append] at ha1 ha2 ha3
    have hne : ∀ (e : List (SqlTag × Str)),
        (∀ p ∈ e, ∃ q ∈ A, SqlTag.table p.1 = q.1) → stmtsFor t e = [] := by
      intro e he
      refine stmtsFor_nil_of_ne ?_
      intro p hp
      obtain ⟨q, hq, hqt⟩ := he p hp
      rw [hqt]
      exact hA q hq
    have hneB : ∀ (e : List (SqlTag × Str)),
        (∀ p ∈ e, ∃ q ∈ B, SqlTag.table p.1 = q.1) → stmtsFor t e = [] := by
      intro e he
      refine stmtsFor_nil_of_ne ?_
      intro p hp
      obtain ⟨q, hq, hqt⟩ := he p hp
      rw [hqt]
      exact hB q hq
    have hsingle : stmtsFor t [(tag, stmt)] = [stmt] := by
      unfold stmtsFor
      simp [htag]
    dsimp only at hb1 hb2 hb3
    rw [hb1, hb2, hb3, ha1, ha2, ha3]
    rw [stmtsFor_append, stmtsFor_append, stmtsFor_append, stmtsFor_append,
      stmtsFor_append, stmtsFor_append,
      hne a1 ta1, hne a2 ta2, hne a3 ta3, hneB b1 tb1, hneB b2 tb2,
      hneB b3 tb3, hsingle]
    rfl

theorem forall2_map_fst {f : Str → Except Str (Str × TableInfo)}
    (hf : ∀ n e, f n = .ok e → e.1 = n) :
    ∀ {l : List Str} {ys : List (Str × TableInfo)},
      List.Forall₂ (fun n e => f n = .ok e) l ys → ys.map Prod.fst = l := by
  intro l ys h
  induction h with
  | nil => rfl
  | cons hr _ ih => simp only [List.map_cons, ih, hf _ _ hr]

theorem forall2_find_entry {f : Str → Except Str (Str × TableInfo)}
    (hf : ∀ n e, f n = .ok e → e.1 = n)
    {l : List Str} {ys : List (Str × TableInfo)}
    (hall : List.Forall₂ (fun n e => f n = .ok e) l ys)
    (hnd : l.Nodup) {t : Str} (ht : t ∈ l) :
    ∃ info A B, f t = .ok (t, info) ∧ ys = A ++ (t, info) :: B ∧
      (∀ p ∈ A, p.1 ≠ t) ∧ (∀ p ∈ B, p.1 ≠ t) := by
  have hmap := forall2_map_fst hf hall
  have hmem : t ∈ ys.map Prod.fst := by rw [hmap]; exact ht
  obtain ⟨e, he, hefst⟩ := List.mem_map.mp hmem
  obtain ⟨n, hn, hcl⟩ := forall2_mem hall e he
  have hnt : n = t := by rw [← hf n e hcl, hefst]
  subst hnt
  obtain ⟨A, B, hsplit⟩ := List.append_of_mem he
  have hnd2 : (ys.map Prod.fst).Nodup := by rw [hmap]; exact hnd
  rw [hsplit, List.map_append, List.map_cons, List.nodup_append] at hnd2
  obtain ⟨_, hndc, hdisj⟩ := hnd2
  obtain ⟨e1, e2⟩ := e
  dsimp only at hefst
  subst hefst
  refine ⟨e2, A, B, hcl, hsplit, ?_, ?_⟩
  · intro p hp heq
    have hmm : p.1 ∈ A.map Prod.fst := List.mem_map_of_mem Prod.fst hp
    rw [heq] at hmm
    exact hdisj hmm (List.mem_cons_self _ _)
  · intro p hp heq
    have hmm : p.1 ∈ B.map Prod.fst := List.mem_map_of_mem Prod.fst hp
    rw [heq] at hmm
    exact (List.nodup_cons.mp hndc).1 hmm

theorem mem_src_orphans {srcN dstN : List Str} {t : Str}
    (hs : t ∈ srcN) (hd : t ∉ dstN) :
    t ∈ srcN.filter fun v => v ∉ srcN.filter fun u => u ∈ dstN := by
  rw [List.mem_filter]
  refine ⟨hs, ?_⟩
  simp only [decide_eq_true_eq]
  intro hmem
  rw [List.mem_filter] at hmem
  exact hd (by simpa using hmem.2)

theorem not_mem_src_orphans {srcN dstN : List Str} {t : Str}
    (hs : t ∉ srcN) :
    t ∉ srcN.filter fun v => v ∉ srcN.filter fun u => u ∈ dstN :=
  fun h => hs (List.mem_filter.mp h).1

theorem mem_dst_orphans {srcN dstN : List Str} {t : Str}
    (hd : t ∈ dstN) (hs : t ∉ srcN) :
    t ∈ dstN.filter fun v => v ∉ srcN.filter fun u => u ∈ dstN := by
  rw [List.mem_filter]
  refine ⟨hd, ?_⟩
  simp only [decide_eq_true_eq]
  intro hmem
  rw [List.mem_filter] at hmem
  exact hs hmem.1

/-- C4: a table present only in the source schema contributes exactly the
statement `DROP TABLE` for it and no other statement of that table; a
table present only in the destination schema contributes exactly one
pretty-printed `CREATE TABLE` statement, obtained by extracting its
statement from the destination, applying the configured auto-increment and
IF NOT EXISTS rewrites, and re-rendering it one declaration per line. -/
theorem claim_orphan_exactness (src dst : Str) (rm ii ine fine : Bool)
    (ci : List (Str × TableInfo)) (top mid bot : List (SqlTag × Str)) (t : Str)
    (hc : compare_tables src dst rm ii ine fine = .ok ci)
    (hd : get_diff_sqlT ci = .ok (top, mid, bot)) :
    (t ∈ get_table_names src → t ∉ get_table_names dst →
      stmtsFor t (top ++ mid ++ bot) = [dropTableStmt t]) ∧
    (t ∈ get_table_names dst → t ∉ get_table_names src →
      ∃ d sout, extract_table_sql t dst rm = .ok (some d) ∧
        sanitize_sql t (applyOrphanRewrites ii ine fine d) = .ok sout ∧
        stmtsFor t (top ++ mid ++ bot) = [sout]) := by
  unfold compare_tables at hc
  dsimp only at hc
  obtain ⟨ys, hys, hall⟩ := cmpFold _ _ _ hc
  rw [List.nil_append] at hys
  subst hys
  constructor
  · intro hts htd
    have hat : t ∈ pyDedup (get_table_names src ++ get_table_names dst) := by
      rw [pyDedup_mem]
      exact List.mem_append_left _ hts
    obtain ⟨info, A, B, hcl, hsplit, hA, hB⟩ :=
      forall2_find_entry (fun n e h => classifyTable_fst h) hall
        (pyDedup_nodup _) hat
    have hinfo : Except.ok (t, info) =
        (Except.ok (t, TableInfo.mk true [] []) : Except Str (Str × TableInfo)) := by
      rw [← hcl]
      exact classifyTable_src_orphan (mem_src_orphans hts htd)
    have hi2 : info = TableInfo.mk true [] [] := by
      simpa using hinfo
    subst hi2
    rw [hsplit] at hd
    exact orphanCore hA hB hd (fun acc => rfl) rfl
  · intro htd hts
    have hat : t ∈ pyDedup (get_table_names src ++ get_table_names dst) := by
      rw [pyDedup_mem]
      exact List.mem_append_right _ htd
    obtain ⟨info, A, B, hcl, hsplit, hA, hB⟩ :=
      forall2_find_entry (fun n e h => classifyTable_fst h) hall
        (pyDedup_nodup _) hat
    obtain ⟨d, sout, hx, hs, he2⟩ :=
      classifyTable_dst_orphan (not_mem_src_orphans hts)
        (mem_dst_orphans htd hts) hcl
    have hi2 : info = TableInfo.mk false sout [] := by
      simpa using he2
    subst hi2
    have hso : sout ≠ [] := sanitize_sql_ne_nil hs
    refine ⟨d, sout, hx, hs, ?_⟩
    rw [hsplit] at hd
    have hstep : ∀ acc : Buckets,
        tableStep acc (t, TableInfo.mk false sout []) =
          .ok (acc.1, acc.2.1 ++
            [(⟨t, .create, .tableCreate⟩, sout)], acc.2.2) := by
      intro acc
      unfold tableStep
      dsimp only
      rw [if_neg (by simp), if_pos hso]
      rfl
    exact orphanCore hA hB hd hstep rfl

theorem claim_orphan_exactness_witness :
    ((("a").data : Str) ∈ get_table_names orphSrcW →
      (("a").data : Str) ∉ get_table_names orphDstW →
      stmtsFor (("a").data) (([] : List (SqlTag × Str)) ++ orphMid ++ []) =
        [dropTableStmt (("a").data)]) ∧
    ((("a").data : Str) ∈ get_table_names orphDstW →
      (("a").data : Str) ∉ get_table_names orphSrcW →
      ∃ d sout, extract_table_sql (("a").data) orphDstW false = .ok (some d) ∧
        sanitize_sql (("a").data) (applyOrphanRewrites true false false d) =
          .ok sout ∧
        stmtsFor (("a").data) (([] : List (SqlTag × Str)) ++ orphMid ++ []) =
          [sout]) :=
  claim_orphan_exactness orphSrcW orphDstW false true false false orphCI
    [] orphMid [] (("a").data) (by decide) (by decide)

/-! C7 lemmas -/
theorem bcat_nil_right (x : Buckets) : bcat x ([], [], []) = x := by
  unfold bcat
  simp

theorem bcat_assoc (x y z : Buckets) : bcat (bcat x y) z = bcat x (bcat y z) := by
  unfold bcat
  simp [List.append_assoc]

theorem foldlM_except_append {σ α : Type} (g : σ → α → Except Str σ)
    (l1 l2 : List α) (acc : σ) :
    (l1 ++ l2).foldlM g acc =
      l1.foldlM g acc >>= fun a => l2.foldlM g a := by
  induction l1 generalizing acc with
  | nil =>
    rw [List.nil_append, List.foldlM_nil]
    dsimp only [Bind.bind, Except.bind, pure, Except.pure]
  | cons x xs ih =>
    rw [List.cons_append, List.foldlM_cons, List.foldlM_cons]
    cases hx : g acc x with
    | error e => dsimp only [Bind.bind, Except.bind]
    | ok a =>
      dsimp only [Bind.bind, Except.bind]
      exact ih a

theorem bfold_shift {α : Type} {g : Buckets → α → Except Str Buckets}
    (hg : ∀ acc x, g acc x = (g ([], [], []) x).map (bcat acc)) :
    ∀ (l : List α) (acc : Buckets),
      l.foldlM g acc = (l.foldlM g ([], [], [])).map (bcat acc) := by
  intro l
  induction l with
  | nil =>
    intro acc
    rw [List.foldlM_nil, List.foldlM_nil]
    dsimp only [pure, Except.pure, Except.map]
    rw [bcat_nil_right]
  | cons x xs ih =>
    intro acc
    rw [List.foldlM_cons, List.foldlM_cons, hg acc x]
    cases hx0 : g ([], [], []) x with
    | error e => dsimp only [Except.map, Bind.bind, Except.bind]
    | ok e1 =>
      dsimp only [Except.map, Bind.bind, Except.bind]
      rw [ih (bcat acc e1), ih e1]
      cases hxs : xs.foldlM g ([], [], []) with
      | error e => dsimp only [Except.map]
      | ok e2 =>
        dsimp only [Except.map]
        rw [bcat_assoc]

theorem diffStep_shift (table : Str) (acc : Buckets) (f : DiffInfo) :
    diffStep table acc f = (diffStep table ([], [], []) f).map (bcat acc) := by
  unfold diffStep
  cases hd : diffStmt table f with
  | error e => rfl
  | ok t =>
    obtain ⟨res, dir, kind⟩ := t
    dsimp only [Bind.bind, Except.bind, pure, Except.pure]
    split
    · dsimp only [Except.map]
      unfold bcat
      simp
    · split
      · dsimp only [Except.map]
        unfold bcat
        simp
      · dsimp only [Except.map]
        unfold bcat
        simp

theorem tableStep_shift (acc : Buckets) (p : Str × TableInfo) :
    tableStep acc p = (tableStep ([], [], []) p).map (bcat acc) := by
  unfold tableStep
  split
  · dsimp only [pure, Except.pure, Except.map]
    unfold bcat
    simp
  · split
    · dsimp only [pure, Except.pure, Except.map]
      unfold bcat
      simp
    · exact bfold_shift (diffStep_shift p.1) p.2.diffs acc

theorem filterFold (aa : List ActionTypes) :
    ∀ (l : List (Str × TableInfo)) (acc : List (Str × TableInfo)),
      l.foldl
        (fun res p =>
          let (table, info) := p
          if info.src_orphan ∧ ActionTypes.drop ∈ aa then
            res ++ [(table, info)]
          else if info.dst_orphan ≠ [] ∧ ActionTypes.create ∈ aa then
            res ++ [(table, info)]
          else if info.diffs ≠ [] then
            let ds := info.diffs.filter (keepDiff aa)
            if ds ≠ [] then res ++ [(table, { diffs := ds : TableInfo })]
            else res
          else res)
        acc = acc ++ l.filterMap (entryFilter aa) := by
  intro l
  induction l with
  | nil =>
    intro acc
    simp [List.filterMap_nil]
  | cons p ps ih =>
    intro acc
    rw [List.foldl_cons, List.filterMap_cons]
    obtain ⟨table, info⟩ := p
    have hef : entryFilter aa (table, info) =
        if info.src_orphan ∧ ActionTypes.drop ∈ aa then some (table, info)
        else if info.dst_orphan ≠ [] ∧ ActionTypes.create ∈ aa then
          some (table, info)
        else if info.diffs ≠ [] then
          (if info.diffs.filter (keepDiff aa) ≠ [] then
            some (table,
              { diffs := info.diffs.filter (keepDiff aa) : TableInfo })
          else none)
        else none := rfl
    rw [hef]
    dsimp only
    split_ifs with h1 h2 h3 h4
    · rw [ih]
      simp [List.append_assoc]
    · rw [ih]
      simp [List.append_assoc]
    · rw [ih]
      simp [List.append_assoc]
    · rw [ih]
    · rw [ih]

theorem filter_diffs_filterMap (ci : List (Str × TableInfo))
    (aa : List ActionTypes) :
    filter_diffs ci aa = ci.filterMap (entryFilter aa) := by
  unfold filter_diffs
  rw [filterFold]
  rfl

theorem keepDiff_removal (aa : List ActionTypes) (f : DiffInfo)
    (hs : f.src ≠ []) (hd : f.dst = []) :
    keepDiff aa f = decide (ActionTypes.remove ∈ aa) := by
  unfold keepDiff
  rw [if_pos ⟨hs, hd⟩]

theorem keepDiff_addition (aa : List ActionTypes) (f : DiffInfo)
    (hd : f.dst ≠ []) (hs : f.src = []) :
    keepDiff aa f = decide (ActionTypes.add ∈ aa) := by
  unfold keepDiff
  rw [if_neg (fun h => h.1 hs), if_pos ⟨hd, hs⟩]

theorem keepDiff_modification (aa : List ActionTypes) (f : DiffInfo)
    (hs : f.src ≠ []) (hd : f.dst ≠ []) :
    keepDiff aa f = decide (ActionTypes.modify ∈ aa) := by
  unfold keepDiff
  rw [if_neg (fun h => hd h.2), if_neg (fun h => hs h.2)]

theorem keepDiff_am (f : DiffInfo) (h : removalDiff f = false) :
    keepDiff [ActionTypes.add, ActionTypes.modify] f = true := by
  unfold removalDiff at h
  unfold keepDiff
  rw [if_neg (of_decide_eq_false h)]
  split
  · decide
  · decide

theorem keepDiff_am_removal (f : DiffInfo) (h : removalDiff f = true) :
    keepDiff [ActionTypes.add, ActionTypes.modify] f = false := by
  unfold removalDiff at h
  unfold keepDiff
  rw [if_pos (of_decide_eq_true h)]
  decide

theorem diff_action_removal (f : DiffInfo) (h : removalDiff f = true) :
    diff_action f = (f.src, ActionTypes.drop) := by
  unfold removalDiff at h
  unfold diff_action
  rw [if_pos (of_decide_eq_true h)]

theorem entryFilter_src_orphan (t : Str) (aa : List ActionTypes) :
    entryFilter aa (t, TableInfo.mk true [] []) =
      if ActionTypes.drop ∈ aa then some (t, TableInfo.mk true [] [])
      else none := by
  unfold entryFilter
  dsimp only
  by_cases h : ActionTypes.drop ∈ aa
  · rw [if_pos ⟨rfl, h⟩, if_pos h]
  · rw [if_neg (fun hh => h hh.2), if_neg (by simp), if_neg (by simp),
      if_neg h]

theorem entryFilter_dst_orphan (t : Str) (s : Str) (aa : List ActionTypes)
    (hs : s ≠ []) :
    entryFilter aa (t, TableInfo.mk false s []) =
      if ActionTypes.create ∈ aa then some (t, TableInfo.mk false s [])
      else none := by
  unfold entryFilter
  dsimp only
  rw [if_neg (by simp)]
  by_cases h : ActionTypes.create ∈ aa
  · rw [if_pos ⟨hs, h⟩, if_pos h]
  · rw [if_neg (fun hh => h hh.2), if_neg (by simp), if_neg h]

theorem entryFilter_diffs (t : Str) (ds : List DiffInfo)
    (aa : List ActionTypes) :
    entryFilter aa (t, TableInfo.mk false [] ds) =
      if ds.filter (keepDiff aa) ≠ [] then
        some (t, TableInfo.mk false [] (ds.filter (keepDiff aa)))
      else none := by
  unfold entryFilter
  dsimp only
  rw [if_neg (by simp), if_neg (by simp)]
  by_cases hds : ds = []
  · subst hds
    simp
  · rw [if_pos hds]

theorem entryFilter_keep (p : Str × TableInfo)
    (h1 : p.2.src_orphan = false) (h2 : p.2.dst_orphan = [])
    (h3 : p.2.diffs ≠ [])
    (h4 : ∀ f ∈ p.2.diffs, keepDiff [ActionTypes.add, ActionTypes.modify] f = true) :
    entryFilter [ActionTypes.add, ActionTypes.modify] p = some p := by
  obtain ⟨t0, info0⟩ := p
  obtain ⟨sa, sb, sc⟩ := info0
  dsimp only at h1 h2 h3 h4
  subst h1
  subst h2
  unfold entryFilter
  dsimp only
  rw [if_neg (by simp), if_neg (by simp), if_pos h3,
    List.filter_eq_self.mpr h4, if_pos h3]

theorem filterMap_id_on {α : Type} (f : α → Option α) :
    ∀ (l : List α), (∀ p ∈ l, f p = some p) → l.filterMap f = l := by
  intro l
  induction l with
  | nil => intro _; rfl
  | cons x xs ih =>
    intro h
    rw [List.filterMap_cons, h x (List.mem_cons_self x xs),
      ih fun p hp => h p (List.mem_cons_of_mem x hp)]

theorem scenario_filter {A B : List (Str × TableInfo)} {t : Str}
    {D1 D2 : List DiffInfo} {d : DiffInfo}
    (hAB : ∀ p ∈ A ++ B, p.2.src_orphan = false ∧ p.2.dst_orphan = [] ∧
      p.2.diffs ≠ [] ∧ ∀ f ∈ p.2.diffs, removalDiff f = false)
    (hD : ∀ f ∈ D1 ++ D2, removalDiff f = false)
    (hrd : removalDiff d = true)
    (hD12 : D1 ++ D2 ≠ []) :
    filter_diffs (A ++ (t, TableInfo.mk false [] (D1 ++ d :: D2)) :: B)
        [ActionTypes.add, ActionTypes.modify] =
      A ++ (t, TableInfo.mk false [] (D1 ++ D2)) :: B := by
  rw [filter_diffs_filterMap, List.filterMap_append, List.filterMap_cons]
  have hkeepA : A.filterMap (entryFilter [ActionTypes.add, ActionTypes.modify]) = A := by
    refine filterMap_id_on _ A fun p hp => ?_
    obtain ⟨h1, h2, h3, h4⟩ := hAB p (List.mem_append_left B hp)
    exact entryFilter_keep p h1 h2 h3
      fun f hf => keepDiff_am f (h4 f hf)
  have hkeepB : B.filterMap (entryFilter [ActionTypes.add, ActionTypes.modify]) = B := by
    refine filterMap_id_on _ B fun p hp => ?_
    obtain ⟨h1, h2, h3, h4⟩ := hAB p (List.mem_append_right A hp)
    exact entryFilter_keep p h1 h2 h3
      fun f hf => keepDiff_am f (h4 f hf)
  have hflt : (D1 ++ d :: D2).filter
      (keepDiff [ActionTypes.add, ActionTypes.modify]) = D1 ++ D2 := by
    rw [List.filter_append, List.filter_cons]
    have hd0 : keepDiff [ActionTypes.add, ActionTypes.modify] d = false :=
      keepDiff_am_removal d hrd
    rw [hd0, if_neg Bool.false_ne_true]
    rw [List.filter_eq_self.mpr fun f hf =>
        keepDiff_am f (hD f (List.mem_append_left D2 hf)),
      List.filter_eq_self.mpr fun f hf =>
        keepDiff_am f (hD f (List.mem_append_right D1 hf))]
  have hent : entryFilter [ActionTypes.add, ActionTypes.modify]
      (t, TableInfo.mk false [] (D1 ++ d :: D2)) =
        some (t, TableInfo.mk false [] (D1 ++ D2)) := by
    rw [entryFilter_diffs, hflt, if_pos hD12]
  rw [hent, hkeepA, hkeepB]

theorem tableStep_diffs (acc : Buckets) (t : Str) (ds : List DiffInfo) :
    tableStep acc (t, TableInfo.mk false [] ds) =
      ds.foldlM (diffStep t) acc := by
  unfold tableStep
  dsimp only
  rw [if_neg (by simp), if_neg (by simp)]

/-- C7: `filter_diffs` is the per-entry partial map `entryFilter`, which
keeps a source-orphan table iff `drop` is allowed, keeps a destination
orphan iff `create` is allowed, keeps removal diffs iff `remove` is
allowed, addition diffs iff `add` is allowed, modification diffs iff
`modify` is allowed, and drops a diff table entirely when no diff
survives; restricting the allowed actions to add and modify on a run
whose diff includes exactly one column removal yields the unfiltered
output minus that column's `DROP` statement. -/
theorem claim_action_filtering
    (A B : List (Str × TableInfo)) (t : Str) (D1 D2 : List DiffInfo)
    (d : DiffInfo) (stmt : Str) (top mid bot : List (SqlTag × Str))
    (hAB : ∀ p ∈ A ++ B, p.2.src_orphan = false ∧ p.2.dst_orphan = [] ∧
      p.2.diffs ≠ [] ∧ ∀ f ∈ p.2.diffs, removalDiff f = false)
    (hD : ∀ f ∈ D1 ++ D2, removalDiff f = false)
    (hrd : removalDiff d = true)
    (hD12 : D1 ++ D2 ≠ [])
    (hstmt : diffStmt t d = .ok (stmt, 1, SqlKind.fallDrop))
    (hrun : get_diff_sqlT (A ++ (t, TableInfo.mk false [] (D1 ++ d :: D2)) :: B)
      = .ok (top, mid, bot)) :
    (∀ ci aa, filter_diffs ci aa = ci.filterMap (entryFilter aa)) ∧
    (∀ u aa, entryFilter aa (u, TableInfo.mk true [] []) =
      if ActionTypes.drop ∈ aa then some (u, TableInfo.mk true [] [])
      else none) ∧
    (∀ u s aa, s ≠ [] → entryFilter aa (u, TableInfo.mk false s []) =
      if ActionTypes.create ∈ aa then some (u, TableInfo.mk false s [])
      else none) ∧
    (∀ aa f, DiffInfo.src f ≠ [] → DiffInfo.dst f = [] →
      keepDiff aa f = decide (ActionTypes.remove ∈ aa)) ∧
    (∀ aa f, DiffInfo.dst f ≠ [] → DiffInfo.src f = [] →
      keepDiff aa f = decide (ActionTypes.add ∈ aa)) ∧
    (∀ aa f, DiffInfo.src f ≠ [] → DiffInfo.dst f ≠ [] →
      keepDiff aa f = decide (ActionTypes.modify ∈ aa)) ∧
    (∀ u ds aa, entryFilter aa (u, TableInfo.mk false [] ds) =
      if ds.filter (keepDiff aa) ≠ [] then
        some (u, TableInfo.mk false [] (ds.filter (keepDiff aa)))
      else none) ∧
    filter_diffs (A ++ (t, TableInfo.mk false [] (D1 ++ d :: D2)) :: B)
        [ActionTypes.add, ActionTypes.modify] =
      A ++ (t, TableInfo.mk false [] (D1 ++ D2)) :: B ∧
    ∃ U V W X,
      get_diff_sql (A ++ (t, TableInfo.mk false [] (D1 ++ d :: D2)) :: B) =
        .ok (U ++ V ++ (W ++ stmt :: X)) ∧
      get_diff_sql (A ++ (t, TableInfo.mk false [] (D1 ++ D2)) :: B) =
        .ok (U ++ V ++ (W ++ X)) := by
  have hrun0 := hrun
  unfold get_diff_sqlT at hrun
  rw [foldlM_tableStep_append] at hrun
  cases hAf : A.foldlM tableStep (([], [], []) : Buckets) with
  | error e =>
    rw [hAf] at hrun
    dsimp only [Bind.bind, Except.bind] at hrun
    exact Except.noConfusion hrun
  | ok accA =>
  rw [hAf] at hrun
  dsimp only [Bind.bind, Except.bind] at hrun
  rw [List.foldlM_cons, tableStep_diffs,
    foldlM_except_append (diffStep t) D1 (d :: D2)] at hrun
  cases hD1f : D1.foldlM (diffStep t) accA with
  | error e =>
    rw [hD1f] at hrun
    dsimp only [Bind.bind, Except.bind] at hrun
    exact Except.noConfusion hrun
  | ok acc1 =>
  rw [hD1f] at hrun
  dsimp only [Bind.bind, Except.bind] at hrun
  rw [List.foldlM_cons] at hrun
  have hdstep : diffStep t acc1 d = .ok (acc1.1, acc1.2.1, acc1.2.2 ++
      [((⟨t, ActionTypes.drop, SqlKind.fallDrop⟩ : SqlTag), stmt)]) := by
    unfold diffStep
    rw [hstmt]
    dsimp only [Bind.bind, Except.bind]
    rw [if_neg (by decide), if_neg (by decide), diff_action_removal d hrd]
    rfl
  rw [hdstep] at hrun
  dsimp only [Bind.bind, Except.bind] at hrun
  cases hD2f : D2.foldlM (diffStep t)
      (acc1.1, acc1.2.1, acc1.2.2 ++
        [((⟨t, ActionTypes.drop, SqlKind.fallDrop⟩ : SqlTag), stmt)]) with
  | error e =>
    rw [hD2f] at hrun
    dsimp only [Bind.bind, Except.bind] at hrun
    exact Except.noConfusion hrun
  | ok acc3 =>
  rw [hD2f] at hrun
  dsimp only [Bind.bind, Except.bind] at hrun
  have hD2shift := bfold_shift (diffStep_shift t) D2
  rw [hD2shift] at hD2f
  cases hD2e : D2.foldlM (diffStep t) (([], [], []) : Buckets) with
  | error e =>
    rw [hD2e] at hD2f
    exact Except.noConfusion hD2f
  | ok e2 =>
  rw [hD2e] at hD2f
  dsimp only [Except.map] at hD2f
  simp only [Except.ok.injEq] at hD2f
  have hBshift := bfold_shift tableStep_shift B
  rw [hBshift] at hrun
  cases hBe : B.foldlM tableStep (([], [], []) : Buckets) with
  | error e =>
    rw [hBe] at hrun
    exact Except.noConfusion hrun
  | ok eB =>
  rw [hBe] at hrun
  dsimp only [Except.map] at hrun
  simp only [Except.ok.injEq] at hrun
  subst hD2f
  unfold bcat at hrun
  dsimp only at hrun
  simp only [Prod.mk.injEq] at hrun
  obtain ⟨htop, hmid, hbot⟩ := hrun
  subst htop
  subst hmid
  subst hbot
  have hfiltrun : get_diff_sqlT
      (A ++ (t, TableInfo.mk false [] (D1 ++ D2)) :: B) =
        .ok (bcat (bcat acc1 e2) eB) := by
    unfold get_diff_sqlT
    rw [foldlM_tableStep_append, hAf]
    dsimp only [Bind.bind, Except.bind]
    rw [List.foldlM_cons, tableStep_diffs,
      foldlM_except_append (diffStep t) D1 D2, hD1f]
    dsimp only [Bind.bind, Except.bind]
    rw [hD2shift, hD2e]
    dsimp only [Except.map]
    rw [hBshift, hBe]
    dsimp only [Except.map]
  refine ⟨filter_diffs_filterMap, entryFilter_src_orphan,
    entryFilter_dst_orphan, keepDiff_removal, keepDiff_addition,
    keepDiff_modification, entryFilter_diffs,
    scenario_filter hAB hD hrd hD12,
    (acc1.1 ++ (e2.1 ++ eB.1)).map Prod.snd,
    (acc1.2.1 ++ (e2.2.1 ++ eB.2.1)).map Prod.snd,
    (acc1.2.2).map Prod.snd,
    (e2.2.2 ++ eB.2.2).map Prod.snd, ?_, ?_⟩
  · unfold get_diff_sql
    rw [hrun0]
    dsimp only [Except.map]
    simp [List.map_append, List.append_assoc]
  · unfold get_diff_sql
    rw [hfiltrun]
    dsimp only [Except.map]
    simp [bcat, List.map_append, List.append_assoc]

theorem claim_action_filtering_witness :
    (∀ ci aa, filter_diffs ci aa = ci.filterMap (entryFilter aa)) ∧
    (∀ u aa, entryFilter aa (u, TableInfo.mk true [] []) =
      if ActionTypes.drop ∈ aa then some (u, TableInfo.mk true [] [])
      else none) ∧
    (∀ u s aa, s ≠ [] → entryFilter aa (u, TableInfo.mk false s []) =
      if ActionTypes.create ∈ aa then some (u, TableInfo.mk false s [])
      else none) ∧
    (∀ aa f, DiffInfo.src f ≠ [] → DiffInfo.dst f = [] →
      keepDiff aa f = decide (ActionTypes.remove ∈ aa)) ∧
    (∀ aa f, DiffInfo.dst f ≠ [] → DiffInfo.src f = [] →
      keepDiff aa f = decide (ActionTypes.add ∈ aa)) ∧
    (∀ aa f, DiffInfo.src f ≠ [] → DiffInfo.dst f ≠ [] →
      keepDiff aa f = decide (ActionTypes.modify ∈ aa)) ∧
    (∀ u ds aa, entryFilter aa (u, TableInfo.mk false [] ds) =
      if ds.filter (keepDiff aa) ≠ [] then
        some (u, TableInfo.mk false [] (ds.filter (keepDiff aa)))
      else none) ∧
    filter_diffs
        ([] ++ ((("t").data : Str),
          TableInfo.mk false [] ([addDemoDiff] ++ remDemoDiff :: [])) :: [])
        [ActionTypes.add, ActionTypes.modify] =
      [] ++ ((("t").data : Str),
        TableInfo.mk false [] ([addDemoDiff] ++ [])) :: [] ∧
    ∃ U V W X,
      get_diff_sql
          ([] ++ ((("t").data : Str),
            TableInfo.mk false [] ([addDemoDiff] ++ remDemoDiff :: [])) :: []) =
        .ok (U ++ V ++ (W ++ afDropStmt :: X)) ∧
      get_diff_sql
          ([] ++ ((("t").data : Str),
            TableInfo.mk false [] ([addDemoDiff] ++ [])) :: []) =
        .ok (U ++ V ++ (W ++ X)) :=
  claim_action_filtering [] [] (("t").data) [addDemoDiff] [] remDemoDiff
    afDropStmt [] afMid afBot
    (by intro p hp; exact absurd hp (List.not_mem_nil p))
    (by
      intro f hf
      simp only [List.append_nil, List.mem_singleton] at hf
      subst hf
      decide)
    (by decide) (by decide) (by decide) (by decide)

/-! C1 lemmas -/
theorem except_bind_ok {E A B : Type} (a : A) (f : A → Except E B) :
    (Except.ok a >>= f : Except E B) = f a := rfl

theorem except_bind_pure {E A B : Type} (a : A) (f : A → Except E B) :
    ((pure a : Except E A) >>= f : Except E B) = f a := rfl

theorem diffOfDicts_self (d : List (Str × Str)) : diffOfDicts d d = [] := by
  unfold diffOfDicts
  dsimp only
  rw [List.filterMap_eq_nil_iff]
  intro key hk
  rw [if_neg (fun h => h.2 h.1), if_neg (fun h => h.2 h.1),
    if_neg (fun h => h.2.2 rfl)]

theorem compare_self {t s : Str} {ii : Bool} {parts : List Str}
    (hsp : split_table_schema t s ii = .ok parts)
    (hfk : fkIndexesPresent (partsDict parts) = true) :
    compare_table_sql t s s ii = .ok [] := by
  unfold compare_table_sql
  dsimp only [Bind.bind, Except.bind, pure, Except.pure]
  rw [hsp]
  dsimp only
  rw [ensureFkIndexes_noop hfk, diffOfDicts_self]

theorem classifyTable_common {src dst : Str} {rm ii ine fine : Bool}
    {so dso : List Str} {n : Str}
    (h1 : n ∉ so) (h2 : n ∉ dso) {s1 s2 : Str} {ds : List DiffInfo}
    (hex1 : extract_table_sql n src rm = .ok (some s1))
    (hex2 : extract_table_sql n dst rm = .ok (some s2))
    (hcmp : compare_table_sql n s1 s2 ii = .ok ds) :
    classifyTable src dst rm ii ine fine so dso n =
      .ok (n, TableInfo.mk false [] ds) := by
  unfold classifyTable
  rw [if_neg h1, if_neg h2]
  dsimp only [Bind.bind, Except.bind, pure, Except.pure]
  rw [hex1, hex2]
  dsimp only
  rw [hcmp]

theorem cmpFoldMap {f : Str → Except Str (Str × TableInfo)}
    {g : Str → Str × TableInfo} :
    ∀ (l : List Str), (∀ n ∈ l, f n = .ok (g n)) →
      ∀ (acc : List (Str × TableInfo)),
        l.foldlM (fun res n => do
            let e ← f n
            pure (res ++ [e])) acc = .ok (acc ++ l.map g) := by
  intro l
  induction l with
  | nil =>
    intro _ acc
    rw [List.foldlM_nil, List.map_nil, List.append_nil]
    rfl
  | cons x xs ih =>
    intro h acc
    rw [List.foldlM_cons, h x (List.mem_cons_self x xs), except_bind_ok,
      except_bind_pure,
      ih (fun n hn => h n (List.mem_cons_of_mem x hn)) (acc ++ [g x])]
    simp [List.append_assoc]

theorem src_orphans_self (N : List Str) :
    N.filter (fun v => v ∉ N.filter fun u => u ∈ N) = [] := by
  rw [List.filter_eq_nil_iff]
  intro v hv
  simp [List.mem_filter, hv]

theorem entryFilter_empty (u : Str) (aa : List ActionTypes) :
    entryFilter aa (u, TableInfo.mk false [] []) = none := by
  rw [entryFilter_diffs]
  simp

theorem filterMap_nil_on {α β : Type} (f : α → Option β) :
    ∀ (l : List α), (∀ p ∈ l, f p = none) → l.filterMap f = [] := by
  intro l
  induction l with
  | nil => intro _; rfl
  | cons x xs ih =>
    intro h
    rw [List.filterMap_cons, h x (List.mem_cons_self x xs),
      ih fun p hp => h p (List.mem_cons_of_mem x hp)]

/-- C1 is refuted as stated: comparing the schema `fkDemoSchema` with
itself emits an `ADD INDEX` statement (the destination-only foreign-key
index synthesis fires), so `sync(S, S)` is not always empty. -/
theorem claim_idempotence_cex :
    sync fkDemoSchema fkDemoSchema false true false false ALL_ACTIONS =
      .ok [("ALTER TABLE `t` ADD INDEX `c` (`a`)").data] ∧
    sync_str fkDemoSchema fkDemoSchema false true false false ALL_ACTIONS =
      .ok (("ALTER TABLE `t` ADD INDEX `c` (`a`);").data) := by
  have h : sync fkDemoSchema fkDemoSchema false true false false ALL_ACTIONS =
      .ok [("ALTER TABLE `t` ADD INDEX `c` (`a`)").data] := by decide
  refine ⟨h, ?_⟩
  unfold sync_str
  rw [h]
  decide

/-- C1 (amended): comparing a schema with itself emits no statements for
every configuration, provided every table's statement extracts and splits
successfully and every foreign-key constraint entry already has its
supporting plain-key entry (so the destination-only index synthesis
inserts nothing): `sync(S, S)` is the empty list, and the joined-string
variant the empty string. -/
theorem claim_idempotence_amended (S : Str) (rm ii ine fine : Bool)
    (aa : List ActionTypes)
    (h : ∀ n ∈ get_table_names (filter_comments S),
      ∃ sn parts, extract_table_sql n (filter_comments S) rm = .ok (some sn) ∧
        split_table_schema n sn ii = .ok parts ∧
        fkIndexesPresent (partsDict parts) = true) :
    sync S S rm ii ine fine aa = .ok [] ∧
    sync_str S S rm ii ine fine aa = .ok [] := by
  have hso := src_orphans_self (get_table_names (filter_comments S))
  have hcomp : compare_tables (filter_comments S) (filter_comments S)
      rm ii ine fine =
        .ok ((pyDedup (get_table_names (filter_comments S) ++
          get_table_names (filter_comments S))).map
            fun n => (n, TableInfo.mk false [] [])) := by
    unfold compare_tables
    dsimp only
    rw [cmpFoldMap _ ?_ []]
    · rw [List.nil_append]
    · intro n hn
      have hnn : n ∈ get_table_names (filter_comments S) := by
        rw [pyDedup_mem] at hn
        exact (List.mem_append.mp hn).elim id id
      obtain ⟨sn, parts, hex, hsp, hfk⟩ := h n hnn
      exact classifyTable_common (by rw [hso]; exact List.not_mem_nil n)
        (by rw [hso]; exact List.not_mem_nil n) hex hex
        (compare_self hsp hfk)
  have hfm : ∀ L : List Str,
      (L.map fun n => ((n, TableInfo.mk false [] []) : Str × TableInfo)).filterMap
        (entryFilter aa) = [] := by
    intro L
    refine filterMap_nil_on _ _ fun p hp => ?_
    obtain ⟨n, _, hpn⟩ := List.mem_map.mp hp
    rw [← hpn]
    exact entryFilter_empty n aa
  have hsync : sync S S rm ii ine fine aa = .ok [] := by
    unfold sync
    dsimp only [Bind.bind, Except.bind]
    rw [hcomp]
    dsimp only
    by_cases hL : (pyDedup (get_table_names (filter_comments S) ++
        get_table_names (filter_comments S))).map
          (fun n => ((n, TableInfo.mk false [] []) : Str × TableInfo)) = []
    · rw [hL]
      rfl
    · rw [if_pos hL, filter_diffs_filterMap, hfm]
      rfl
  refine ⟨hsync, ?_⟩
  unfold sync_str
  rw [hsync]
  rfl

theorem claim_idempotence_amended_witness :
    sync plainDemoSchema plainDemoSchema false true false false ALL_ACTIONS =
      .ok [] ∧
    sync_str plainDemoSchema plainDemoSchema false true false false
      ALL_ACTIONS = .ok [] :=
  claim_idempotence_amended plainDemoSchema false true false false ALL_ACTIONS
    (by
      intro n hn
      rw [show get_table_names (filter_comments plainDemoSchema) =
        [(("t").data : Str)] from by decide] at hn
      simp only [List.mem_singleton] at hn
      subst hn
      exact ⟨("CREATE TABLE `t` (`a` INT(11) NOT NULL)").data,
        [("CREATE TABLE `t` (").data, ("`a` INT(11) NOT NULL").data,
          (")").data],
        by decide, by decide, by decide⟩)

/-! C5 lemmas -/
theorem wchar_ne {c d : Char} (hc : isWordChar c = true)
    (hd : isWordChar d = false) : c ≠ d := by
  intro h
  rw [h, hd] at hc
  exact Bool.noConfusion hc

theorem ws_not_wchar {c : Char} (h : isPyWs c = true) :
    isWordChar c = false := by
  simp only [isPyWs, Bool.or_eq_true, decide_eq_true_eq] at h
  rcases h with ((((rfl | rfl) | rfl) | rfl) | rfl) | rfl <;> decide

theorem wchar_not_ws {c : Char} (h : isWordChar c = true) :
    isPyWs c = false := by
  cases hw : isPyWs c with
  | false => rfl
  | true =>
    rw [ws_not_wchar hw] at h
    exact Bool.noConfusion h

theorem takeWhile_append_all {p : Char → Bool} :
    ∀ {xs : Str}, (∀ c ∈ xs, p c = true) →
      ∀ (t : Str), (xs ++ t).takeWhile p = xs ++ t.takeWhile p := by
  intro xs
  induction xs with
  | nil => intro _ t; rfl
  | cons x xs ih =>
    intro h t
    rw [List.cons_append, List.takeWhile_cons,
      if_pos (h x (List.mem_cons_self x xs)), List.cons_append,
      ih (fun c hc => h c (List.mem_cons_of_mem x hc)) t]

theorem dropWhile_append_all {p : Char → Bool} :
    ∀ {xs : Str}, (∀ c ∈ xs, p c = true) →
      ∀ (t : Str), (xs ++ t).dropWhile p = t.dropWhile p := by
  intro xs
  induction xs with
  | nil => intro _ t; rfl
  | cons x xs ih =>
    intro h t
    rw [List.cons_append, List.dropWhile_cons,
      if_pos (h x (List.mem_cons_self x xs)),
      ih (fun c hc => h c (List.mem_cons_of_mem x hc)) t]

theorem dropWhile_append_cons {p : Char → Bool} :
    ∀ {u : Str} {c : Char} {r : Str}, u.dropWhile p = c :: r →
      ∀ (v : Str), (u ++ v).dropWhile p = c :: r ++ v := by
  intro u
  induction u with
  | nil => intro c r h v; exact absurd h (by simp)
  | cons x u ih =>
    intro c r h v
    rw [List.dropWhile_cons] at h
    rw [List.cons_append, List.dropWhile_cons]
    split at h
    · rename_i hx
      rw [if_pos hx]
      exact ih h v
    · rename_i hx
      rw [if_neg hx]
      simp only [List.cons.injEq] at h
      obtain ⟨rfl, h2⟩ := h
      rw [h2]
      rfl

theorem split_commas_go_step (c : Char) (rest : Str) (d : Int) (acc : Str)
    (h1 : ¬(c = ',' ∧ d = 0)) (h2 : ¬(c = quotC ∨ c = aposC))
    (h3 : ¬(c = '(')) (h4 : ¬(c = ')')) :
    split_commas_go (c :: rest) none d acc =
      split_commas_go rest none d (c :: acc) := by
  have e : split_commas_go (c :: rest) none d acc =
      if c = ',' ∧ d = 0 then
        ((split_commas_go rest none 0 []).1.cons acc.reverse,
          (split_commas_go rest none 0 []).2)
      else if c = quotC ∨ c = aposC then
        split_commas_go rest (some c) d (c :: acc)
      else if c = '(' then split_commas_go rest none (d + 1) (c :: acc)
      else if c = ')' then split_commas_go rest none (d - 1) (c :: acc)
      else split_commas_go rest none d (c :: acc) := rfl
  rw [e, if_neg h1, if_neg h2, if_neg h3, if_neg h4]

theorem split_commas_go_wordrun :
    ∀ {xs : Str}, (∀ c ∈ xs, isWordChar c = true) →
      ∀ (t : Str) (acc : Str),
        split_commas_go (xs ++ t) none 0 acc =
          split_commas_go t none 0 (xs.reverse ++ acc) := by
  intro xs
  induction xs with
  | nil => intro _ t acc; rfl
  | cons x xs ih =>
    intro h t acc
    have hx := h x (List.mem_cons_self x xs)
    rw [List.cons_append,
      split_commas_go_step x (xs ++ t) 0 acc
        (fun hc => wchar_ne hx (by decide) hc.1)
        (by
          rintro (hc | hc)
          · exact wchar_ne hx (by decide) hc
          · exact wchar_ne hx (by decide) hc)
        (wchar_ne hx (by decide)) (wchar_ne hx (by decide)),
      ih (fun c hc => h c (List.mem_cons_of_mem x hc)) t (x :: acc)]
    simp [List.append_assoc]

theorem accAdjust_comp (acc : Str) (c : Char) (p : List Str × Str) :
    accAdjust acc (accAdjust [c] p) = accAdjust (c :: acc) p := by
  obtain ⟨segs, rem⟩ := p
  cases segs with
  | nil => simp [accAdjust]
  | cons s ss => simp [accAdjust]

theorem split_commas_go_acc :
    ∀ (bt : Str) (q : Option Char) (d : Int) (acc : Str),
      split_commas_go bt q d acc =
        accAdjust acc (split_commas_go bt q d []) := by
  intro bt
  induction bt with
  | nil =>
    intro q d acc
    cases q with
    | none =>
      unfold split_commas_go
      simp [accAdjust]
    | some c =>
      unfold split_commas_go
      simp [accAdjust]
  | cons c bt ih =>
    intro q d acc
    have step : ∀ (q2 : Option Char) (d2 : Int),
        split_commas_go bt q2 d2 (c :: acc) =
          accAdjust acc (split_commas_go bt q2 d2 [c]) := by
      intro q2 d2
      rw [ih q2 d2 (c :: acc), ih q2 d2 [c], accAdjust_comp]
    cases q with
    | some qc =>
      unfold split_commas_go
      split
      · exact step none d
      · exact step (some qc) d
    | none =>
      unfold split_commas_go
      by_cases h1 : c = ',' ∧ d = 0
      · rw [if_pos h1, if_pos h1]
        cases hgo : split_commas_go bt none 0 [] with
        | mk segs0 rem0 =>
        simp [accAdjust]
      · rw [if_neg h1, if_neg h1]
        by_cases h2 : c = quotC ∨ c = aposC
        · rw [if_pos h2, if_pos h2]
          exact step (some c) d
        · rw [if_neg h2, if_neg h2]
          by_cases h3 : c = '('
          · rw [if_pos h3, if_pos h3]
            exact step none (d + 1)
          · rw [if_neg h3, if_neg h3]
            by_cases h4 : c = ')'
            · rw [if_pos h4, if_pos h4]
              exact step none (d - 1)
            · rw [if_neg h4, if_neg h4]
              exact step none d

theorem gdp_shift (delim : Char) (skipB : Bool) :
    ∀ (t : Str) (idx : Nat) (q : Option Char) (d : Int),
      get_delimiter_pos_go delim skipB t idx q d =
        (get_delimiter_pos_go delim skipB t 0 q d).map (· + idx) := by
  intro t
  induction t with
  | nil =>
    intro idx q d
    cases q <;> rfl
  | cons c rest ih =>
    intro idx q d
    have comp : ∀ (q2 : Option Char) (d2 : Int),
        get_delimiter_pos_go delim skipB rest (idx + 1) q2 d2 =
          (get_delimiter_pos_go delim skipB rest 1 q2 d2).map (· + idx) := by
      intro q2 d2
      rw [ih (idx + 1) q2 d2, ih 1 q2 d2]
      cases get_delimiter_pos_go delim skipB rest 0 q2 d2 with
      | error e => rfl
      | ok v =>
        dsimp only [Except.map]
        rw [Nat.add_assoc, Nat.add_comm 1 idx]
    cases q with
    | some qc =>
      unfold get_delimiter_pos_go
      split
      · exact comp none d
      · exact comp (some qc) d
    | none =>
      unfold get_delimiter_pos_go
      by_cases h1 : c = delim ∧ d = 0
      · rw [if_pos h1, if_pos h1]
        dsimp only [Except.map]
        rw [Nat.zero_add]
      · rw [if_neg h1, if_neg h1]
        by_cases h2 : c = quotC ∨ c = aposC
        · rw [if_pos h2, if_pos h2]
          exact comp (some c) d
        · rw [if_neg h2, if_neg h2]
          by_cases h3 : skipB = true ∧ c = '('
          · rw [if_pos h3, if_pos h3]
            exact comp none (d + 1)
          · rw [if_neg h3, if_neg h3]
            by_cases h4 : skipB = true ∧ c = ')'
            · rw [if_pos h4, if_pos h4]
              exact comp none (d - 1)
            · rw [if_neg h4, if_neg h4]
              exact comp none d

theorem gdp_step (delim c : Char) (skipB : Bool) (rest : Str) (idx : Nat)
    (d : Int) (h1 : ¬(c = delim ∧ d = 0)) (h2 : ¬(c = quotC ∨ c = aposC))
    (h3 : ¬(skipB = true ∧ c = '(')) (h4 : ¬(skipB = true ∧ c = ')')) :
    get_delimiter_pos_go delim skipB (c :: rest) idx none d =
      get_delimiter_pos_go delim skipB rest (idx + 1) none d := by
  have e : get_delimiter_pos_go delim skipB (c :: rest) idx none d =
      if c = delim ∧ d = 0 then Except.ok idx
      else if c = quotC ∨ c = aposC then
        get_delimiter_pos_go delim skipB rest (idx + 1) (some c) d
      else if skipB = true ∧ c = '(' then
        get_delimiter_pos_go delim skipB rest (idx + 1) none (d + 1)
      else if skipB = true ∧ c = ')' then
        get_delimiter_pos_go delim skipB rest (idx + 1) none (d - 1)
      else get_delimiter_pos_go delim skipB rest (idx + 1) none d := rfl
  rw [e, if_neg h1, if_neg h2, if_neg h3, if_neg h4]

theorem gdp_wordrun (delim : Char) (hd : isWordChar delim = false)
    (skipB : Bool) :
    ∀ {xs : Str}, (∀ c ∈ xs, isWordChar c = true) →
      ∀ (t : Str) (idx : Nat) (d : Int),
        get_delimiter_pos_go delim skipB (xs ++ t) idx none d =
          get_delimiter_pos_go delim skipB t (idx + xs.length) none d := by
  intro xs
  induction xs with
  | nil =>
    intro _ t idx d
    rfl
  | cons x xs ih =>
    intro h t idx d
    have hx := h x (List.mem_cons_self x xs)
    rw [List.cons_append,
      gdp_step delim x skipB (xs ++ t) idx d
        (fun hc => wchar_ne hx hd hc.1)
        (by
          rintro (hc | hc)
          · exact wchar_ne hx (by decide) hc
          · exact wchar_ne hx (by decide) hc)
        (fun hc => wchar_ne hx (by decide) hc.2)
        (fun hc => wchar_ne hx (by decide) hc.2),
      ih (fun c hc => h c (List.mem_cons_of_mem x hc)) t (idx + 1) d]
    congr 1
    simp [List.length_cons]
    omega

theorem scanGo_nonws_run {try1 : Str → Option (Str × Nat)}
    (htry : ∀ c r, isPyWs c = false → try1 (c :: r) = none) :
    ∀ {xs : Str}, (∀ c ∈ xs, isPyWs c = false) →
      ∀ (t : Str), scanGo try1 (xs ++ t) 0 = xs ++ scanGo try1 t 0 := by
  intro xs
  induction xs with
  | nil => intro _ t; rfl
  | cons x xs ih =>
    intro h t
    rw [List.cons_append]
    show (match try1 (x :: (xs ++ t)) with
      | some (e, k) => e ++ scanGo try1 (xs ++ t) (k - 1)
      | none => x :: scanGo try1 (xs ++ t) 0) = _
    rw [htry x (xs ++ t) (h x (List.mem_cons_self x xs))]
    dsimp only
    rw [ih (fun c hc => h c (List.mem_cons_of_mem x hc)) t]
    rfl

theorem trySized_nonws (kw size : Str) :
    ∀ c r, isPyWs c = false → trySized kw size (c :: r) = none := by
  intro c r h
  simp [trySized, h]

theorem tryBool_nonws :
    ∀ c r, isPyWs c = false → tryBool (c :: r) = none := by
  intro c r h
  simp [tryBool, h]

theorem tryAutoInc_nonws :
    ∀ c r, isPyWs c = false → tryAutoInc true (c :: r) = none := by
  intro c r h
  simp [tryAutoInc, List.takeWhile_cons, h]

theorem process_tail_wordrun {name : Str}
    (hn : ∀ c ∈ name, isWordChar c = true) (t : Str) :
    process_tail true ('`' :: name ++ t) =
      '`' :: name ++ process_tail true t := by
  have hnw : ∀ c ∈ ('`' :: name), isPyWs c = false := by
    intro c hc
    rcases List.mem_cons.mp hc with rfl | hc
    · decide
    · exact wchar_not_ws (hn c hc)
  have hrun : ∀ (try1 : Str → Option (Str × Nat)),
      (∀ c r, isPyWs c = false → try1 (c :: r) = none) →
      ∀ (u : Str), scanSub try1 ('`' :: name ++ u) =
        '`' :: name ++ scanSub try1 u := by
    intro try1 htry u
    exact scanGo_nonws_run htry hnw u
  unfold process_tail
  dsimp only
  rw [if_pos rfl, if_pos rfl]
  rw [hrun _ (trySized_nonws kwINT (("11").data)),
    hrun _ (trySized_nonws kwTINYINT (("3").data)),
    hrun _ (trySized_nonws kwSMALLINT (("6").data)),
    hrun _ (trySized_nonws kwBIGINT (("20").data)),
    hrun _ (trySized_nonws kwVARCHAR (("255").data)),
    hrun _ (trySized_nonws kwDATETIME (("6").data)),
    hrun _ tryBool_nonws,
    hrun _ tryAutoInc_nonws]

theorem matchCIP_head_ne {l c : Char} {ls cs : Str} (h : ciEq l c = false) :
    matchCIP (l :: ls) (c :: cs) = none := by
  unfold matchCIP
  rw [if_neg (by simp [h])]

theorem matchCIP_PRIMARY_ne {c : Char} {cs : Str} (h : ciEq 'P' c = false) :
    matchCIP kwPRIMARY (c :: cs) = none :=
  matchCIP_head_ne h

theorem matchCIP_UNIQUE_ne {c : Char} {cs : Str} (h : ciEq 'U' c = false) :
    matchCIP kwUNIQUE (c :: cs) = none :=
  matchCIP_head_ne h

theorem matchCIP_REFERENCES_ne {c : Char} {cs : Str} (h : ciEq 'R' c = false) :
    matchCIP kwREFERENCES (c :: cs) = none :=
  matchCIP_head_ne h

theorem findPU_step {c : Char} {t : Str} (hP : ciEq 'P' c = false)
    (hU : ciEq 'U' c = false) (hn : c ≠ '\n') :
    findPU (c :: t) = findPU t := by
  have e : findPU (c :: t) =
      (match matchCIP kwPRIMARY (c :: t) with
        | some (orig, _) => some orig
        | none =>
          match matchCIP kwUNIQUE (c :: t) with
          | some (orig, _) => some orig
          | none => if c = '\n' then none else findPU t) := rfl
  rw [e, matchCIP_PRIMARY_ne hP, matchCIP_UNIQUE_ne hU]
  dsimp only
  rw [if_neg hn]

theorem findREF_step {c : Char} {t : Str} (hR : ciEq 'R' c = false)
    (hn : c ≠ '\n') :
    findREF (c :: t) = findREF t := by
  have e : findREF (c :: t) =
      (match matchCIP kwREFERENCES (c :: t) with
        | some (orig, r) => some (orig ++ r.takeWhile (· ≠ '\n'))
        | none => if c = '\n' then none else findREF t) := rfl
  rw [e, matchCIP_REFERENCES_ne hR]
  dsimp only
  rw [if_neg hn]

theorem findPU_wordrun {xs : Str}
    (h : ∀ c ∈ xs, isWordChar c = true ∧ ciEq 'P' c = false ∧
      ciEq 'U' c = false) :
    ∀ (t : Str), findPU (xs ++ t) = findPU t := by
  induction xs with
  | nil => intro t; rfl
  | cons x xs ih =>
    intro t
    obtain ⟨hw, hP, hU⟩ := h x (List.mem_cons_self x xs)
    rw [List.cons_append, findPU_step hP hU (wchar_ne hw (by decide)),
      ih (fun c hc => h c (List.mem_cons_of_mem x hc)) t]

theorem findREF_wordrun {xs : Str}
    (h : ∀ c ∈ xs, isWordChar c = true ∧ ciEq 'R' c = false) :
    ∀ (t : Str), findREF (xs ++ t) = findREF t := by
  induction xs with
  | nil => intro t; rfl
  | cons x xs ih =>
    intro t
    obtain ⟨hw, hR⟩ := h x (List.mem_cons_self x xs)
    rw [List.cons_append, findREF_step hR (wchar_ne hw (by decide)),
      ih (fun c hc => h c (List.mem_cons_of_mem x hc)) t]

theorem findSome?_none {α β : Type} {f : α → Option β} :
    ∀ {l : List α}, (∀ x ∈ l, f x = none) → l.findSome? f = none := by
  intro l
  induction l with
  | nil => intro _; rfl
  | cons x xs ih =>
    intro h
    rw [List.findSome?_cons, h x (List.mem_cons_self x xs),
      ih fun y hy => h y (List.mem_cons_of_mem x hy)]

theorem laKwWs_none {kw s : Str} (h : matchCIP kw s = none) :
    laKwWs kw s = false := by
  unfold laKwWs
  rw [h]

theorem dropWsL_btick (u : Str) : dropWsL ('`' :: u) = '`' :: u := by
  unfold dropWsL
  rw [List.dropWhile_cons, if_neg (by decide)]

theorem matchCIP_KEY_ne {c : Char} {cs : Str} (h : ciEq 'K' c = false) :
    matchCIP kwKEY (c :: cs) = none :=
  matchCIP_head_ne h

theorem ident1Cands_line {name pt : Str} (hn1 : name ≠ [])
    (hn : ∀ c ∈ name, isWordChar c = true) :
    ident1Cands ('`' :: name ++ '`' :: pt) =
      [pt] ++ (List.range name.length).map
        (fun i => name.drop (name.length - i) ++ '`' :: pt) := by
  unfold ident1Cands
  rw [List.cons_append]
  dsimp only
  rw [if_pos (show ('`' : Char) = btickC from rfl),
    takeWhile_append_all hn, dropWhile_append_all hn,
    List.takeWhile_cons, List.dropWhile_cons,
    if_neg (show ¬(isWordChar '`' = true) from by decide),
    if_neg (show ¬(isWordChar '`' = true) from by decide),
    List.append_nil]
  rw [if_neg hn1]
  dsimp only
  rw [if_pos (show ('`' : Char) = btickC from rfl)]

theorem matchPU_none {name pt : Str} (hn1 : name ≠ [])
    (hn : ∀ c ∈ name, isWordChar c = true)
    (hP : ∀ c ∈ name, ciEq 'P' c = false)
    (hU : ∀ c ∈ name, ciEq 'U' c = false)
    (hfpu : findPU pt = none) :
    matchPU ('`' :: name ++ '`' :: pt) = none := by
  have l1 : laKwWs kwPRIMARY ('`' :: (name ++ '`' :: pt)) = false :=
    laKwWs_none (matchCIP_PRIMARY_ne (by decide))
  have l2 : laKwWs kwUNIQUE ('`' :: (name ++ '`' :: pt)) = false :=
    laKwWs_none (matchCIP_UNIQUE_ne (by decide))
  have l3 : laKwWs kwKEY ('`' :: (name ++ '`' :: pt)) = false :=
    laKwWs_none (matchCIP_KEY_ne (by decide))
  unfold matchPU
  rw [List.cons_append, if_neg (by rw [l1, l2, l3]; simp)]
  dsimp only
  rw [dropWsL_btick, ← List.cons_append, ident1Cands_line hn1 hn]
  refine findSome?_none ?_
  intro cand hcand
  rcases List.mem_append.mp hcand with hc | hc
  · simp only [List.mem_singleton] at hc
    subst hc
    rw [hfpu]
    rfl
  · obtain ⟨i, _, hci⟩ := List.mem_map.mp hc
    rw [← hci]
    rw [findPU_wordrun (fun c hcm =>
      ⟨hn c (List.mem_of_mem_drop hcm), hP c (List.mem_of_mem_drop hcm),
        hU c (List.mem_of_mem_drop hcm)⟩),
      findPU_step (by decide) (by decide) (by decide), hfpu]
    rfl

theorem matchREF_none {name pt : Str} (hn1 : name ≠ [])
    (hn : ∀ c ∈ name, isWordChar c = true)
    (hR : ∀ c ∈ name, ciEq 'R' c = false)
    (hfref : findREF pt = none) :
    matchREF ('`' :: name ++ '`' :: pt) = none := by
  have l1 : laKwWs kwCONSTRAINT ('`' :: (name ++ '`' :: pt)) = false :=
    laKwWs_none (matchCIP_head_ne (show ciEq 'C' '`' = false from by decide))
  have l2 : laForeignKeyWs ('`' :: (name ++ '`' :: pt)) = false := by
    unfold laForeignKeyWs
    rw [show matchCIP kwFOREIGN ('`' :: (name ++ '`' :: pt)) = none from
      matchCIP_head_ne (by decide)]
  unfold matchREF
  rw [List.cons_append, if_neg (by rw [l1, l2]; simp)]
  dsimp only
  rw [dropWsL_btick]
  dsimp only
  rw [if_pos (show ('`' : Char) = btickC from rfl),
    takeWhile_append_all hn, dropWhile_append_all hn,
    List.takeWhile_cons, List.dropWhile_cons,
    if_neg (show ¬(isWordChar '`' = true) from by decide),
    if_neg (show ¬(isWordChar '`' = true) from by decide),
    List.append_nil]
  rw [if_neg hn1]
  dsimp only
  rw [if_pos (show ('`' : Char) = btickC from rfl)]
  refine findSome?_none ?_
  intro cand hcand
  rcases List.mem_append.mp hcand with hc | hc
  · simp only [List.mem_singleton] at hc
    subst hc
    dsimp only
    rw [hfref]
    rfl
  · obtain ⟨i, _, hci⟩ := List.mem_map.mp hc
    rw [← hci]
    dsimp only
    rw [findREF_wordrun (fun c hcm =>
      ⟨hn c (List.mem_of_mem_drop hcm), hR c (List.mem_of_mem_drop hcm)⟩),
      findREF_step (by decide) (by decide), hfref]
    rfl

theorem matchFK_none (u : Str) : matchFK ('`' :: u) = none := by
  unfold matchFK
  rw [show matchCIP kwFOREIGN ('`' :: u) = none from matchCIP_head_ne (by decide)]

theorem process_line_eq (tn : Str) (L : Str) :
    process_line tn true L =
      (match matchPU (process_tail true L) with
       | some (g1, kw) =>
         ([scanSub tryPUDel (process_tail true L)], [mkPUBottom g1 kw])
       | none =>
         match matchREF (process_tail true L) with
         | some (w, refs) =>
           ([scanSub tryRefDel (process_tail true L)],
             [mkRefKey tn w, mkRefConstraint tn w refs])
         | none =>
           match matchFK (process_tail true L) with
           | some w =>
             ([mkRefKey tn w,
               ("CONSTRAINT ").data ++ btickC :: fkName tn w ++
                 btickC :: ' ' :: (process_tail true L)], [])
           | none => ([process_tail true L], [])) := rfl

theorem process_line_generic {name pt ptF : Str} (hn1 : name ≠ [])
    (hn : ∀ c ∈ name, isWordChar c = true)
    (hP : ∀ c ∈ name, ciEq 'P' c = false)
    (hU : ∀ c ∈ name, ciEq 'U' c = false)
    (hR : ∀ c ∈ name, ciEq 'R' c = false)
    (hpt8 : process_tail true ('`' :: pt) = '`' :: ptF)
    (hfpu : findPU ptF = none) (hfref : findREF ptF = none) :
    process_line (("t").data) true ('`' :: name ++ '`' :: pt) =
      (['`' :: name ++ '`' :: ptF], []) := by
  rw [process_line_eq]
  rw [show process_tail true ('`' :: name ++ '`' :: pt) =
      '`' :: name ++ '`' :: ptF from by
    rw [process_tail_wordrun hn ('`' :: pt), hpt8]]
  rw [matchPU_none hn1 hn hP hU hfpu]
  dsimp only
  rw [matchREF_none hn1 hn hR hfref]
  dsimp only
  rw [List.cons_append, matchFK_none]

theorem take_append_len :
    ∀ (xs : Str) (m : Nat) (t : Str), (xs ++ t).take (xs.length + m) = xs ++ t.take m := by
  intro xs
  induction xs with
  | nil => intro m t; simp
  | cons x xs ih =>
    intro m t
    rw [List.cons_append, List.length_cons]
    rw [show xs.length + 1 + m = (xs.length + m) + 1 from by omega]
    rw [List.take_succ_cons, ih m t]
    rfl

theorem drop_append_len :
    ∀ (xs : Str) (m : Nat) (t : Str), (xs ++ t).drop (xs.length + m) = t.drop m := by
  intro xs
  induction xs with
  | nil => intro m t; simp
  | cons x xs ih =>
    intro m t
    rw [List.cons_append, List.length_cons]
    rw [show xs.length + 1 + m = (xs.length + m) + 1 from by omega]
    rw [List.drop_succ_cons, ih m t]

theorem dropWhile_append_of_ne_nil {p : Char → Bool} {u w : Str}
    (h : u.dropWhile p = w) (hw : w ≠ []) (v : Str) :
    (u ++ v).dropWhile p = w ++ v := by
  cases hww : w with
  | nil => exact absurd hww hw
  | cons c r =>
    rw [hww] at h
    rw [dropWhile_append_cons h v]

theorem stripL_line {name u pt : Str}
    (hn : ∀ c ∈ name, isWordChar c = true)
    (hpt : ((('`' :: u).reverse).dropWhile fun c => isPyWs c).reverse =
      '`' :: pt) :
    stripL ('`' :: name ++ '`' :: u) = '`' :: name ++ '`' :: pt := by
  unfold stripL
  rw [List.cons_append, List.dropWhile_cons,
    if_neg (show ¬(isPyWs '`' = true) from by decide)]
  rw [show ('`' : Char) :: (name ++ '`' :: u) = ('`' :: name) ++ ('`' :: u)
    from by rw [List.cons_append]]
  rw [List.reverse_append]
  have hpt2 : (('`' :: u).reverse).dropWhile (fun c => isPyWs c) =
      ('`' :: pt).reverse := by
    rw [← hpt, List.reverse_reverse]
  have hne : (('`' :: pt).reverse : Str) ≠ [] := by simp
  rw [dropWhile_append_of_ne_nil hpt2 hne, List.reverse_append,
    List.reverse_reverse, List.reverse_reverse, List.cons_append]

theorem split_commas_line {name bt : Str}
    (hn : ∀ c ∈ name, isWordChar c = true)
    (hsc : split_commas_go bt none 0 [] = ([], bt)) :
    split_commas ('`' :: name ++ '`' :: bt) =
      ([], '`' :: name ++ '`' :: bt) := by
  unfold split_commas
  rw [List.cons_append,
    split_commas_go_step '`' (name ++ '`' :: bt) 0 []
      (fun hc => absurd hc.1 (by decide)) (by decide) (by decide) (by decide),
    split_commas_go_wordrun hn ('`' :: bt) ['`'],
    split_commas_go_step '`' bt 0 (name.reverse ++ ['`'])
      (fun hc => absurd hc.1 (by decide)) (by decide) (by decide) (by decide),
    split_commas_go_acc bt none 0 ('`' :: (name.reverse ++ ['`'])), hsc]
  simp [accAdjust]

theorem gdp_line {name bt : Str} {j : Nat}
    (hn : ∀ c ∈ name, isWordChar c = true)
    (hj : get_delimiter_pos_go ')' true bt 0 none 0 = .ok j) :
    get_delimiter_pos ('`' :: name ++ '`' :: bt) 0 ')' true =
      .ok (name.length + 2 + j) := by
  unfold get_delimiter_pos
  rw [show (('`' :: name ++ '`' :: bt).drop 0 : Str) = '`' :: name ++ '`' :: bt
    from rfl]
  rw [List.cons_append,
    gdp_step ')' '`' true (name ++ '`' :: bt) 0 0
      (fun hc => absurd hc.1 (by decide)) (by decide)
      (fun hc => absurd hc.2 (by decide)) (fun hc => absurd hc.2 (by decide)),
    gdp_wordrun ')' (by decide) true hn ('`' :: bt) 1 0,
    gdp_step ')' '`' true bt (1 + name.length) 0
      (fun hc => absurd hc.1 (by decide)) (by decide)
      (fun hc => absurd hc.2 (by decide)) (fun hc => absurd hc.2 (by decide)),
    gdp_shift ')' true bt (1 + name.length + 1) none 0, hj]
  dsimp only [Except.map]
  congr 1
  omega

theorem split_schema_generic {name bt : Str} {j : Nat} {pt ptF sfx : Str}
    (hn1 : name ≠ []) (hn : ∀ c ∈ name, isWordChar c = true)
    (hP : ∀ c ∈ name, ciEq 'P' c = false)
    (hU : ∀ c ∈ name, ciEq 'U' c = false)
    (hR : ∀ c ∈ name, ciEq 'R' c = false)
    (hsc : split_commas_go bt none 0 [] = ([], bt))
    (hj : get_delimiter_pos_go ')' true bt 0 none 0 = .ok j)
    (hpt : ((('`' :: bt.take j).reverse).dropWhile fun c => isPyWs c).reverse =
      '`' :: pt)
    (hpt8 : process_tail true ('`' :: pt) = '`' :: ptF)
    (hfpu : findPU ptF = none) (hfref : findREF ptF = none)
    (hsfx : stripL (bt.drop j) = sfx) (hsfx0 : sfx ≠ []) :
    split_table_schema (("t").data)
        ((("CREATE TABLE `t` (").data) ++ '`' :: name ++ '`' :: bt) true =
      .ok [(("CREATE TABLE `t` (").data), '`' :: name ++ '`' :: ptF, sfx] := by
  unfold split_table_schema
  dsimp only [Bind.bind, Except.bind, pure, Except.pure]
  rw [show get_delimiter_pos
      ((("CREATE TABLE `t` (").data) ++ '`' :: name ++ '`' :: bt) 0 '(' false =
      .ok 17 from rfl]
  dsimp only
  rw [show (((("CREATE TABLE `t` (").data) ++ '`' :: name ++ '`' :: bt).take
      (17 + 1) : Str) = (("CREATE TABLE `t` (").data) from rfl]
  rw [show (((("CREATE TABLE `t` (").data) ++ '`' :: name ++ '`' :: bt).drop
      (17 + 1) : Str) = '`' :: name ++ '`' :: bt from rfl]
  rw [split_commas_line hn hsc]
  dsimp only
  rw [gdp_line hn hj]
  dsimp only
  rw [show (('`' :: name ++ '`' :: bt).take (name.length + 2 + j) : Str) =
      '`' :: name ++ '`' :: bt.take j from by
    rw [show ('`' :: name ++ '`' :: bt : Str) =
        ('`' :: name ++ ['`']) ++ bt from by simp,
      show name.length + 2 + j = ('`' :: name ++ ['`'] : Str).length + j
        from by simp,
      take_append_len]
    simp]
  rw [show (('`' :: name ++ '`' :: bt).drop (name.length + 2 + j) : Str) =
      bt.drop j from by
    rw [show ('`' :: name ++ '`' :: bt : Str) =
        ('`' :: name ++ ['`']) ++ bt from by simp,
      show name.length + 2 + j = ('`' :: name ++ ['`'] : Str).length + j
        from by simp,
      drop_append_len]]
  rw [List.nil_append]
  dsimp only [List.map]
  rw [stripL_line hn hpt, process_line_generic hn1 hn hP hU hR hpt8 hfpu hfref,
    hsfx]
  rw [if_neg hsfx0]
  dsimp only [List.map, List.flatten]
  simp

theorem collapseGo_step {c : Char} (h : isPyWs c = false) (u : Str)
    (b : Bool) :
    collapseGo (c :: u) b = c :: collapseGo u false := by
  have e : collapseGo (c :: u) b =
      if isPyWs c = true then
        (if b then collapseGo u true else ' ' :: collapseGo u true)
      else c :: collapseGo u false := rfl
  rw [e, if_neg (by simp [h])]

theorem colPatMatch_line {name ptF : Str} (hn1 : name ≠ [])
    (hn : ∀ c ∈ name, isWordChar c = true) :
    colPatMatch ('`' :: name ++ '`' :: ptF) = some ('`' :: name ++ ['`']) := by
  unfold colPatMatch
  rw [List.cons_append]
  dsimp only
  rw [if_pos (show ('`' : Char) = btickC from rfl),
    takeWhile_append_all hn, dropWhile_append_all hn,
    List.takeWhile_cons, List.dropWhile_cons,
    if_neg (show ¬(isWordChar '`' = true) from by decide),
    if_neg (show ¬(isWordChar '`' = true) from by decide),
    List.append_nil]
  rw [if_neg hn1]
  dsimp only
  rw [if_pos (show ('`' : Char) = btickC from rfl)]
  rfl

theorem eank_line {name ptF : Str} (hn1 : name ≠ [])
    (hn : ∀ c ∈ name, isWordChar c = true) :
    ∃ K, extract_and_normalize_keys ('`' :: name ++ '`' :: ptF) =
      ('!' :: '`' :: K, '`' :: name ++ '`' :: ptF) := by
  unfold extract_and_normalize_keys
  have hk : keyPatMatch ('`' :: (name ++ '`' :: ptF)) = none := by
    unfold keyPatMatch keyAltA keyWithPfx keyPatCore
    rw [matchCIP_PRIMARY_ne (by decide), matchCIP_UNIQUE_ne (by decide),
      show matchCIP kwFULLTEXT ('`' :: (name ++ '`' :: ptF)) = none from
        matchCIP_head_ne (by decide),
      matchCIP_KEY_ne (by decide)]
  have hc : consPatMatch ('`' :: (name ++ '`' :: ptF)) = none := by
    unfold consPatMatch
    rw [show matchCIP kwCONSTRAINT ('`' :: (name ++ '`' :: ptF)) = none from
      matchCIP_head_ne (by decide)]
  rw [List.cons_append, hk]
  dsimp only
  rw [hc]
  dsimp only
  rw [← List.cons_append, colPatMatch_line hn1 hn]
  dsimp only
  refine ⟨collapseGo (toLowerL (name ++ ['`'])) false, ?_⟩
  unfold normalize_str toLowerL
  rw [show (('!' :: ('`' :: name ++ ['`']) : Str).map Char.toLower : Str) =
      '!' :: '`' :: (name ++ ['`']).map Char.toLower from by
    rw [List.map_cons, List.cons_append, List.map_cons]
    rfl]
  rw [collapseGo_step (by decide), collapseGo_step (by decide),
    List.cons_append]

theorem compare_generic {name bt1 bt2 : Str} {j1 j2 : Nat}
    {pt1 pt2 ptF sfx : Str}
    (hn1 : name ≠ []) (hn : ∀ c ∈ name, isWordChar c = true)
    (hP : ∀ c ∈ name, ciEq 'P' c = false)
    (hU : ∀ c ∈ name, ciEq 'U' c = false)
    (hR : ∀ c ∈ name, ciEq 'R' c = false)
    (hsc1 : split_commas_go bt1 none 0 [] = ([], bt1))
    (hj1 : get_delimiter_pos_go ')' true bt1 0 none 0 = .ok j1)
    (hpt1 : ((('`' :: bt1.take j1).reverse).dropWhile
      fun c => isPyWs c).reverse = '`' :: pt1)
    (hpt81 : process_tail true ('`' :: pt1) = '`' :: ptF)
    (hsfx1 : stripL (bt1.drop j1) = sfx)
    (hsc2 : split_commas_go bt2 none 0 [] = ([], bt2))
    (hj2 : get_delimiter_pos_go ')' true bt2 0 none 0 = .ok j2)
    (hpt2 : ((('`' :: bt2.take j2).reverse).dropWhile
      fun c => isPyWs c).reverse = '`' :: pt2)
    (hpt82 : process_tail true ('`' :: pt2) = '`' :: ptF)
    (hsfx2 : stripL (bt2.drop j2) = sfx)
    (hfpu : findPU ptF = none) (hfref : findREF ptF = none)
    (hsfx0 : sfx ≠ []) :
    compare_table_sql (("t").data)
        ((("CREATE TABLE `t` (").data) ++ '`' :: name ++ '`' :: bt1)
        ((("CREATE TABLE `t` (").data) ++ '`' :: name ++ '`' :: bt2) true =
      .ok [] := by
  unfold compare_table_sql
  dsimp only [Bind.bind, Except.bind, pure, Except.pure]
  rw [split_schema_generic hn1 hn hP hU hR hsc1 hj1 hpt1 hpt81 hfpu hfref
      hsfx1 hsfx0,
    split_schema_generic hn1 hn hP hU hR hsc2 hj2 hpt2 hpt82 hfpu hfref
      hsfx2 hsfx0]
  dsimp only
  obtain ⟨K, hK⟩ := @eank_line name ptF hn1 hn
  have hpd : partsDict
      [(("CREATE TABLE `t` (").data), '`' :: name ++ '`' :: ptF, sfx] =
        [(('!' :: '`' :: K : Str), '`' :: name ++ '`' :: ptF)] := by
    unfold partsDict
    dsimp only [List.drop, List.dropLast, List.map]
    rw [hK]
    rfl
  rw [hpd]
  have hfk : fkIndexesPresent
      [(('!' :: '`' :: K : Str), '`' :: name ++ '`' :: ptF)] = true := rfl
  rw [ensureFkIndexes_noop hfk, diffOfDicts_self]

set_option maxHeartbeats 2000000 in
/-- C5 (amended): for every column name made of word characters that
avoids the initial letters of the inline-key matchers (no `P`, `U` or `R`
up to case), and for each of the seven bare/sized type pairs, the two
one-column schemas that differ only in that type spelling compare with no
diff in either direction, provided the bare keyword is followed by
further declaration text (here `NOT NULL`); with nothing after the bare
keyword the size rewrite does not fire (see the counterexample). -/
theorem claim_default_size_equiv (name : Str)
    (hn1 : name ≠ []) (hn : ∀ c ∈ name, isWordChar c = true)
    (hP : ∀ c ∈ name, ciEq 'P' c = false)
    (hU : ∀ c ∈ name, ciEq 'U' c = false)
    (hR : ∀ c ∈ name, ciEq 'R' c = false) :
    ∀ p ∈ sizePairs,
      compare_table_sql (("t").data) (mkDecl name p.1) (mkDecl name p.2)
        true = .ok [] ∧
      compare_table_sql (("t").data) (mkDecl name p.2) (mkDecl name p.1)
        true = .ok [] := by
  intro p hp
  simp only [sizePairs, List.mem_cons, List.not_mem_nil, or_false] at hp
  rcases hp with rfl | rfl | rfl | rfl | rfl | rfl | rfl
  · exact ⟨@compare_generic name ((((" INT NOT NULL").data : Str)) ++ [')']) ((((" INT(11) NOT NULL").data : Str)) ++ [')']) ((" INT NOT NULL").data : Str).length ((" INT(11) NOT NULL").data : Str).length ((" INT NOT NULL").data) ((" INT(11) NOT NULL").data) ((" INT(11) NOT NULL").data) ([')']) hn1 hn hP hU hR (by decide) (by decide) (by decide) (by decide) (by decide) (by decide) (by decide) (by decide) (by decide) (by decide) (by decide) (by decide) (by decide),
      @compare_generic name ((((" INT(11) NOT NULL").data : Str)) ++ [')']) ((((" INT NOT NULL").data : Str)) ++ [')']) ((" INT(11) NOT NULL").data : Str).length ((" INT NOT NULL").data : Str).length ((" INT(11) NOT NULL").data) ((" INT NOT NULL").data) ((" INT(11) NOT NULL").data) ([')']) hn1 hn hP hU hR (by decide) (by decide) (by decide) (by decide) (by decide) (by decide) (by decide) (by decide) (by decide) (by decide) (by decide) (by decide) (by decide)⟩
  · exact ⟨@compare_generic name ((((" TINYINT NOT NULL").data : Str)) ++ [')']) ((((" TINYINT(3) NOT NULL").data : Str)) ++ [')']) ((" TINYINT NOT NULL").data : Str).length ((" TINYINT(3) NOT NULL").data : Str).length ((" TINYINT NOT NULL").data) ((" TINYINT(3) NOT NULL").data) ((" TINYINT(3) NOT NULL").data) ([')']) hn1 hn hP hU hR (by decide) (by decide) (by decide) (by decide) (by decide) (by decide) (by decide) (by decide) (by decide) (by decide) (by decide) (by decide) (by decide),
      @compare_generic name ((((" TINYINT(3) NOT NULL").data : Str)) ++ [')']) ((((" TINYINT NOT NULL").data : Str)) ++ [')']) ((" TINYINT(3) NOT NULL").data : Str).length ((" TINYINT NOT NULL").data : Str).length ((" TINYINT(3) NOT NULL").data) ((" TINYINT NOT NULL").data) ((" TINYINT(3) NOT NULL").data) ([')']) hn1 hn hP hU hR (by decide) (by decide) (by decide) (by decide) (by decide) (by decide) (by decide) (by decide) (by decide) (by decide) (by decide) (by decide) (by decide)⟩
  · exact ⟨@compare_generic name ((((" SMALLINT NOT NULL").data : Str)) ++ [')']) ((((" SMALLINT(6) NOT NULL").data : Str)) ++ [')']) ((" SMALLINT NOT NULL").data : Str).length ((" SMALLINT(6) NOT NULL").data : Str).length ((" SMALLINT NOT NULL").data) ((" SMALLINT(6) NOT NULL").data) ((" SMALLINT(6) NOT NULL").data) ([')']) hn1 hn hP hU hR (by decide) (by decide) (by decide) (by decide) (by decide) (by decide) (by decide) (by decide) (by decide) (by decide) (by decide) (by decide) (by decide),
      @compare_generic name ((((" SMALLINT(6) NOT NULL").data : Str)) ++ [')']) ((((" SMALLINT NOT NULL").data : Str)) ++ [')']) ((" SMALLINT(6) NOT NULL").data : Str).length ((" SMALLINT NOT NULL").data : Str).length ((" SMALLINT(6) NOT NULL").data) ((" SMALLINT NOT NULL").data) ((" SMALLINT(6) NOT NULL").data) ([')']) hn1 hn hP hU hR (by decide) (by decide) (by decide) (by decide) (by decide) (by decide) (by decide) (by decide) (by decide) (by decide) (by decide) (by decide) (by decide)⟩
  · exact ⟨@compare_generic name ((((" BIGINT NOT NULL").data : Str)) ++ [')']) ((((" BIGINT(20) NOT NULL").data : Str)) ++ [')']) ((" BIGINT NOT NULL").data : Str).length ((" BIGINT(20) NOT NULL").data : Str).length ((" BIGINT NOT NULL").data) ((" BIGINT(20) NOT NULL").data) ((" BIGINT(20) NOT NULL").data) ([')']) hn1 hn hP hU hR (by decide) (by decide) (by decide) (by decide) (by decide) (by decide) (by decide) (by decide) (by decide) (by decide) (by decide) (by decide) (by decide),
      @compare_generic name ((((" BIGINT(20) NOT NULL").data : Str)) ++ [')']) ((((" BIGINT NOT NULL").data : Str)) ++ [')']) ((" BIGINT(20) NOT NULL").data : Str).length ((" BIGINT NOT NULL").data : Str).length ((" BIGINT(20) NOT NULL").data) ((" BIGINT NOT NULL").data) ((" BIGINT(20) NOT NULL").data) ([')']) hn1 hn hP hU hR (by decide) (by decide) (by decide) (by decide) (by decide) (by decide) (by decide) (by decide) (by decide) (by decide) (by decide) (by decide) (by decide)⟩
  · exact ⟨@compare_generic name ((((" VARCHAR NOT NULL").data : Str)) ++ [')']) ((((" VARCHAR(255) NOT NULL").data : Str)) ++ [')']) ((" VARCHAR NOT NULL").data : Str).length ((" VARCHAR(255) NOT NULL").data : Str).length ((" VARCHAR NOT NULL").data) ((" VARCHAR(255) NOT NULL").data) ((" VARCHAR(255) NOT NULL").data) ([')']) hn1 hn hP hU hR (by decide) (by decide) (by decide) (by decide) (by decide) (by decide) (by decide) (by decide) (by decide) (by decide) (by decide) (by decide) (by decide),
      @compare_generic name ((((" VARCHAR(255) NOT NULL").data : Str)) ++ [')']) ((((" VARCHAR NOT NULL").data : Str)) ++ [')']) ((" VARCHAR(255) NOT NULL").data : Str).length ((" VARCHAR NOT NULL").data : Str).length ((" VARCHAR(255) NOT NULL").data) ((" VARCHAR NOT NULL").data) ((" VARCHAR(255) NOT NULL").data) ([')']) hn1 hn hP hU hR (by decide) (by decide) (by decide) (by decide) (by decide) (by decide) (by decide) (by decide) (by decide) (by decide) (by decide) (by decide) (by decide)⟩
  · exact ⟨@compare_generic name ((((" DATETIME NOT NULL").data : Str)) ++ [')']) ((((" DATETIME(6) NOT NULL").data : Str)) ++ [')']) ((" DATETIME NOT NULL").data : Str).length ((" DATETIME(6) NOT NULL").data : Str).length ((" DATETIME NOT NULL").data) ((" DATETIME(6) NOT NULL").data) ((" DATETIME(6) NOT NULL").data) ([')']) hn1 hn hP hU hR (by decide) (by decide) (by decide) (by decide) (by decide) (by decide) (by decide) (by decide) (by decide) (by decide) (by decide) (by decide) (by decide),
      @compare_generic name ((((" DATETIME(6) NOT NULL").data : Str)) ++ [')']) ((((" DATETIME NOT NULL").data : Str)) ++ [')']) ((" DATETIME(6) NOT NULL").data : Str).length ((" DATETIME NOT NULL").data : Str).length ((" DATETIME(6) NOT NULL").data) ((" DATETIME NOT NULL").data) ((" DATETIME(6) NOT NULL").data) ([')']) hn1 hn hP hU hR (by decide) (by decide) (by decide) (by decide) (by decide) (by decide) (by decide) (by decide) (by decide) (by decide) (by decide) (by decide) (by decide)⟩
  · exact ⟨@compare_generic name ((((" BOOL NOT NULL").data : Str)) ++ [')']) ((((" TINYINT(1) NOT NULL").data : Str)) ++ [')']) ((" BOOL NOT NULL").data : Str).length ((" TINYINT(1) NOT NULL").data : Str).length ((" BOOL NOT NULL").data) ((" TINYINT(1) NOT NULL").data) ((" TINYINT(1) NOT NULL").data) ([')']) hn1 hn hP hU hR (by decide) (by decide) (by decide) (by decide) (by decide) (by decide) (by decide) (by decide) (by decide) (by decide) (by decide) (by decide) (by decide),
      @compare_generic name ((((" TINYINT(1) NOT NULL").data : Str)) ++ [')']) ((((" BOOL NOT NULL").data : Str)) ++ [')']) ((" TINYINT(1) NOT NULL").data : Str).length ((" BOOL NOT NULL").data : Str).length ((" TINYINT(1) NOT NULL").data) ((" BOOL NOT NULL").data) ((" TINYINT(1) NOT NULL").data) ([')']) hn1 hn hP hU hR (by decide) (by decide) (by decide) (by decide) (by decide) (by decide) (by decide) (by decide) (by decide) (by decide) (by decide) (by decide) (by decide)⟩

/-- C5 is refuted as stated: when the bare type keyword ends the
declaration, the size-default rewrite (which requires a following word
character) does not fire, so `` `a` INT `` and `` `a` INT(11) `` compare
as a modification diff rather than as equal. -/
theorem claim_default_size_cex :
    compare_table_sql (("t").data)
        (("CREATE TABLE `t` (`a` INT)").data)
        (("CREATE TABLE `t` (`a` INT(11))").data) true =
      .ok [DiffInfo.mk (("`a` INT").data) (("`a` INT(11)").data)] := by
  decide

theorem claim_default_size_equiv_witness :
    compare_table_sql (("t").data)
        (mkDecl (("col").data) ((" INT NOT NULL").data))
        (mkDecl (("col").data) ((" INT(11) NOT NULL").data)) true = .ok [] ∧
    compare_table_sql (("t").data)
        (mkDecl (("col").data) ((" INT(11) NOT NULL").data))
        (mkDecl (("col").data) ((" INT NOT NULL").data)) true = .ok [] :=
  claim_default_size_equiv (("col").data) (by decide) (by decide) (by decide)
    (by decide) (by decide)
    (((" INT NOT NULL").data), ((" INT(11) NOT NULL").data)) (by decide)
